import Mathlib

/-!
Deep belief networks and RBM training (dll).

A shallow embedding of the layer composition code of `include/dbn.hpp`, of the
epoch and batch orchestration of `include/dll/rbm_trainer.hpp`, and of the
energy functions and the data based bias initialisation of
`include/dll/standard_rbm.hpp`.

Conventions of the embedding.

* A C++ `double` is an element of an ordered field `α`; concrete evaluations are
  carried out over `ℚ`, statements that need `exp` and `log` over `ℝ`.
* A `vector<double>` is a `List α`; writing a slot is `List.set`, a freshly
  constructed vector of size `n` is `List.replicate n 0`.
* `std::size_t` values are natural numbers.
* Mutable objects are passed explicitly: a function that mutates an RBM returns
  the new RBM.
* Calls whose order matters (training calls, activation calls, watcher
  notifications) are recorded in a log that the embedded function returns.
* A failed assertion ends the function with its message; a floating point
  quotient by a zero counter, which is not a number of the field, is `none`.
-/

set_option autoImplicit false

namespace dbn

/-- One element of the layer tuple of `dbn<Layers...>`: the compile time constants
`rbm_type<N>::num_visible` and `rbm_type<N>::num_hidden` together with the
mutable state of the machine. -/
structure Layer (R : Type) where
  num_visible : Nat
  num_hidden : Nat
  rbm : R

/-- Modelled from the spec: the member functions of the layer type `rbm<Layer>`
(header `rbm.hpp` of namespace `dbn`), which `dbn.hpp` only calls.
`train` is the orchestrated training of one machine on a dataset,
`activate_hidden rbm h v` is the call `rbm.activate_hidden(h, v)` and yields the new
contents of the output argument `h`, `activate_visible rbm hs v` is the call
`rbm.activate_visible(hs, v)` and yields the new contents of `v`, and
`bernoulli g h1 hs` is the static sampler `rbm_type::bernoulli(h1, hs)` run with the
random generator in state `g`. The output arguments are fixed size vectors, so the
calls keep their sizes. -/
structure RbmOps (R α G : Type) where
  train : R → List (List α) → Nat → R
  activate_hidden : R → List α → List α → List α
  activate_visible : R → List α → List α → List α
  bernoulli : G → List α → List α → List α × G
  activate_hidden_size : ∀ r h v, (activate_hidden r h v).length = h.length
  activate_visible_size : ∀ r hs v, (activate_visible r hs v).length = v.length

variable {R α G : Type}

/-- The constant `layers = sizeof...(Layers)`. -/
def layers (tuples : List (Layer R)) : Nat := tuples.length

/-- The member `num_visible<N>()`. -/
def num_visible (tuples : List (Layer R)) (N : Nat) : Nat :=
  (tuples[N]?.map Layer.num_visible).getD 0

/-- The member `num_hidden<N>()`. -/
def num_hidden (tuples : List (Layer R)) (N : Nat) : Nat :=
  (tuples[N]?.map Layer.num_hidden).getD 0

/-- The inner loop of the label injection of `train_rbm_layers`:
`for l < labels: next[i][num_hidden<I>() + l] = (label == l) ? 1 : 0`. -/
def set_label_units [Zero α] [One α] (nh labels label : Nat) (next_item : List α) : List α :=
  (List.range labels).foldl
    (fun v l => if label = l then v.set (nh + l) 1 else v.set (nh + l) 0) next_item

/-- The outer loop of the label injection of `train_rbm_layers`:
`for i < training_labels.size(): label = training_labels[i]; ...`. -/
def append_label_units [Zero α] [One α] (nh labels : Nat) (training_labels : List Nat)
    (next : List (List α)) : List (List α) :=
  (List.range training_labels.length).foldl
    (fun nx i => List.modify (set_label_units nh labels (training_labels.getD i 0)) i nx) next

/-- The dataset `next` that `train_rbm_layers<I>` (case `I < layers - 1`) builds for layer
`I + 1` from the trained machine `rbm` of layer `I`. -/
def next_dataset [Zero α] [One α] (ops : RbmOps R α G) (nh : Nat) (rbm : R)
    (append_labels : Bool) (training_data : List (List α)) (training_labels : List Nat)
    (labels : Nat) : List (List α) :=
  let next := training_data.map
    (fun training_item =>
      ops.activate_hidden rbm (List.replicate (nh + (if append_labels then labels else 0)) 0)
        training_item)
  if append_labels then append_label_units nh labels training_labels next else next

/-- The two overloads of `train_rbm_layers<I>`. The list argument holds the layers
`I, I + 1, ..., layers - 1`: it is a singleton exactly when `I == layers - 1`, and
`I + 1 == layers - 1` exactly when one layer follows its head. The result is the
trained layers together with the datasets handed to the successive `train` calls. -/
def train_rbm_layers [Zero α] [One α] (ops : RbmOps R α G) (max_epochs : Nat)
    (training_labels : List Nat) (labels : Nat) :
    List (Layer R) → List (List α) → List (Layer R) × List (List (List α))
  | [], _ => ([], [])
  | [last], training_data =>
      ([{ last with rbm := ops.train last.rbm training_data max_epochs }], [training_data])
  | layer :: following :: rest, training_data =>
      let rbm := ops.train layer.rbm training_data max_epochs
      let append_labels := decide ((following :: rest).length = 1) && !training_labels.isEmpty
      let next := next_dataset ops layer.num_hidden rbm append_labels training_data
        training_labels labels
      let r := train_rbm_layers ops max_epochs training_labels labels (following :: rest) next
      ({ layer with rbm := rbm } :: r.1, training_data :: r.2)

/-- The member `pretrain`: no labels, `labels = 0`. -/
def pretrain [Zero α] [One α] (ops : RbmOps R α G) (tuples : List (Layer R))
    (training_data : List (List α)) (max_epochs : Nat) :
    List (Layer R) × List (List (List α)) :=
  train_rbm_layers ops max_epochs [] 0 tuples training_data


/-- Modelled from the spec: the macro `dbn_assert(condition, message)` (its header is not
part of the sources); a violated condition is fatal and reports the message. -/
def dbn_assert (condition : Bool) (message : String) : Except String Unit :=
  if condition then .ok () else .error message

/-- The calls that `activate_layers` and `deep_activate_layers` make on the machines of the
layers, in the order in which they make them: `rbm.activate_hidden(h, v)` with the machine
and the vector `v` that the call reads, and `rbm.activate_visible(hs, v)` with the machine
and the sample `hs` that the call reads. -/
inductive Activation (R α : Type) where
  | activate_hidden (rbm : R) (v : List α)
  | activate_visible (rbm : R) (hs : List α)
deriving DecidableEq

/-- The loop `for l < labels: next[num_hidden<I>() + l] = 0.1` of `activate_layers` and of
`deep_activate_layers`. -/
def set_placeholder_units [DivisionRing α] (nh labels : Nat) (next : List α) : List α :=
  (List.range labels).foldl (fun v l => v.set (nh + l) 0.1) next

/-- The two overloads of `activate_layers<I>`; the list argument holds the layers
`I, ..., layers - 1` as in `train_rbm_layers`. The static scratch vectors are taken at
their initial contents. The result is the new contents of `output`, the state of the
random generator, and the calls made on the machines, in order. -/
def activate_layers [DivisionRing α] (ops : RbmOps R α G) (labels : Nat) :
    List (Layer R) → List α → List α → G → List α × G × List (Activation R α)
  | [], _, output, g => (output, g, [])
  | [last], input, output, g =>
      let h1 : List α := List.replicate last.num_hidden 0
      let hs : List α := List.replicate last.num_hidden 0
      let h1 := ops.activate_hidden last.rbm h1 input
      let s := ops.bernoulli g h1 hs
      (ops.activate_visible last.rbm s.1 output, s.2,
        [Activation.activate_hidden last.rbm input, Activation.activate_visible last.rbm s.1])
  | layer :: following :: rest, input, output, g =>
      let next : List α := List.replicate following.num_visible 0
      let next := ops.activate_hidden layer.rbm next input
      let next := if (following :: rest).length = 1
        then set_placeholder_units layer.num_hidden labels next else next
      let r := activate_layers ops labels (following :: rest) next output g
      (r.1, r.2.1, Activation.activate_hidden layer.rbm input :: r.2.2)

/-- The scan over the label units that closes `predict` and `deep_predict`:
`label = 0; max = 0; for l < labels: value = output[num_visible<layers - 1>() - labels + l];
if(value > max) then max = value; label = l`. The state is the pair `(label, max)`. -/
def scan_label_units [LinearOrderedField α] (nv labels : Nat) (output : List α) : Nat × α :=
  (List.range labels).foldl
    (fun st l =>
      let value := output.getD (nv - labels + l) 0
      if value > st.2 then (l, value) else st)
    (0, 0)

/-- The vector `output` of `predict` after the call `activate_layers<0>(item, labels, output)`. -/
def predict_output [LinearOrderedField α] (ops : RbmOps R α G) (tuples : List (Layer R))
    (item : List α) (labels : Nat) (g : G) : List α :=
  (activate_layers ops labels tuples item
    (List.replicate (num_visible tuples (layers tuples - 1)) 0) g).1

/-- The member `predict`. The second component holds the calls made on the machines of
the layers when the function is left, also when it is left by the failed assertion. -/
def predict [LinearOrderedField α] (ops : RbmOps R α G) (tuples : List (Layer R))
    (item : List α) (labels : Nat) (g : G) : Except String Nat × List (Activation R α) :=
  match dbn_assert
      (decide (num_visible tuples (layers tuples - 1)
        = num_hidden tuples (layers tuples - 2) + labels))
      "There is no room for the labels units" with
  | .error e => (.error e, [])
  | .ok _ =>
    let r := activate_layers ops labels tuples item
      (List.replicate (num_visible tuples (layers tuples - 1)) 0) g
    (.ok (scan_label_units (num_visible tuples (layers tuples - 1)) labels r.1).1, r.2.2)

/-- The Gibbs loop of the last overload of `deep_activate_layers`:
`for i < sampling: rbm.activate_hidden(h1, v1); rbm.activate_visible(bernoulli(h1, hs), v1)`.
The state is `(h1, hs, v1, g, calls)`, the last component being the calls made on the
machine so far. -/
def gibbs_rounds (ops : RbmOps R α G) (rbm : R) :
    Nat → List α × List α × List α × G × List (Activation R α)
      → List α × List α × List α × G × List (Activation R α)
  | 0, st => st
  | sampling + 1, st =>
      let st := gibbs_rounds ops rbm sampling st
      let h1 := ops.activate_hidden rbm st.1 st.2.2.1
      let s := ops.bernoulli st.2.2.2.1 h1 st.2.1
      (h1, s.1, ops.activate_visible rbm s.1 st.2.2.1, s.2,
        st.2.2.2.2
          ++ [Activation.activate_hidden rbm st.2.2.1, Activation.activate_visible rbm s.1])

/-- The two overloads of `deep_activate_layers<I>`, with the same result as
`activate_layers`. -/
def deep_activate_layers [DivisionRing α] (ops : RbmOps R α G) (labels sampling : Nat) :
    List (Layer R) → List α → List α → G → List α × G × List (Activation R α)
  | [], _, output, g => (output, g, [])
  | [last], input, output, g =>
      let v1 : List α := List.replicate last.num_visible 0
      let v1 := (List.range input.length).foldl (fun v i => v.set i (input.getD i 0)) v1
      let h1 : List α := List.replicate last.num_hidden 0
      let hs : List α := List.replicate last.num_hidden 0
      let st := gibbs_rounds ops last.rbm sampling (h1, hs, v1, g, [])
      let h1 := ops.activate_hidden last.rbm st.1 input
      let s := ops.bernoulli st.2.2.2.1 h1 st.2.1
      (ops.activate_visible last.rbm s.1 output, s.2,
        st.2.2.2.2
          ++ [Activation.activate_hidden last.rbm input, Activation.activate_visible last.rbm s.1])
  | layer :: following :: rest, input, output, g =>
      let next : List α := List.replicate following.num_visible 0
      let next := ops.activate_hidden layer.rbm next input
      let next := if (following :: rest).length = 1
        then set_placeholder_units layer.num_hidden labels next else next
      let r := deep_activate_layers ops labels sampling (following :: rest) next output g
      (r.1, r.2.1, Activation.activate_hidden layer.rbm input :: r.2.2)

/-- The vector `output` of `deep_predict` after the call `deep_activate_layers<0>`. -/
def deep_predict_output [LinearOrderedField α] (ops : RbmOps R α G) (tuples : List (Layer R))
    (item : List α) (labels sampling : Nat) (g : G) : List α :=
  (deep_activate_layers ops labels sampling tuples item
    (List.replicate (num_visible tuples (layers tuples - 1)) 0) g).1

/-- The member `deep_predict`, with the same result as `predict`. -/
def deep_predict [LinearOrderedField α] (ops : RbmOps R α G) (tuples : List (Layer R))
    (item : List α) (labels sampling : Nat) (g : G) :
    Except String Nat × List (Activation R α) :=
  match dbn_assert
      (decide (num_visible tuples (layers tuples - 1)
        = num_hidden tuples (layers tuples - 2) + labels))
      "There is no room for the labels units" with
  | .error e => (.error e, [])
  | .ok _ =>
    let r := deep_activate_layers ops labels sampling tuples item
      (List.replicate (num_visible tuples (layers tuples - 1)) 0) g
    (.ok (scan_label_units (num_visible tuples (layers tuples - 1)) labels r.1).1, r.2.2)

/-- The value of label unit `l` of a last layer reconstruction `output`: the component
`num_visible<layers - 1>() - labels + l`. -/
def label_unit [Zero α] (nv labels : Nat) (output : List α) (l : Nat) : α :=
  output.getD (nv - labels + l) 0

/-- Index `lab` is the first maximum of the label units of `output`: it is a label, no label
unit is larger than unit `lab`, and every unit before it is strictly smaller. -/
def first_maximum [LinearOrderedField α] (nv labels : Nat) (output : List α) (lab : Nat) : Prop :=
  lab < labels
    ∧ (∀ l, l < labels → label_unit nv labels output l ≤ label_unit nv labels output lab)
    ∧ (∀ l, l < lab → label_unit nv labels output l < label_unit nv labels output lab)

/-- A concrete layer type for evaluations over `ℚ`: the state of a machine is its visible
bias, its weights are zero and its visible units are linear, so a reconstruction is the
visible bias itself; hidden activation leaves the output argument as it is, training
leaves the machine as it is, and sampling copies the probabilities. -/
def bias_only_ops : RbmOps (List ℚ) ℚ Unit where
  train := fun r _ _ => r
  activate_hidden := fun _ h _ => h
  activate_visible := fun r _ v => (List.range v.length).map (fun i => r.getD i 0)
  bernoulli := fun g h1 _ => (h1, g)
  activate_hidden_size := fun _ _ _ => rfl
  activate_visible_size := fun _ _ v => by simp

/-- A network of two layers, `1 → 2` and `5 → 1`, whose last layer has three label units. -/
def two_layers : List (Layer (List ℚ)) :=
  [{ num_visible := 1, num_hidden := 2, rbm := [0] },
   { num_visible := 5, num_hidden := 1, rbm := [0, 0, 1/5, 9/10, 9/10] }]

/-- A network of two layers whose last layer reconstructs the label units `[-2, -1]`. -/
def two_layers_negative : List (Layer (List ℚ)) :=
  [{ num_visible := 1, num_hidden := 1, rbm := [0] },
   { num_visible := 3, num_hidden := 1, rbm := [0, -2, -1] }]

end dbn

namespace dll

/-- Modelled from the spec: the structure `rbm_training_context` (header
`rbm_training_context.hpp`), of which the trainer uses the three accumulators. -/
structure rbm_training_context (α : Type) where
  reconstruction_error : α
  sparsity : α
  free_energy : α
deriving DecidableEq

/-- The members of the RBM that `rbm_trainer::train` reads and writes itself, and the
remaining state `params` (weights, biases and their increments), which only the
collaborators of the trainer touch. -/
structure Rbm (α W : Type) where
  momentum : α
  initial_momentum : α
  final_momentum : α
  final_momentum_epoch : Nat
  params : W

/-- The calls that `rbm_trainer::train` makes on its collaborators, in the order in which
it makes them: the notifications of the watcher, the data based initialisation of the
weights, and `trainer->train_batch` together with the epoch of the call and the value of
`rbm.momentum` at the call. The context of `epoch_end` is the averaged one, whose members
are quotients by counters (see `divide`). -/
inductive Event (α X : Type) where
  | training_begin
  | init_weights
  | train_batch (epoch : Nat) (momentum : α) (input_batch expected_batch : List X)
  | epoch_end (epoch : Nat) (context : rbm_training_context (Option α))
  | training_end
deriving DecidableEq

/-- The template parameters and traits of `rbm_trainer<RBM, EnableWatcher, RW>` and the
collaborators it calls. Modelled from the spec: `train_batch` (the trainer type of the
descriptor) mutates the weights and biases of the machine and accumulates into the
context; `shuffle epoch Denoising` is the shuffle of the two ranges made in an epoch with
its fresh generator (`cpp::parallel_shuffle` when `Denoising`, `std::shuffle` otherwise),
which permutes the ranges in place and so keeps their sizes; `fresh_context` is a default
constructed `rbm_training_context`; `batch_size` is `get_batch_size(rbm)`;
`init_weights params items` is the member `rbm.init_weights(first, last)` of the machine,
which either yields the new weights and biases or ends on the message of a failed
assertion, as `standard_rbm::init_weights` does on its `cpp_assert`. -/
structure TrainerConfig (α W T X : Type) where
  EnableWatcher : Bool
  init_weights_trait : Bool
  has_shuffle : Bool
  has_momentum : Bool
  free_energy_trait : Bool
  batch_size : Nat
  fresh_context : rbm_training_context α
  init_weights : W → List X → Except String W
  make_trainer : Rbm α W → T
  train_batch : T → Rbm α W → List X → List X → rbm_training_context α
    → T × W × rbm_training_context α
  free_energy : Rbm α W → X → α
  shuffle : Nat → Bool → List X → List X → List X × List X
  shuffle_input_size : ∀ e d i x, (shuffle e d i x).1.length = i.length
  shuffle_expected_size : ∀ e d i x, (shuffle e d i x).2.length = x.length

variable {α W T X : Type}

/-- The objects that the body of the batch loop mutates besides its iterators and
counters: the machine, the trainer, the context of the epoch, and the log of calls. -/
structure Machine (α W T X : Type) where
  rbm : Rbm α W
  trainer : T
  context : rbm_training_context α
  log : List (Event α X)

/-- The iterators and counters of the two nested `while` loops of an epoch; an iterator
is the offset from the start of its range. -/
structure Cursor where
  iit : Nat
  eit : Nat
  samples : Nat
  i : Nat
deriving DecidableEq

/-- The inner loop `while(iit != end && i < batch_size) then ++iit; ++eit; ++samples; ++i`.
The first argument bounds the number of iterations; `batch_size` iterations always
suffice since `i` starts at zero. -/
def advance (last batch_size : Nat) : Nat → Cursor → Cursor
  | 0, c => c
  | fuel + 1, c =>
      if c.iit ≠ last ∧ c.i < batch_size then
        advance last batch_size fuel
          { iit := c.iit + 1, eit := c.eit + 1, samples := c.samples + 1, i := c.i + 1 }
      else c

/-- The range `make_batch(first, last)` of a sequence, iterators given as offsets. -/
def make_batch (items : List X) (first last : Nat) : List X :=
  (items.drop first).take (last - first)

/-- The calls on one batch: `trainer->train_batch(input_batch, expected_batch, context)`
followed by the accumulation of the free energy of the items of the batch when the
watcher is enabled and the machine has a free energy. -/
def run_batch [Add α] (cfg : TrainerConfig α W T X) (epoch : Nat) (m : Machine α W T X)
    (input_batch expected_batch : List X) : Machine α W T X :=
  let r := cfg.train_batch m.trainer m.rbm input_batch expected_batch m.context
  let rbm := { m.rbm with params := r.2.1 }
  let context :=
    if cfg.EnableWatcher && cfg.free_energy_trait then
      input_batch.foldl
        (fun ctx v => { ctx with free_energy := ctx.free_energy + cfg.free_energy rbm v })
        r.2.2
    else r.2.2
  { rbm := rbm, trainer := r.1, context := context,
    log := m.log ++ [Event.train_batch epoch m.rbm.momentum input_batch expected_batch] }

/-- The state of the outer batch loop. -/
structure BatchState (α W T X : Type) where
  iit : Nat
  eit : Nat
  batches : Nat
  samples : Nat
  machine : Machine α W T X

/-- The body of the outer loop `while(iit != end)`. -/
def batch_step [Add α] (cfg : TrainerConfig α W T X) (epoch : Nat) (input expected : List X)
    (st : BatchState α W T X) : BatchState α W T X :=
  let istart := st.iit
  let estart := st.eit
  let c := advance input.length cfg.batch_size cfg.batch_size
    { iit := st.iit, eit := st.eit, samples := st.samples, i := 0 }
  { iit := c.iit, eit := c.eit, batches := st.batches + 1, samples := c.samples,
    machine := run_batch cfg epoch st.machine (make_batch input istart c.iit)
      (make_batch expected estart c.eit) }

/-- The outer loop `while(iit != end)`, run for at most `fuel` iterations; `none` when
the loop is still running after them. -/
def batch_loop [Add α] (cfg : TrainerConfig α W T X) (epoch : Nat) (input expected : List X) :
    Nat → BatchState α W T X → Option (BatchState α W T X)
  | 0, st => if st.iit ≠ input.length then none else some st
  | fuel + 1, st =>
      if st.iit ≠ input.length then
        batch_loop cfg epoch input expected fuel (batch_step cfg epoch input expected st)
      else some st

/-- The state of `rbm_trainer::train` between two epochs: the machine, the trainer, the
two ranges as the shuffles left them, the variable `last_error` (a quotient by a counter
once an epoch is over, see `divide`), and the log of calls. -/
structure TrainState (α W T X : Type) where
  rbm : Rbm α W
  trainer : T
  input : List X
  expected : List X
  last_error : Option α
  log : List (Event α X)

/-- The end of `rbm_trainer::train` on a failed assertion of a collaborator: the message of
the assertion and the calls made until then. -/
structure Abort (α X : Type) where
  message : String
  log : List (Event α X)

/-- The quotient `x /= n` of an accumulator by a counter, the counter being converted to
the type of the weights. With a zero counter the floating point quotient is not a number
of the field (it is NaN for a zero accumulator and an infinity otherwise), which `none`
stands for. -/
def divide [DivisionRing α] (x : α) (n : Nat) : Option α :=
  if n = 0 then none else some (x / (n : α))

/-- The averaging of an epoch: `context.reconstruction_error /= batches;
context.sparsity /= batches; context.free_energy /= samples`. -/
def average [DivisionRing α] (context : rbm_training_context α) (batches samples : Nat) :
    rbm_training_context (Option α) :=
  { reconstruction_error := divide context.reconstruction_error batches,
    sparsity := divide context.sparsity batches,
    free_energy := divide context.free_energy samples }

/-- The ranges as they stand during an epoch that starts from `input` and `expected`. -/
def epoch_ranges (cfg : TrainerConfig α W T X) (Denoising : Bool) (epoch : Nat)
    (input expected : List X) : List X × List X :=
  if cfg.has_shuffle then cfg.shuffle epoch Denoising input expected else (input, expected)

/-- The batch loop of one epoch, started from a fresh context. -/
def epoch_batches [DivisionRing α] (fuel : Nat) (cfg : TrainerConfig α W T X)
    (Denoising : Bool) (epoch : Nat) (st : TrainState α W T X) :
    Option (BatchState α W T X) :=
  let data := epoch_ranges cfg Denoising epoch st.input st.expected
  batch_loop cfg epoch data.1 data.2 fuel
    { iit := 0, eit := 0, batches := 0, samples := 0,
      machine := { rbm := st.rbm, trainer := st.trainer, context := cfg.fresh_context,
                   log := st.log } }

/-- The body of the loop `for(epoch = 0; epoch < max_epochs; ++epoch)`. -/
def train_epoch [DivisionRing α] (fuel : Nat) (cfg : TrainerConfig α W T X) (Denoising : Bool)
    (epoch : Nat) (st : TrainState α W T X) : Option (TrainState α W T X) :=
  let data := epoch_ranges cfg Denoising epoch st.input st.expected
  match epoch_batches fuel cfg Denoising epoch st with
  | none => none
  | some b =>
    let context := average b.machine.context b.batches b.samples
    let rbm :=
      if cfg.has_momentum && decide (epoch = b.machine.rbm.final_momentum_epoch) then
        { b.machine.rbm with momentum := b.machine.rbm.final_momentum }
      else b.machine.rbm
    let log :=
      if cfg.EnableWatcher then b.machine.log ++ [Event.epoch_end epoch context]
      else b.machine.log
    some { rbm := rbm, trainer := b.machine.trainer, input := data.1, expected := data.2,
           last_error := context.reconstruction_error, log := log }

/-- The loop `for(epoch = 0; epoch < max_epochs; ++epoch)`: the state after `max_epochs`
epochs is the state after `max_epochs - 1` epochs followed by epoch `max_epochs - 1`. -/
def train_epochs [DivisionRing α] (fuel : Nat) (cfg : TrainerConfig α W T X) (Denoising : Bool) :
    Nat → TrainState α W T X → Option (TrainState α W T X)
  | 0, st => some st
  | max_epochs + 1, st =>
      match train_epochs fuel cfg Denoising max_epochs st with
      | none => none
      | some st => train_epoch fuel cfg Denoising max_epochs st

/-- The part of `train` before the loop over the epochs: `rbm.momentum =
rbm.initial_momentum`, the notification `training_begin`, the data based initialisation
of the weights of a machine that has one, the construction of the trainer, and
`last_error = 0.0`. The result is the state in which the loop is entered, or the failed
assertion of `rbm.init_weights` with the calls made until then. -/
def train_start [DivisionRing α] (cfg : TrainerConfig α W T X) (rbm : Rbm α W)
    (input expected : List X) : Except (Abort α X) (TrainState α W T X) :=
  let rbm := { rbm with momentum := rbm.initial_momentum }
  let log : List (Event α X) := if cfg.EnableWatcher then [Event.training_begin] else []
  if cfg.init_weights_trait then
    match cfg.init_weights rbm.params input with
    | .error message => .error { message := message, log := log ++ [Event.init_weights] }
    | .ok params =>
      let rbm := { rbm with params := params }
      .ok { rbm := rbm, trainer := cfg.make_trainer rbm, input := input, expected := expected,
            last_error := some 0, log := log ++ [Event.init_weights] }
  else
    .ok { rbm := rbm, trainer := cfg.make_trainer rbm, input := input, expected := expected,
          last_error := some 0, log := log }

/-- The member `train<Denoising>(rbm, input_first, input_last, expected_first,
expected_last, max_epochs)`. Each batch loop is run for at most `fuel` iterations; the
result is `none` when one of them is still running after them. Otherwise the function
ends: on the failed assertion of `rbm.init_weights`, before the first epoch, or by
returning, and then its return value is the field `last_error` of the result. -/
def train [DivisionRing α] (fuel : Nat) (cfg : TrainerConfig α W T X) (Denoising : Bool)
    (rbm : Rbm α W) (input expected : List X) (max_epochs : Nat) :
    Option (Except (Abort α X) (TrainState α W T X)) :=
  match train_start cfg rbm input expected with
  | .error abort => some (.error abort)
  | .ok start =>
    match train_epochs fuel cfg Denoising max_epochs start with
    | none => none
    | some st =>
      some (.ok { st with
        log := if cfg.EnableWatcher then st.log ++ [Event.training_end] else st.log })

/-- The data based initialisation of the weights does not fail in `train`: the machine
has none, or the assertion of `rbm.init_weights` holds on the dataset. -/
def init_weights_succeeds (cfg : TrainerConfig α W T X) (rbm : Rbm α W) (input : List X) :
    Bool :=
  !cfg.init_weights_trait ||
    (match cfg.init_weights rbm.params input with
     | .ok _ => true
     | .error _ => false)

/-- The member `train(rbm, first, last, max_epochs)`, which passes the same range as
input and as expected output. -/
def train_range [DivisionRing α] (fuel : Nat) (cfg : TrainerConfig α W T X) (rbm : Rbm α W)
    (items : List X) (max_epochs : Nat) : Option (Except (Abort α X) (TrainState α W T X)) :=
  train fuel cfg false rbm items items max_epochs

/-- The number of batches of `n` items with batches of `B` items: `n / B` rounded up. -/
def batch_count (n B : Nat) : Nat := (n + B - 1) / B

/-- The first `k` consecutive batches of at most `B` items of the input range from offset
`p` on, each with the range of the expected output that the second iterator covers,
which starts at offset `e`. -/
def batch_ranges (B : Nat) (input expected : List X) (p e k : Nat) : List (List X × List X) :=
  (List.range k).map
    (fun j => ((input.drop (p + j * B)).take B,
               (expected.drop (e + j * B)).take (min B (input.length - (p + j * B)))))

/-- The machine after the calls of `run_batch` on a list of batches, in order. -/
def run_batches [Add α] (cfg : TrainerConfig α W T X) (epoch : Nat) (m : Machine α W T X)
    (batches : List (List X × List X)) : Machine α W T X :=
  batches.foldl (fun m b => run_batch cfg epoch m b.1 b.2) m

/-- The batches of the epoch entered in state `st`: the consecutive batches of the ranges
as they stand during the epoch. -/
def epoch_calls (cfg : TrainerConfig α W T X) (Denoising : Bool) (epoch : Nat)
    (st : TrainState α W T X) : List (List X × List X) :=
  let data := epoch_ranges cfg Denoising epoch st.input st.expected
  batch_ranges cfg.batch_size data.1 data.2 0 0 (batch_count data.1.length cfg.batch_size)

/-- What `train_batch` and the free energy accumulation gather in a fresh context over
the batches of the epoch entered in state `st`. -/
def epoch_accumulated [Add α] (cfg : TrainerConfig α W T X) (Denoising : Bool) (epoch : Nat)
    (st : TrainState α W T X) : rbm_training_context α :=
  (run_batches cfg epoch
    { rbm := st.rbm, trainer := st.trainer, context := cfg.fresh_context, log := st.log }
    (epoch_calls cfg Denoising epoch st)).context

/-- A concrete trainer for evaluations over `ℚ`: items are numbers, batches hold two
items, the watcher is enabled, the momentum is switched, the ranges are not shuffled,
`train_batch` adds the sum of the squared differences between input and expected items
to the reconstruction error and one to the sparsity, and the free energy of an item is
the item. -/
def sum_config : TrainerConfig ℚ Unit Unit ℚ where
  EnableWatcher := true
  init_weights_trait := true
  has_shuffle := false
  has_momentum := true
  free_energy_trait := true
  batch_size := 2
  fresh_context := { reconstruction_error := 0, sparsity := 0, free_energy := 0 }
  init_weights := fun w _ => .ok w
  make_trainer := fun _ => ()
  train_batch := fun t rbm ib eb ctx =>
    (t, rbm.params,
      { ctx with
        reconstruction_error :=
          ctx.reconstruction_error + ((ib.zip eb).map (fun p => (p.1 - p.2) * (p.1 - p.2))).sum,
        sparsity := ctx.sparsity + 1 })
  free_energy := fun _ v => v
  shuffle := fun _ _ i x => (i, x)
  shuffle_input_size := fun _ _ _ _ => rfl
  shuffle_expected_size := fun _ _ _ _ => rfl

/-- A machine whose momentum goes from `1/2` to `9/10` with `final_momentum_epoch = 5`. -/
def switch_at_five : Rbm ℚ Unit :=
  { momentum := 0, initial_momentum := 1/2, final_momentum := 9/10,
    final_momentum_epoch := 5, params := () }

end dll

namespace etl

variable {α : Type}

/-- Modelled from the spec: `etl::dot(a, b)` of the expression template library, the sum of
the products of the components of two vectors. -/
def dot [Field α] (a b : List α) : α := (List.zipWith (fun x y => x * y) a b).sum

/-- Modelled from the spec: the sum `a + b` of two vectors of the library, componentwise. -/
def add [Field α] (a b : List α) : List α := List.zipWith (fun x y => x + y) a b

/-- Modelled from the spec: the difference `a - b` of two vectors of the library,
componentwise. -/
def sub [Field α] (a b : List α) : List α := List.zipWith (fun x y => x - y) a b

/-- Modelled from the spec: `etl::auto_vmmul(v, w, t)`, the product of the row vector `v`
of `nv` components with the `nv × nh` matrix `w` (a list of rows): component `j` is the
sum of `v_i * w_ij` over `i`. -/
def auto_vmmul [Field α] (nv nh : Nat) (v : List α) (w : List (List α)) : List α :=
  (List.range nh).map
    (fun j => ((List.range nv).map (fun i => v.getD i 0 * (w.getD i []).getD j 0)).sum)

end etl

namespace dll

/-- Modelled from the spec: the enumeration `unit_type` (header `unit_type.hpp`), with the
kinds of units that `standard_rbm.hpp` names. -/
inductive unit_type where
  | BINARY
  | GAUSSIAN
  | RELU
  | RELU1
  | RELU6
  | SOFTMAX
deriving DecidableEq

/-- The members of a machine that the static functions of `standard_rbm` use: the unit
kinds of the descriptor, the sizes `num_visible(rbm)` and `num_hidden(rbm)`, the weights
`w` (one row per visible unit), the hidden bias `b` and the visible bias `c`. -/
structure StandardRbm (α : Type) where
  visible_unit : unit_type
  hidden_unit : unit_type
  num_visible : Nat
  num_hidden : Nat
  w : List (List α)
  b : List α
  c : List α

variable {α : Type}

/-- The static function `standard_rbm::energy(rbm, v, h)`. -/
def energy [Field α] (rbm : StandardRbm α) (v h : List α) : α :=
  if rbm.visible_unit = unit_type.BINARY ∧ rbm.hidden_unit = unit_type.BINARY then
    let x := etl.add rbm.b (etl.auto_vmmul rbm.num_visible rbm.num_hidden v rbm.w);
    - etl.dot rbm.c v - etl.dot rbm.b h - x.sum
  else if rbm.visible_unit = unit_type.GAUSSIAN ∧ rbm.hidden_unit = unit_type.BINARY then
    let x := etl.add rbm.b (etl.auto_vmmul rbm.num_visible rbm.num_hidden v rbm.w);
    ((etl.sub v rbm.c).map (fun d => d ^ 2 / 2)).sum - etl.dot rbm.b h - x.sum
  else 0

/-- The static function `standard_rbm::free_energy(rbm, v)`; the functions `exp` and `log`
of the library are arguments. -/
def free_energy [Field α] (exp log : α → α) (rbm : StandardRbm α) (v : List α) : α :=
  if rbm.visible_unit = unit_type.BINARY ∧ rbm.hidden_unit = unit_type.BINARY then
    let x := etl.add rbm.b (etl.auto_vmmul rbm.num_visible rbm.num_hidden v rbm.w);
    - etl.dot rbm.c v - (x.map (fun xj => log (1 + exp xj))).sum
  else if rbm.visible_unit = unit_type.GAUSSIAN ∧ rbm.hidden_unit = unit_type.BINARY then
    let x := etl.add rbm.b (etl.auto_vmmul rbm.num_visible rbm.num_hidden v rbm.w);
    ((etl.sub v rbm.c).map (fun d => d ^ 2 / 2)).sum - (x.map (fun xj => log (1 + exp xj))).sum
  else 0

/-- Component `(i, j)` of the weights. -/
def weight_at [Zero α] (rbm : StandardRbm α) (i j : Nat) : α := (rbm.w.getD i []).getD j 0

/-- The interaction term `vᵗ W h`: the sum of `v_i * w_ij * h_j` over all `i` and `j`. -/
def interaction [Field α] (rbm : StandardRbm α) (v h : List α) : α :=
  ∑ i in Finset.range rbm.num_visible, ∑ j in Finset.range rbm.num_hidden,
    v.getD i 0 * weight_at rbm i j * h.getD j 0

/-- The energy as the specification writes it: `-c·v - b·h - vᵗ W h` for binary units and
`Σ (v_i - c_i)² / 2 - b·h - vᵗ W h` for Gaussian visible and binary hidden units. -/
def energy_formula [Field α] (rbm : StandardRbm α) (v h : List α) : α :=
  if rbm.visible_unit = unit_type.BINARY ∧ rbm.hidden_unit = unit_type.BINARY then
    - (∑ i in Finset.range rbm.num_visible, rbm.c.getD i 0 * v.getD i 0)
      - (∑ j in Finset.range rbm.num_hidden, rbm.b.getD j 0 * h.getD j 0)
      - interaction rbm v h
  else if rbm.visible_unit = unit_type.GAUSSIAN ∧ rbm.hidden_unit = unit_type.BINARY then
    (∑ i in Finset.range rbm.num_visible, (v.getD i 0 - rbm.c.getD i 0) ^ 2 / 2)
      - (∑ j in Finset.range rbm.num_hidden, rbm.b.getD j 0 * h.getD j 0)
      - interaction rbm v h
  else 0

/-- The free energy as the specification writes it:
`-c·v - Σ_j log(1 + exp(b_j + (v W)_j))` for binary units,
`Σ_i (v_i - c_i)² / 2 - Σ_j log(1 + exp(b_j + (v W)_j))` for Gaussian visible and binary
hidden units, and `0` for every other combination. -/
def free_energy_formula [Field α] (exp log : α → α) (rbm : StandardRbm α) (v : List α) : α :=
  if rbm.visible_unit = unit_type.BINARY ∧ rbm.hidden_unit = unit_type.BINARY then
    - (∑ i in Finset.range rbm.num_visible, rbm.c.getD i 0 * v.getD i 0)
      - (∑ j in Finset.range rbm.num_hidden,
          log (1 + exp (rbm.b.getD j 0
            + ∑ i in Finset.range rbm.num_visible, v.getD i 0 * weight_at rbm i j)))
  else if rbm.visible_unit = unit_type.GAUSSIAN ∧ rbm.hidden_unit = unit_type.BINARY then
    (∑ i in Finset.range rbm.num_visible, (v.getD i 0 - rbm.c.getD i 0) ^ 2 / 2)
      - (∑ j in Finset.range rbm.num_hidden,
          log (1 + exp (rbm.b.getD j 0
            + ∑ i in Finset.range rbm.num_visible, v.getD i 0 * weight_at rbm i j)))
  else 0

/-- The machine has the sizes it declares: one row of `num_hidden` weights per visible
unit, `num_hidden` hidden biases and `num_visible` visible biases. -/
def well_sized (rbm : StandardRbm α) : Prop :=
  rbm.w.length = rbm.num_visible ∧ (∀ row ∈ rbm.w, row.length = rbm.num_hidden)
    ∧ rbm.b.length = rbm.num_hidden ∧ rbm.c.length = rbm.num_visible

/-- The hidden states of `n` binary units. -/
def hidden_states [Field α] : Nat → List (List α)
  | 0 => [[]]
  | n + 1 => (hidden_states n).map (fun h => 0 :: h) ++ (hidden_states n).map (fun h => 1 :: h)

/-- The sum of `exp(-E(v, h))` over all states `h` of the hidden units, with `E` the
function `energy` of the code. -/
def sum_exp_energy [Field α] (exp : α → α) (rbm : StandardRbm α) (v : List α) : α :=
  ((hidden_states rbm.num_hidden).map (fun h => exp (- energy rbm v h))).sum

/-- The sum of `exp(-E(v, h))` over all states `h` of the hidden units, with `E` the energy
as the specification writes it. -/
def sum_exp_energy_formula [Field α] (exp : α → α) (rbm : StandardRbm α) (v : List α) : α :=
  ((hidden_states rbm.num_hidden).map (fun h => exp (- energy_formula rbm v h))).sum

/-- A binary machine with one visible and one hidden unit, weight `1` and zero biases. -/
def unit_weight_rbm (α : Type) [Field α] : StandardRbm α :=
  { visible_unit := unit_type.BINARY, hidden_unit := unit_type.BINARY,
    num_visible := 1, num_hidden := 1, w := [[1]], b := [0], c := [0] }

/-- A binary machine with two visible and two hidden units, zero biases, and the single
non-zero weight `w(0, 0) = 1`. -/
def corner_weight_rbm (α : Type) [Field α] : StandardRbm α :=
  { visible_unit := unit_type.BINARY, hidden_unit := unit_type.BINARY,
    num_visible := 2, num_hidden := 2, w := [[1, 0], [0, 0]], b := [0, 0], c := [0, 0] }

/-- The value `pi` of `init_weights` for a visible unit that is on in `count` of `size`
samples: `static_cast<double>(count) / size`, then `pi += 0.0001`. -/
def shifted_frequency [Field α] (count size : Nat) : α :=
  (count : α) / (size : α) + 0.0001

/-- The condition `std::isfinite(log(pi / (1.0 - pi)))` of the assertion of `init_weights`:
the logarithm of the library is a finite number exactly for a positive finite argument,
and the quotient is not one when the dataset is empty (`pi` comes from `0 / 0`) or when
`1.0 - pi` is zero. -/
def finite_log_odds [LinearOrderedField α] (size : Nat) (pi : α) : Bool :=
  decide (size ≠ 0 ∧ 1 - pi ≠ 0 ∧ 0 < pi / (1 - pi))

/-- The static function `standard_rbm::init_weights(first, last, rbm)`; the function `log`
of the library is an argument, and a failed `cpp_assert` ends the function with its
message. -/
def init_weights [LinearOrderedField α] (log : α → α) (items : List (List α))
    (rbm : StandardRbm α) : Except String (StandardRbm α) :=
  let size := items.length
  (List.range rbm.num_visible).foldlM
    (fun (rbm : StandardRbm α) i =>
      let count := items.countP (fun a => decide (a.getD i 0 = 1))
      let pi : α := shifted_frequency count size
      if finite_log_odds size pi then
        Except.ok { rbm with c := rbm.c.set i (log (pi / (1 - pi))) }
      else Except.error "NaN verify")
    rbm

end dll

namespace dbn

variable {R α G : Type}

/-- The vector `next` that the second overload of `activate_layers<I>` (and, by the same
code, of `deep_activate_layers<I>`) passes to layer `I + 1`: the hidden activation of
layer `I` written into a vector of `num_visible<I+1>()` components, with the label units
set to the placeholder when layer `I + 1` is the last one (`is_last`). -/
def next_input [DivisionRing α] (ops : RbmOps R α G) (labels : Nat) (layer following : Layer R)
    (is_last : Bool) (input : List α) : List α :=
  let next : List α := List.replicate following.num_visible 0
  let next := ops.activate_hidden layer.rbm next input
  if is_last then set_placeholder_units layer.num_hidden labels next else next

/-- The argument `input` of the successive instances `activate_layers<I>`,
`activate_layers<I + 1>`, ..., `activate_layers<layers - 1>` for the layers
`I, ..., layers - 1`. -/
def layer_inputs [DivisionRing α] (ops : RbmOps R α G) (labels : Nat) :
    List (Layer R) → List α → List (List α)
  | [], _ => []
  | [_], input => [input]
  | layer :: following :: rest, input =>
      input :: layer_inputs ops labels (following :: rest)
        (next_input ops labels layer following (decide ((following :: rest).length = 1)) input)

/-- The last overload of `deep_activate_layers` as the specification describes it: after
the rounds of Gibbs sampling the final hidden activation is computed from the visible
state `v1` that the rounds left, not from `input`. -/
def deep_activate_last_from_gibbs (ops : RbmOps R α G) [Zero α] (sampling : Nat) (last : Layer R)
    (input output : List α) (g : G) : List α × G :=
  let v1 : List α := List.replicate last.num_visible 0
  let v1 := (List.range input.length).foldl (fun v i => v.set i (input.getD i 0)) v1
  let h1 : List α := List.replicate last.num_hidden 0
  let hs : List α := List.replicate last.num_hidden 0
  let st := gibbs_rounds ops last.rbm sampling (h1, hs, v1, g, [])
  let h1 := ops.activate_hidden last.rbm st.1 st.2.2.1
  let s := ops.bernoulli st.2.2.2.1 h1 st.2.1
  (ops.activate_visible last.rbm s.1 output, s.2)

/-- A concrete layer type for evaluations over `ℚ`: the state of a machine is one weight
`w` shared by all connections, there are no biases and the units are linear, so every
hidden unit is `w` times the sum of the visible units and every visible unit is `w`
times the sum of the hidden units; training leaves the machine as it is and sampling
copies the probabilities. -/
def shared_weight_ops : RbmOps ℚ ℚ Unit where
  train := fun r _ _ => r
  activate_hidden := fun w h v => List.replicate h.length (w * v.sum)
  activate_visible := fun w hs v => List.replicate v.length (w * hs.sum)
  bernoulli := fun g h1 _ => (h1, g)
  activate_hidden_size := fun _ _ _ => by simp
  activate_visible_size := fun _ _ _ => by simp

/-- A network of two layers, `1 → 1` and `3 → 1`, with shared weights `1` and `2`. -/
def two_linear_layers : List (Layer ℚ) :=
  [{ num_visible := 1, num_hidden := 1, rbm := 1 },
   { num_visible := 3, num_hidden := 1, rbm := 2 }]

end dbn

namespace dll

variable {α W T X : Type}

/-- The kind of a logged call: the call without the values it carries, except for the
epoch of the calls that have one. -/
inductive EventKind where
  | training_begin
  | init_weights
  | train_batch (epoch : Nat)
  | epoch_end (epoch : Nat)
  | training_end
deriving DecidableEq

/-- The kind of a logged call. -/
def Event.kind : Event α X → EventKind
  | Event.training_begin => EventKind.training_begin
  | Event.init_weights => EventKind.init_weights
  | Event.train_batch epoch _ _ _ => EventKind.train_batch epoch
  | Event.epoch_end epoch _ => EventKind.epoch_end epoch
  | Event.training_end => EventKind.training_end

/-- The calls on the watcher among the logged calls. -/
def EventKind.is_notification : EventKind → Bool
  | EventKind.training_begin => true
  | EventKind.epoch_end _ => true
  | EventKind.training_end => true
  | _ => false

/-- The calls of one epoch as the specification orders them: the batches of the epoch, then
the notification of the end of the epoch when the watcher is enabled. -/
def epoch_sequence (watcher : Bool) (batches epoch : Nat) : List EventKind :=
  List.replicate batches (EventKind.train_batch epoch)
    ++ (if watcher then [EventKind.epoch_end epoch] else [])

/-- The calls of one run of `train` as the specification orders them: `training_begin`,
the data based initialisation of the weights when the machine has one, the epochs
`0, ..., max_epochs - 1` in order, `training_end`; the notifications only when the watcher
is enabled. -/
def call_sequence (watcher init : Bool) (batches max_epochs : Nat) : List EventKind :=
  (if watcher then [EventKind.training_begin] else [])
    ++ (if init then [EventKind.init_weights] else [])
    ++ ((List.range max_epochs).map (epoch_sequence watcher batches)).flatten
    ++ (if watcher then [EventKind.training_end] else [])

/-- The same trainer as `sum_config` with the watcher disabled. -/
def silent_config : TrainerConfig ℚ Unit Unit ℚ :=
  { sum_config with EnableWatcher := false }

end dll

namespace etl

variable {α : Type}

/-- Modelled from the spec: `etl::sigmoid(x)` of the expression template library, the
logistic function `1 / (1 + exp(-x))` applied to every component; `exp` is an argument. -/
def sigmoid [Field α] (exp : α → α) (x : List α) : List α :=
  x.map (fun xi => 1 / (1 + exp (- xi)))

/-- Modelled from the spec: `etl::softmax(x)` of the library: every component is `exp` of
the component divided by the sum of `exp` over all components. -/
def softmax [Field α] (exp : α → α) (x : List α) : List α :=
  x.map (fun xi => exp xi / (x.map exp).sum)

/-- Modelled from the spec: `etl::max(x, c)` of the library, the larger of every component
and the scalar `c`. -/
def max [LinearOrder α] (x : List α) (c : α) : List α := x.map (fun xi => Max.max xi c)

/-- Modelled from the spec: `etl::min(x, c)` of the library, the smaller of every component
and the scalar `c`. -/
def min [LinearOrder α] (x : List α) (c : α) : List α := x.map (fun xi => Min.min xi c)

/-- Modelled from the spec: `etl::auto_vmmul(w, h, t)` with the matrix first, the product of
the `nv × nh` matrix `w` (a list of rows) with the column vector `h` of `nh` components:
component `i` is the sum of `w_ij * h_j` over `j`. -/
def auto_mvmul [Field α] (nv nh : Nat) (w : List (List α)) (h : List α) : List α :=
  (List.range nv).map
    (fun i => ((List.range nh).map (fun j => (w.getD i []).getD j 0 * h.getD j 0)).sum)

end etl

namespace dll

variable {α G : Type}

/-- Modelled from the spec: the function `is_relu` (header `unit_type.hpp`), true for the
three kinds of rectified linear units. -/
def is_relu (t : unit_type) : Bool :=
  decide (t = unit_type.RELU ∨ t = unit_type.RELU1 ∨ t = unit_type.RELU6)

/-- The construction of a `standard_rbm` for a descriptor with the given unit kinds: the
two `static_assert`s of the class, checked when the machine is built, and the
constructor, whose effect is the initial learning rate. -/
def standard_rbm_new [DivisionRing α] (visible_unit hidden_unit : unit_type) : Except String α :=
  if visible_unit = unit_type.SOFTMAX then
    Except.error "Softmax Visible units are not support"
  else if hidden_unit = unit_type.GAUSSIAN then
    Except.error "Gaussian hidden units are not supported"
  else
    Except.ok
      (if visible_unit = unit_type.GAUSSIAN ∧ is_relu hidden_unit = true then 1e-5
       else if visible_unit = unit_type.GAUSSIAN ∨ is_relu hidden_unit = true then 1e-3
       else 1e-1)

/-- Modelled from the spec: the random draws of the library, each run with the random
generator in state `G`: `bernoulli(p)`, `logistic_noise(x)`, `ranged_noise(x, limit)`, and
the deterministic `one_if_max(p)`. -/
structure Sampling (α G : Type) where
  bernoulli : G → List α → List α × G
  logistic_noise : G → List α → List α × G
  ranged_noise : G → List α → α → List α × G
  one_if_max : List α → List α

/-- The activation probabilities that `std_activate_hidden` computes from the
pre-activation `x`, by kind of hidden unit; `none` when no branch assigns. -/
def hidden_probabilities [LinearOrderedField α] (exp : α → α) (hidden_unit : unit_type)
    (x : List α) : Option (List α) :=
  if hidden_unit = unit_type.BINARY then some (etl.sigmoid exp x)
  else if hidden_unit = unit_type.RELU then some (etl.max x 0)
  else if hidden_unit = unit_type.RELU6 then some (etl.min (etl.max x 0) 6)
  else if hidden_unit = unit_type.RELU1 then some (etl.min (etl.max x 0) 1)
  else if hidden_unit = unit_type.SOFTMAX then some (etl.softmax exp x)
  else none

/-- The samples that `std_activate_hidden` draws from the probabilities `p`, by kind of
hidden unit; `none` when no branch assigns. -/
def hidden_samples [LinearOrderedField α] (noise : Sampling α G) (hidden_unit : unit_type)
    (p : List α) (g : G) : Option (List α × G) :=
  if hidden_unit = unit_type.BINARY then some (noise.bernoulli g p)
  else if hidden_unit = unit_type.RELU then some (noise.logistic_noise g p)
  else if hidden_unit = unit_type.RELU6 then some (noise.ranged_noise g p 6)
  else if hidden_unit = unit_type.RELU1 then some (noise.ranged_noise g p 1)
  else if hidden_unit = unit_type.SOFTMAX then some (noise.one_if_max p, g)
  else none

/-- The static function `standard_rbm::std_activate_hidden<P, S>(h_a, h_s, v_a, v_s, b, w, t)`
for a machine with hidden units of kind `hidden_unit` and `nv × nh` weights: the result is
the new contents of `h_a` and `h_s` and the state of the random generator. The checks
`nan_check_deep` are on floating point values only and have no counterpart here. -/
def std_activate_hidden [LinearOrderedField α] (exp : α → α) (noise : Sampling α G)
    (hidden_unit : unit_type) (P S : Bool) (nv nh : Nat) (h_a h_s v_a _v_s b : List α)
    (w : List (List α)) (g : G) : List α × List α × G :=
  let x := etl.add b (etl.auto_vmmul nv nh v_a w)
  if P then
    let h_a := (hidden_probabilities exp hidden_unit x).getD h_a
    if S then
      let s := (hidden_samples noise hidden_unit h_a g).getD (h_s, g)
      (h_a, s.1, s.2)
    else (h_a, h_s, g)
  else if S then
    let s := ((hidden_probabilities exp hidden_unit x).bind
      (fun p => hidden_samples noise hidden_unit p g)).getD (h_s, g)
    (h_a, s.1, s.2)
  else (h_a, h_s, g)

/-- The static function `standard_rbm::std_activate_visible<P, S>(h_a, h_s, v_a, v_s, c, w, t)`
for a machine with visible units of kind `visible_unit`: the result is the new contents
of `v_a` and `v_s` and the state of the random generator. -/
def std_activate_visible [LinearOrderedField α] (exp : α → α) (noise : Sampling α G)
    (visible_unit : unit_type) (P S : Bool) (nv nh : Nat) (_h_a h_s v_a v_s c : List α)
    (w : List (List α)) (g : G) : List α × List α × G :=
  let x := etl.add c (etl.auto_mvmul nv nh w h_s)
  let v_a :=
    if P then
      if visible_unit = unit_type.BINARY then etl.sigmoid exp x
      else if visible_unit = unit_type.GAUSSIAN then x
      else if visible_unit = unit_type.RELU then etl.max x 0
      else v_a
    else v_a
  let s :=
    if S then
      if visible_unit = unit_type.BINARY then noise.bernoulli g (etl.sigmoid exp x)
      else if visible_unit = unit_type.GAUSSIAN then (x, g)
      else if visible_unit = unit_type.RELU then noise.logistic_noise g (etl.max x 0)
      else (v_s, g)
    else (v_s, g)
  (v_a, s.1, s.2)

/-- The unit vectors of a machine that `reconstruct` reads and writes. -/
structure Units (α : Type) where
  v1 : List α
  h1_a : List α
  h1_s : List α
  v2_a : List α
  v2_s : List α
  h2_a : List α
  h2_s : List α

/-- Modelled from the spec: the member `rbm.activate_hidden(h_a, h_s, v_a, v_s)` of the
machine (file `rbm.inl`), which calls `std_activate_hidden` with the hidden bias and the
weights of the machine and computes both probabilities and samples. -/
def activate_hidden [LinearOrderedField α] (exp : α → α) (noise : Sampling α G)
    (rbm : StandardRbm α) (h_a h_s v_a v_s : List α) (g : G) : List α × List α × G :=
  std_activate_hidden exp noise rbm.hidden_unit true true rbm.num_visible rbm.num_hidden
    h_a h_s v_a v_s rbm.b rbm.w g

/-- Modelled from the spec: the member `rbm.activate_visible(h_a, h_s, v_a, v_s)` of the
machine (file `rbm.inl`), which calls `std_activate_visible` with the visible bias and the
weights of the machine and computes both probabilities and samples. -/
def activate_visible [LinearOrderedField α] (exp : α → α) (noise : Sampling α G)
    (rbm : StandardRbm α) (h_a h_s v_a v_s : List α) (g : G) : List α × List α × G :=
  std_activate_visible exp noise rbm.visible_unit true true rbm.num_visible rbm.num_hidden
    h_a h_s v_a v_s rbm.c rbm.w g

/-- The static function `standard_rbm::reconstruct(items, rbm)`: the new unit vectors of
the machine and the state of the random generator, or the message of the failed
assertion. The stop watch and the printed line have no counterpart here. -/
def reconstruct [LinearOrderedField α] (exp : α → α) (noise : Sampling α G)
    (rbm : StandardRbm α) (units : Units α) (items : List α) (g : G) :
    Except String (Units α × G) :=
  if items.length ≠ rbm.num_visible then
    Except.error "The size of the training sample must match visible units"
  else
    let units := { units with v1 := items }
    let r1 := activate_hidden exp noise rbm units.h1_a units.h1_s units.v1 units.v1 g
    let units := { units with h1_a := r1.1, h1_s := r1.2.1 }
    let r2 := activate_visible exp noise rbm units.h1_a units.h1_s units.v2_a units.v2_s r1.2.2
    let units := { units with v2_a := r2.1, v2_s := r2.2.1 }
    let r3 := activate_hidden exp noise rbm units.h2_a units.h2_s units.v2_a units.v2_s r2.2.2
    Except.ok ({ units with h2_a := r3.1, h2_s := r3.2.1 }, r3.2.2)

/-- The pre-activation of hidden unit `j` as the specification writes it: `b_j + (v W)_j`. -/
def hidden_preactivation [Field α] (nv : Nat) (b v : List α) (w : List (List α)) (j : Nat) : α :=
  b.getD j 0 + ∑ i in Finset.range nv, v.getD i 0 * (w.getD i []).getD j 0

/-- The pre-activation of visible unit `i` as the specification writes it: `c_i + (W h)_i`. -/
def visible_preactivation [Field α] (nh : Nat) (c h : List α) (w : List (List α)) (i : Nat) : α :=
  c.getD i 0 + ∑ j in Finset.range nh, (w.getD i []).getD j 0 * h.getD j 0

/-- The function that the specification applies to the pre-activation of one unit, by
kind of unit: the logistic function for binary units, the identity for Gaussian units,
`max(x, 0)` for rectified linear units, clamped to `[0, 1]` and `[0, 6]` for the two
bounded kinds. Softmax units are not a function of one pre-activation; for them the
function is not used and is the identity. -/
def unit_function [LinearOrderedField α] (exp : α → α) : unit_type → α → α
  | unit_type.BINARY, x => 1 / (1 + exp (- x))
  | unit_type.GAUSSIAN, x => x
  | unit_type.RELU, x => Max.max x 0
  | unit_type.RELU1, x => Min.min (Max.max x 0) 1
  | unit_type.RELU6, x => Min.min (Max.max x 0) 6
  | unit_type.SOFTMAX, x => x

/-- Sampling that copies the probabilities and leaves the generator as it is. -/
def copy_sampling (α : Type) : Sampling α Unit where
  bernoulli := fun g p => (p, g)
  logistic_noise := fun g x => (x, g)
  ranged_noise := fun g x _ => (x, g)
  one_if_max := fun p => p

/-- Unit vectors that are all empty. -/
def no_units (α : Type) : Units α :=
  { v1 := [], h1_a := [], h1_s := [], v2_a := [], v2_s := [], h2_a := [], h2_s := [] }

end dll

namespace dll

variable {α : Type}

/-- The calls of `train_batch` among the logged calls. -/
def EventKind.is_train_batch : EventKind → Bool
  | EventKind.train_batch _ => true
  | _ => false

/-- The same trainer as `sum_config` with batches of no item. -/
def empty_batch_config : TrainerConfig ℚ Unit Unit ℚ :=
  { sum_config with batch_size := 0 }

/-- Modelled from the spec: the member `rbm.init_weights(first, last)` of the machine (file
`rbm.inl`), which calls `standard_rbm::init_weights(first, last, rbm)` on the machine
itself. -/
def rbm_init_weights [LinearOrderedField α] (log : α → α) (rbm : StandardRbm α)
    (items : List (List α)) : Except String (StandardRbm α) :=
  init_weights log items rbm

/-- A trainer of machines of `standard_rbm` for evaluations over `ℚ`: the items are
vectors, the weights and biases of the machine are a `StandardRbm`, the data based
initialisation of the weights is the member `rbm.init_weights` with `log` for the
logarithm of the library, batches hold two items, the watcher is enabled, nothing is
shuffled, and `train_batch` adds one to the sparsity of the context and leaves the
machine as it is. -/
def standard_config (log : ℚ → ℚ) : TrainerConfig ℚ (StandardRbm ℚ) Unit (List ℚ) where
  EnableWatcher := true
  init_weights_trait := true
  has_shuffle := false
  has_momentum := true
  free_energy_trait := false
  batch_size := 2
  fresh_context := { reconstruction_error := 0, sparsity := 0, free_energy := 0 }
  init_weights := rbm_init_weights log
  make_trainer := fun _ => ()
  train_batch := fun t rbm _ _ ctx => (t, rbm.params, { ctx with sparsity := ctx.sparsity + 1 })
  free_energy := fun _ _ => 0
  shuffle := fun _ _ i x => (i, x)
  shuffle_input_size := fun _ _ _ _ => rfl
  shuffle_expected_size := fun _ _ _ _ => rfl

/-- The machine `unit_weight_rbm` with the momentum members of `switch_at_five`. -/
def unit_weight_machine : Rbm ℚ (StandardRbm ℚ) :=
  { momentum := 0, initial_momentum := 1/2, final_momentum := 9/10,
    final_momentum_epoch := 5, params := unit_weight_rbm ℚ }

end dll

namespace dbn
variable {R α G : Type}
/-- Size of a vector after the inner label loop. -/
theorem length_set_label_units [Zero α] [One α] (nh labels label : Nat) (v : List α) :
    (set_label_units nh labels label v).length = v.length := by
  unfold set_label_units
  induction labels generalizing v with
  | zero => simp
  | succ k ih =>
    rw [List.range_succ, List.foldl_append]
    simp only [List.foldl_cons, List.foldl_nil]
    split <;> simp [ih]

/-- Slots written by the inner label loop. -/
theorem getElem?_set_label_units [Zero α] [One α] (nh labels label : Nat) (v : List α)
    (hv : nh + labels ≤ v.length) (l : Nat) (hl : l < labels) :
    (set_label_units nh labels label v)[nh + l]? = some (if label = l then 1 else 0) := by
  unfold set_label_units
  induction labels generalizing l with
  | zero => omega
  | succ k ih =>
    rw [List.range_succ, List.foldl_append]
    simp only [List.foldl_cons, List.foldl_nil]
    have hlen := length_set_label_units nh k label v
    unfold set_label_units at hlen
    by_cases hlk : l = k
    · subst hlk
      split <;> simp [List.getElem?_set, hlen] <;> omega
    · have hl2 : l < k := by omega
      have := ih (by omega) l hl2
      split <;> simp [List.getElem?_set, this] <;> omega

/-- Slots below the label units are not written by the inner label loop. -/
theorem getElem?_set_label_units_of_lt [Zero α] [One α] (nh labels label : Nat) (v : List α)
    (j : Nat) (hj : j < nh) :
    (set_label_units nh labels label v)[j]? = v[j]? := by
  unfold set_label_units
  induction labels with
  | zero => simp
  | succ k ih =>
    rw [List.range_succ, List.foldl_append]
    simp only [List.foldl_cons, List.foldl_nil]
    split <;> simp [List.getElem?_set, ih] <;> omega

/-- Reading a list after modifying the positions below `m`, each with its own function. -/
theorem getElem?_foldl_modify {β : Type} (f : Nat → β → β) (m : Nat) (xs : List β) (i : Nat) :
    ((List.range m).foldl (fun nx k => List.modify (f k) k nx) xs)[i]?
      = if i < m then (f i) <$> xs[i]? else xs[i]? := by
  induction m with
  | zero => simp
  | succ k ih =>
    rw [List.range_succ, List.foldl_append]
    simp only [List.foldl_cons, List.foldl_nil, List.getElem?_modify, ih]
    by_cases h1 : k = i
    · subst h1
      simp
    · by_cases h2 : i < k
      · have : i < k + 1 := by omega
        simp [h1, h2, this]
      · have : ¬ i < k + 1 := by omega
        simp [h1, h2, this]

/-- Number of samples after the label injection. -/
theorem length_append_label_units [Zero α] [One α] (nh labels : Nat) (tl : List Nat)
    (next : List (List α)) : (append_label_units nh labels tl next).length = next.length := by
  unfold append_label_units
  generalize tl.length = m
  induction m with
  | zero => simp
  | succ k ih =>
    rw [List.range_succ, List.foldl_append]
    simp only [List.foldl_cons, List.foldl_nil, List.length_modify]
    exact ih

/-- Sample `i` after the label injection. -/
theorem getElem?_append_label_units [Zero α] [One α] (nh labels : Nat) (tl : List Nat)
    (next : List (List α)) (i : Nat) :
    (append_label_units nh labels tl next)[i]?
      = if i < tl.length then (set_label_units nh labels (tl.getD i 0)) <$> next[i]?
        else next[i]? := by
  unfold append_label_units
  exact getElem?_foldl_modify (fun k => set_label_units nh labels (tl.getD k 0)) tl.length next i

/-- Number of samples of the dataset built for the next layer. -/
theorem length_next_dataset [Zero α] [One α] (ops : RbmOps R α G) (nh : Nat) (rbm : R)
    (b : Bool) (data : List (List α)) (tl : List Nat) (labels : Nat) :
    (next_dataset ops nh rbm b data tl labels).length = data.length := by
  unfold next_dataset
  cases b <;> simp [length_append_label_units]

/-- The log of `train_rbm_layers` has one dataset per layer. -/
theorem length_train_log [Zero α] [One α] (ops : RbmOps R α G) (e : Nat) (tl : List Nat)
    (labels : Nat) (tuples : List (Layer R)) (data : List (List α)) :
    (train_rbm_layers ops e tl labels tuples data).2.length = tuples.length := by
  induction tuples generalizing data with
  | nil => simp [train_rbm_layers]
  | cons a t ih =>
    cases t with
    | nil => simp [train_rbm_layers]
    | cons b t2 =>
      simp only [train_rbm_layers, List.length_cons]
      have := ih (next_dataset ops a.num_hidden (ops.train a.rbm data e)
        (decide ((b :: t2).length = 1) && !tl.isEmpty) data tl labels)
      simpa using this

/-- Sample `i` of the dataset built for the last layer when labels are appended. -/
theorem next_dataset_label_units [Zero α] [One α] (ops : RbmOps R α G) (nh : Nat) (rbm : R)
    (data : List (List α)) (tl : List Nat) (labels : Nat) (hlen : data.length = tl.length)
    (i : Nat) (hi : i < tl.length) :
    ∃ item, (next_dataset ops nh rbm true data tl labels)[i]? = some item
      ∧ item.length = nh + labels
      ∧ ∀ l, l < labels → item[nh + l]? = some (if tl.getD i 0 = l then 1 else 0) := by
  have hid : i < data.length := by omega
  refine ⟨set_label_units nh labels (tl.getD i 0)
    (ops.activate_hidden rbm (List.replicate (nh + labels) 0) data[i]), ?_, ?_, ?_⟩
  · simp [next_dataset, getElem?_append_label_units, hi, hid]
  · simp [length_set_label_units, ops.activate_hidden_size]
  · intro l hl
    apply getElem?_set_label_units
    · simp [ops.activate_hidden_size]
    · exact hl

/-- The layers `I, ..., layers - 1` share the second-to-last layer with the whole tuple. -/
theorem num_hidden_cons (a : Layer R) (t : List (Layer R)) (h : 2 ≤ t.length) :
    num_hidden (a :: t) (layers (a :: t) - 2) = num_hidden t (layers t - 2) := by
  unfold num_hidden layers
  have : (a :: t).length - 2 = (t.length - 2) + 1 := by simp; omega
  rw [this, List.getElem?_cons_succ]

/-- The dataset handed to the last layer by `train_rbm_layers`, for any list of layers
`I, ..., layers - 1` with at least two elements. -/
theorem train_rbm_layers_last_dataset [Zero α] [One α] (ops : RbmOps R α G) (e : Nat)
    (tl : List Nat) (labels : Nat) (tuples : List (Layer R)) (h2 : 2 ≤ tuples.length)
    (data : List (List α)) (hlen : data.length = tl.length) :
    ∃ ds, (train_rbm_layers ops e tl labels tuples data).2.getLast? = some ds
      ∧ ds.length = tl.length
      ∧ ∀ i, i < tl.length → ∃ item, ds[i]? = some item
          ∧ item.length = num_hidden tuples (layers tuples - 2) + labels
          ∧ ∀ l, l < labels →
              item[num_hidden tuples (layers tuples - 2) + l]?
                = some (if tl.getD i 0 = l then 1 else 0) := by
  induction tuples generalizing data with
  | nil => simp at h2
  | cons a t ih =>
    match t, ih, h2 with
    | [], _, h2 => simp at h2
    | [b], _, _ =>
      by_cases hne : tl = []
      · subst hne
        refine ⟨next_dataset ops a.num_hidden (ops.train a.rbm data e) false data [] labels,
          ?_, ?_, ?_⟩
        · simp [train_rbm_layers]
        · simpa [length_next_dataset] using hlen
        · intro i hi
          simp at hi
      · have hemp : tl.isEmpty = false := by
          cases tl with
          | nil => exact absurd rfl hne
          | cons x xs => rfl
        refine ⟨next_dataset ops a.num_hidden (ops.train a.rbm data e) true data tl labels,
          ?_, ?_, ?_⟩
        · simp [train_rbm_layers, hemp]
        · simpa [length_next_dataset] using hlen
        · intro i hi
          have hnh : num_hidden [a, b] (layers [a, b] - 2) = a.num_hidden := by
            simp [num_hidden, layers]
          rw [hnh]
          exact next_dataset_label_units ops a.num_hidden (ops.train a.rbm data e) data tl
            labels hlen i hi
    | b :: c :: t2, ih, _ =>
      have hlen2 : (next_dataset ops a.num_hidden (ops.train a.rbm data e)
          (decide ((b :: c :: t2).length = 1) && !tl.isEmpty) data tl labels).length
          = tl.length := by
        rw [length_next_dataset]; exact hlen
      obtain ⟨ds, hds, hrest⟩ := ih (by simp) _ hlen2
      refine ⟨ds, ?_, ?_⟩
      · have hne : (train_rbm_layers ops e tl labels (b :: c :: t2)
            (next_dataset ops a.num_hidden (ops.train a.rbm data e)
              (decide ((b :: c :: t2).length = 1) && !tl.isEmpty) data tl labels)).2 ≠ [] := by
          intro h
          rw [h] at hds
          simp at hds
        rw [train_rbm_layers]
        obtain ⟨y, ys, hy⟩ := List.exists_cons_of_ne_nil hne
        simp only []
        rw [hy, List.getLast?_cons_cons, ← hy]
        exact hds
      · rw [num_hidden_cons a (b :: c :: t2) (by simp)]
        exact hrest

/-- Invariant of the scan of `predict` after `k` label units: the running maximum is the
larger of zero and the units seen, and the running label is the first unit that reached a
positive running maximum, or zero when no unit seen is positive. -/
theorem scan_invariant [LinearOrderedField α] (nv labels : Nat) (output : List α) (k : Nat) :
    let st := (List.range k).foldl
      (fun (st : Nat × α) l =>
        let value := output.getD (nv - labels + l) 0
        if value > st.2 then (l, value) else st) (0, 0)
    (∀ l, l < k → label_unit nv labels output l ≤ st.2)
      ∧ ((st.1 = 0 ∧ st.2 = 0)
          ∨ (st.1 < k ∧ 0 < st.2 ∧ label_unit nv labels output st.1 = st.2
              ∧ ∀ l, l < st.1 → label_unit nv labels output l < st.2)) := by
  induction k with
  | zero => simp
  | succ k ih =>
    rw [List.range_succ, List.foldl_append]
    simp only [List.foldl_cons, List.foldl_nil]
    generalize (List.range k).foldl
      (fun (st : Nat × α) l =>
        let value := output.getD (nv - labels + l) 0
        if value > st.2 then (l, value) else st) (0, 0) = st at ih ⊢
    obtain ⟨hle, hcase⟩ := ih
    by_cases hgt : output.getD (nv - labels + k) 0 > st.2
    · simp only [hgt, if_true]
      have hk : label_unit nv labels output k = output.getD (nv - labels + k) 0 := rfl
      refine ⟨?_, Or.inr ⟨by omega, ?_, hk, ?_⟩⟩
      · intro l hl
        by_cases hlk : l = k
        · subst hlk; exact le_of_eq hk
        · exact le_trans (hle l (by omega)) (le_of_lt hgt)
      · rcases hcase with ⟨_, h0⟩ | ⟨_, hpos, _, _⟩
        · rw [h0] at hgt; exact hgt
        · exact lt_trans hpos hgt
      · intro l hl
        exact lt_of_le_of_lt (hle l hl) hgt
    · simp only [hgt, if_false]
      have hk : label_unit nv labels output k ≤ st.2 := not_lt.mp hgt
      refine ⟨?_, ?_⟩
      · intro l hl
        by_cases hlk : l = k
        · subst hlk; exact hk
        · exact hle l (by omega)
      · rcases hcase with h | ⟨h1, h2, h3, h4⟩
        · exact Or.inl h
        · exact Or.inr ⟨by omega, h2, h3, h4⟩

/-- When no label unit is negative, the scan of `predict` ends on the first maximum. -/
theorem scan_first_maximum [LinearOrderedField α] (nv labels : Nat) (output : List α)
    (hlabels : 1 ≤ labels) (hnonneg : ∀ l, l < labels → 0 ≤ label_unit nv labels output l) :
    first_maximum nv labels output (scan_label_units nv labels output).1 := by
  have h := scan_invariant nv labels output labels
  simp only at h
  unfold scan_label_units
  generalize (List.range labels).foldl
      (fun (st : Nat × α) l =>
        let value := output.getD (nv - labels + l) 0
        if value > st.2 then (l, value) else st) (0, 0) = st at h ⊢
  obtain ⟨hle, hcase⟩ := h
  rcases hcase with ⟨h1, h0⟩ | ⟨h1, _, h3, h4⟩
  · have hall : ∀ l, l < labels → label_unit nv labels output l = 0 := by
      intro l hl
      exact le_antisymm (h0 ▸ hle l hl) (hnonneg l hl)
    refine ⟨by omega, ?_, ?_⟩
    · intro l hl
      rw [h1, hall l hl, hall 0 (by omega)]
    · intro l hl
      omega
  · refine ⟨h1, ?_, ?_⟩
    · intro l hl
      rw [h3]; exact hle l hl
    · intro l hl
      rw [h3]; exact h4 l hl

/-- C1: for a network of at least two layers and a label sequence as long as the training
set, the dataset that `train_rbm_layers` hands to the last layer has one item per sample,
each of size `num_hidden<layers - 2>() + labels`, and component
`num_hidden<layers - 2>() + l` of item `i` is `1` when `l` is the label of sample `i` and `0`
otherwise, for every `l < labels`. -/
theorem train_rbm_layers_one_hot [Zero α] [One α] (ops : RbmOps R α G) (max_epochs : Nat)
    (tuples : List (Layer R)) (training_data : List (List α)) (training_labels : List Nat)
    (labels : Nat) (hlayers : 2 ≤ layers tuples)
    (hsize : training_data.length = training_labels.length)
    (hrange : ∀ label ∈ training_labels, label < labels) :
    ∃ ds, (train_rbm_layers ops max_epochs training_labels labels tuples
          training_data).2.getLast? = some ds
      ∧ ds.length = training_labels.length
      ∧ ∀ i, i < training_labels.length → ∃ item, ds[i]? = some item
          ∧ item.length = num_hidden tuples (layers tuples - 2) + labels
          ∧ training_labels.getD i 0 < labels
          ∧ ∀ l, l < labels →
              item[num_hidden tuples (layers tuples - 2) + l]?
                = some (if training_labels.getD i 0 = l then 1 else 0) := by
  obtain ⟨ds, h1, h2, h3⟩ := train_rbm_layers_last_dataset ops max_epochs training_labels
    labels tuples hlayers training_data hsize
  refine ⟨ds, h1, h2, ?_⟩
  intro i hi
  obtain ⟨item, g1, g2, g3⟩ := h3 i hi
  refine ⟨item, g1, g2, ?_, g3⟩
  apply hrange
  rw [List.getD_eq_getElem _ _ hi]
  exact List.getElem_mem _

/-- C1, evaluated: labels `0, 1, 2` with three label units give the slots `[1,0,0]`,
`[0,1,0]` and `[0,0,1]` behind the two hidden activations. -/
theorem train_rbm_layers_one_hot_witness :
    (train_rbm_layers bias_only_ops 1 [0, 1, 2] 3 two_layers [[1], [0], [1]]).2
        = [[[1], [0], [1]], [[0, 0, 1, 0, 0], [0, 0, 0, 1, 0], [0, 0, 0, 0, 1]]]
      ∧ ∃ ds, (train_rbm_layers bias_only_ops 1 [0, 1, 2] 3 two_layers
            [[1], [0], [1]]).2.getLast? = some ds
          ∧ ds.length = [0, 1, 2].length
          ∧ ∀ i, i < [0, 1, 2].length → ∃ item, ds[i]? = some item
              ∧ item.length = num_hidden two_layers (layers two_layers - 2) + 3
              ∧ [0, 1, 2].getD i 0 < 3
              ∧ ∀ l, l < 3 →
                  item[num_hidden two_layers (layers two_layers - 2) + l]?
                    = some (if [0, 1, 2].getD i 0 = l then 1 else 0) :=
  ⟨by decide,
   train_rbm_layers_one_hot bias_only_ops 1 two_layers [[1], [0], [1]] [0, 1, 2] 3
     (by decide) (by decide) (by decide)⟩

/-- C2, as stated, fails: for a reconstruction with the label units `[-2, -1]` both
`predict` and `deep_predict` return label `0`, although unit `1` is the larger one. -/
theorem predict_negative_units :
    (predict bias_only_ops two_layers_negative [1] 2 ()).1 = .ok 0
      ∧ (deep_predict bias_only_ops two_layers_negative [1] 2 1 ()).1 = .ok 0
      ∧ predict_output bias_only_ops two_layers_negative [1] 2 () = [0, -2, -1]
      ∧ deep_predict_output bias_only_ops two_layers_negative [1] 2 1 () = [0, -2, -1]
      ∧ ¬ first_maximum 3 2 ([0, -2, -1] : List ℚ) 0 := by
  refine ⟨?_, ?_, ?_, ?_, ?_⟩
  · simp [predict, dbn_assert, num_visible, num_hidden, layers, two_layers_negative,
      predict_output, activate_layers, bias_only_ops, scan_label_units,
      set_placeholder_units, List.range_succ]
    norm_num
  · simp [deep_predict, dbn_assert, num_visible, num_hidden, layers, two_layers_negative,
      deep_predict_output, deep_activate_layers, bias_only_ops, scan_label_units,
      set_placeholder_units, gibbs_rounds, List.range_succ]
    norm_num
  · simp [num_visible, layers, two_layers_negative,
      predict_output, activate_layers, bias_only_ops,
      set_placeholder_units, List.range_succ]
  · simp [num_visible, layers, two_layers_negative,
      deep_predict_output, deep_activate_layers, bias_only_ops,
      set_placeholder_units, gibbs_rounds, List.range_succ]
  · intro h
    have := h.2.1 1 (by decide)
    simp [label_unit] at this

/-- C2, amended: when the capacity check passes and there is at least one label, `predict`
returns the first maximum of the label units of its last layer reconstruction provided
that none of these units is negative, and so does `deep_predict` for its own
reconstruction. -/
theorem predict_first_maximum [LinearOrderedField α] (ops : RbmOps R α G)
    (tuples : List (Layer R)) (item : List α) (labels sampling : Nat) (g : G)
    (hlabels : 1 ≤ labels)
    (hroom : num_visible tuples (layers tuples - 1)
      = num_hidden tuples (layers tuples - 2) + labels) :
    ((∀ l, l < labels → 0 ≤ label_unit (num_visible tuples (layers tuples - 1))
          labels (predict_output ops tuples item labels g) l) →
        ∃ lab, (predict ops tuples item labels g).1 = .ok lab
          ∧ first_maximum (num_visible tuples (layers tuples - 1)) labels
              (predict_output ops tuples item labels g) lab)
      ∧ ((∀ l, l < labels → 0 ≤ label_unit (num_visible tuples (layers tuples - 1))
            labels (deep_predict_output ops tuples item labels sampling g) l) →
          ∃ lab, (deep_predict ops tuples item labels sampling g).1 = .ok lab
            ∧ first_maximum (num_visible tuples (layers tuples - 1)) labels
                (deep_predict_output ops tuples item labels sampling g) lab) := by
  refine ⟨fun hpredict => ⟨_, ?_, scan_first_maximum _ labels _ hlabels hpredict⟩,
    fun hdeep => ⟨_, ?_, scan_first_maximum _ labels _ hlabels hdeep⟩⟩
  · simp [predict, predict_output, dbn_assert, hroom]
  · simp [deep_predict, deep_predict_output, dbn_assert, hroom]

/-- The reconstruction of `predict` on the network `two_layers`. -/
theorem predict_output_two_layers :
    predict_output bias_only_ops two_layers [1] 3 () = [0, 0, 1/5, 9/10, 9/10] := by
  simp [num_visible, layers, two_layers, predict_output, activate_layers, bias_only_ops,
    set_placeholder_units, List.range_succ]

/-- The reconstruction of `deep_predict` on the network `two_layers`. -/
theorem deep_predict_output_two_layers :
    deep_predict_output bias_only_ops two_layers [1] 3 2 () = [0, 0, 1/5, 9/10, 9/10] := by
  simp [num_visible, layers, two_layers, deep_predict_output, deep_activate_layers,
    bias_only_ops, set_placeholder_units, gibbs_rounds, List.range_succ]

/-- C2, evaluated: for the label units `[0.2, 0.9, 0.9]` both functions return `1`. -/
theorem predict_first_maximum_witness :
    (predict bias_only_ops two_layers [1] 3 ()).1 = .ok 1
      ∧ (deep_predict bias_only_ops two_layers [1] 3 2 ()).1 = .ok 1
      ∧ (∃ lab, (predict bias_only_ops two_layers [1] 3 ()).1 = .ok lab
          ∧ first_maximum (num_visible two_layers (layers two_layers - 1)) 3
              (predict_output bias_only_ops two_layers [1] 3 ()) lab)
      ∧ (∃ lab, (deep_predict bias_only_ops two_layers [1] 3 2 ()).1 = .ok lab
          ∧ first_maximum (num_visible two_layers (layers two_layers - 1)) 3
              (deep_predict_output bias_only_ops two_layers [1] 3 2 ()) lab) := by
  have h := predict_first_maximum bias_only_ops two_layers [1] 3 2 () (by decide) (by decide)
  refine ⟨?_, ?_, h.1 ?_, h.2 ?_⟩
  · simp [predict, dbn_assert, num_visible, num_hidden, layers, two_layers, predict_output,
      activate_layers, bias_only_ops, scan_label_units, set_placeholder_units,
      List.range_succ]
    norm_num
  · simp [deep_predict, dbn_assert, num_visible, num_hidden, layers, two_layers,
      deep_predict_output, deep_activate_layers, bias_only_ops, scan_label_units,
      set_placeholder_units, gibbs_rounds, List.range_succ]
    norm_num
  · intro l hl
    rw [predict_output_two_layers]
    interval_cases l <;> simp [label_unit, num_visible, layers, two_layers] <;> norm_num
  · intro l hl
    rw [deep_predict_output_two_layers]
    interval_cases l <;> simp [label_unit, num_visible, layers, two_layers] <;> norm_num

end dbn

namespace dll
variable {α W T X : Type}
/-- The inner loop advances by the smaller of the room left in the batch and the number
of items left. -/
theorem advance_eq (last B fuel : Nat) (c : Cursor) (hc : c.iit ≤ last)
    (hfuel : B - c.i ≤ fuel) :
    advance last B fuel c
      = { iit := c.iit + min (B - c.i) (last - c.iit),
          eit := c.eit + min (B - c.i) (last - c.iit),
          samples := c.samples + min (B - c.i) (last - c.iit),
          i := c.i + min (B - c.i) (last - c.iit) } := by
  induction fuel generalizing c with
  | zero =>
    have h0 : min (B - c.i) (last - c.iit) = 0 := by omega
    simp [advance, h0]
  | succ k ih =>
    unfold advance
    by_cases hcond : c.iit ≠ last ∧ c.i < B
    · rw [if_pos hcond]
      rw [ih _ (by simp; omega) (by simp; omega)]
      have hm : min (B - (c.i + 1)) (last - (c.iit + 1)) + 1 = min (B - c.i) (last - c.iit) := by
        omega
      simp only [Cursor.mk.injEq]
      omega
    · rw [if_neg hcond]
      have h0 : min (B - c.i) (last - c.iit) = 0 := by omega
      simp [h0]

/-- Taking as many items as a batch may hold or as are there takes a full batch. -/
theorem take_min_length (B : Nat) (l : List X) : l.take (min B l.length) = l.take B := by
  by_cases h : B ≤ l.length
  · rw [Nat.min_eq_left h]
  · have h2 : l.length ≤ B := by omega
    rw [Nat.min_eq_right h2, List.take_of_length_le h2, List.take_of_length_le (le_refl _)]

/-- The body of the outer loop in closed form. -/
theorem batch_step_eq [Add α] (cfg : TrainerConfig α W T X) (epoch : Nat)
    (input expected : List X) (st : BatchState α W T X) (hp : st.iit ≤ input.length) :
    batch_step cfg epoch input expected st
      = { iit := st.iit + min cfg.batch_size (input.length - st.iit),
          eit := st.eit + min cfg.batch_size (input.length - st.iit),
          batches := st.batches + 1,
          samples := st.samples + min cfg.batch_size (input.length - st.iit),
          machine := run_batch cfg epoch st.machine
            ((input.drop st.iit).take cfg.batch_size)
            ((expected.drop st.eit).take (min cfg.batch_size (input.length - st.iit))) } := by
  unfold batch_step
  simp only []
  rw [advance_eq input.length cfg.batch_size cfg.batch_size _ hp (by simp)]
  simp only [Nat.sub_zero, make_batch, Nat.add_sub_cancel_left]
  have h := take_min_length cfg.batch_size (input.drop st.iit)
  rw [List.length_drop] at h
  rw [h]

/-- Rounding up: one batch more than for the items that the first batch leaves. -/
theorem batch_count_step (m B : Nat) (hB : 1 ≤ B) (hm : 1 ≤ m) :
    batch_count m B = batch_count (m - min B m) B + 1 := by
  unfold batch_count
  by_cases h : m ≤ B
  · rw [Nat.min_eq_right h]
    have h1 : (m + B - 1) / B = 1 := by
      apply Nat.div_eq_of_lt_le <;> omega
    have h2 : (m - m + B - 1) / B = 0 := by
      apply Nat.div_eq_of_lt; omega
    omega
  · have hle : B ≤ m := by omega
    rw [Nat.min_eq_left hle]
    have : m + B - 1 = (m - B + B - 1) + B := by omega
    rw [this, Nat.add_div_right _ (by omega)]

/-- No items, no batch. -/
theorem batch_count_zero (B : Nat) (hB : 1 ≤ B) : batch_count 0 B = 0 := by
  unfold batch_count
  apply Nat.div_eq_of_lt; omega

/-- The batches from an offset on are the first batch and the batches one batch size
further on. -/
theorem batch_ranges_succ (B : Nat) (input expected : List X) (p e k : Nat) :
    batch_ranges B input expected p e (k + 1)
      = ((input.drop p).take B, (expected.drop e).take (min B (input.length - p)))
          :: batch_ranges B input expected (p + B) (e + B) k := by
  unfold batch_ranges
  rw [List.range_succ_eq_map, List.map_cons, List.map_map]
  simp only [Nat.zero_mul, Nat.add_zero]
  congr 1
  apply List.map_congr_left
  intro j _
  simp only [Function.comp, Nat.succ_eq_add_one]
  have h1 : p + (j + 1) * B = p + B + j * B := by ring
  have h2 : e + (j + 1) * B = e + B + j * B := by ring
  rw [h1, h2]

/-- The outer loop in closed form: with batches of at least one item and fuel for every
item left, the loop ends at the end of the input range after the batches of
`batch_ranges`, counted in `batches`, with every item counted in `samples`. -/
theorem batch_loop_eq [Add α] (cfg : TrainerConfig α W T X) (epoch : Nat)
    (input expected : List X) (hB : 1 ≤ cfg.batch_size) (fuel : Nat)
    (st : BatchState α W T X) (hp : st.iit ≤ input.length)
    (hfuel : input.length - st.iit ≤ fuel) :
    batch_loop cfg epoch input expected fuel st
      = some { iit := input.length,
               eit := st.eit + (input.length - st.iit),
               batches := st.batches + batch_count (input.length - st.iit) cfg.batch_size,
               samples := st.samples + (input.length - st.iit),
               machine := run_batches cfg epoch st.machine
                 (batch_ranges cfg.batch_size input expected st.iit st.eit
                   (batch_count (input.length - st.iit) cfg.batch_size)) } := by
  induction fuel generalizing st with
  | zero =>
    have h0 : st.iit = input.length := by omega
    have hz : input.length - st.iit = 0 := by omega
    simp [batch_loop, h0, batch_count_zero _ hB, batch_ranges, run_batches]
    cases st
    simp_all
  | succ k ih =>
    unfold batch_loop
    by_cases hend : st.iit = input.length
    · have hz : input.length - st.iit = 0 := by omega
      simp [hend, batch_count_zero _ hB, batch_ranges, run_batches]
      cases st
      simp_all
    · rw [if_pos hend, batch_step_eq cfg epoch input expected st hp]
      have hm : 1 ≤ input.length - st.iit := by omega
      rw [ih _ (by simp only []; omega) (by simp only []; omega)]
      simp only []
      rw [batch_count_step (input.length - st.iit) cfg.batch_size hB hm]
      have hrem : input.length - (st.iit + min cfg.batch_size (input.length - st.iit))
          = input.length - st.iit - min cfg.batch_size (input.length - st.iit) := by omega
      rw [hrem, batch_ranges_succ]
      simp only [run_batches, List.foldl_cons]
      by_cases hfull : cfg.batch_size ≤ input.length - st.iit
      · rw [Nat.min_eq_left hfull]
        congr 2 <;> omega
      · have hle : input.length - st.iit ≤ cfg.batch_size := by omega
        rw [Nat.min_eq_right hle, Nat.sub_self, batch_count_zero _ hB]
        simp only [batch_ranges, List.range_zero, List.map_nil, List.foldl_nil]
        congr 2

/-- A call of `run_batch` changes none of the momentum members of the machine. -/
theorem run_batch_rbm [Add α] (cfg : TrainerConfig α W T X) (epoch : Nat)
    (m : Machine α W T X) (ib eb : List X) :
    (run_batch cfg epoch m ib eb).rbm.momentum = m.rbm.momentum
      ∧ (run_batch cfg epoch m ib eb).rbm.initial_momentum = m.rbm.initial_momentum
      ∧ (run_batch cfg epoch m ib eb).rbm.final_momentum = m.rbm.final_momentum
      ∧ (run_batch cfg epoch m ib eb).rbm.final_momentum_epoch = m.rbm.final_momentum_epoch := by
  simp [run_batch]

/-- The calls on a list of batches change none of the momentum members of the machine. -/
theorem run_batches_rbm [Add α] (cfg : TrainerConfig α W T X) (epoch : Nat)
    (bs : List (List X × List X)) (m : Machine α W T X) :
    (run_batches cfg epoch m bs).rbm.momentum = m.rbm.momentum
      ∧ (run_batches cfg epoch m bs).rbm.initial_momentum = m.rbm.initial_momentum
      ∧ (run_batches cfg epoch m bs).rbm.final_momentum = m.rbm.final_momentum
      ∧ (run_batches cfg epoch m bs).rbm.final_momentum_epoch = m.rbm.final_momentum_epoch := by
  induction bs generalizing m with
  | nil => simp [run_batches]
  | cons b t ih =>
    have h1 := ih (run_batch cfg epoch m b.1 b.2)
    have h2 := run_batch_rbm cfg epoch m b.1 b.2
    simp only [run_batches, List.foldl_cons] at h1 ⊢
    refine ⟨h1.1.trans h2.1, h1.2.1.trans h2.2.1, h1.2.2.1.trans h2.2.2.1,
      h1.2.2.2.trans h2.2.2.2⟩

/-- The calls on a list of batches append one `train_batch` event per batch, in order,
each with the epoch and with the momentum that the machine had before the first. -/
theorem run_batches_log [Add α] (cfg : TrainerConfig α W T X) (epoch : Nat)
    (bs : List (List X × List X)) (m : Machine α W T X) :
    (run_batches cfg epoch m bs).log
      = m.log ++ bs.map (fun b => Event.train_batch epoch m.rbm.momentum b.1 b.2) := by
  induction bs generalizing m with
  | nil => simp [run_batches]
  | cons b t ih =>
    have h1 := ih (run_batch cfg epoch m b.1 b.2)
    have h2 := run_batch_rbm cfg epoch m b.1 b.2
    simp only [run_batches, List.foldl_cons] at h1 ⊢
    rw [h1, h2.1]
    simp [run_batch]

/-- The ranges of an epoch have the sizes of the ranges it starts from. -/
theorem epoch_ranges_size (cfg : TrainerConfig α W T X) (D : Bool) (epoch : Nat)
    (input expected : List X) :
    (epoch_ranges cfg D epoch input expected).1.length = input.length
      ∧ (epoch_ranges cfg D epoch input expected).2.length = expected.length := by
  unfold epoch_ranges
  split
  · exact ⟨cfg.shuffle_input_size _ _ _ _, cfg.shuffle_expected_size _ _ _ _⟩
  · exact ⟨rfl, rfl⟩

/-- The batch loop of an epoch in closed form. -/
theorem epoch_batches_eq [DivisionRing α] (fuel : Nat) (cfg : TrainerConfig α W T X) (D : Bool)
    (epoch : Nat) (st : TrainState α W T X) (hB : 1 ≤ cfg.batch_size)
    (hfuel : st.input.length ≤ fuel) :
    epoch_batches fuel cfg D epoch st
      = some { iit := st.input.length, eit := st.input.length,
               batches := batch_count st.input.length cfg.batch_size,
               samples := st.input.length,
               machine := run_batches cfg epoch
                 { rbm := st.rbm, trainer := st.trainer, context := cfg.fresh_context,
                   log := st.log }
                 (epoch_calls cfg D epoch st) } := by
  unfold epoch_batches
  have hsz := (epoch_ranges_size cfg D epoch st.input st.expected).1
  simp only []
  rw [batch_loop_eq cfg epoch _ _ hB fuel _ (by simp) (by simp only []; omega)]
  simp only [Nat.sub_zero, Nat.zero_add, hsz, epoch_calls]

/-- The state after an epoch, in closed form. -/
theorem train_epoch_eq [DivisionRing α] (fuel : Nat) (cfg : TrainerConfig α W T X) (D : Bool)
    (epoch : Nat) (st : TrainState α W T X) (hB : 1 ≤ cfg.batch_size)
    (hfuel : st.input.length ≤ fuel) :
    train_epoch fuel cfg D epoch st
      = some
          { rbm :=
              if cfg.has_momentum && decide (epoch = st.rbm.final_momentum_epoch) then
                { (run_batches cfg epoch
                    { rbm := st.rbm, trainer := st.trainer, context := cfg.fresh_context,
                      log := st.log } (epoch_calls cfg D epoch st)).rbm with
                  momentum := st.rbm.final_momentum }
              else (run_batches cfg epoch
                    { rbm := st.rbm, trainer := st.trainer, context := cfg.fresh_context,
                      log := st.log } (epoch_calls cfg D epoch st)).rbm,
            trainer := (run_batches cfg epoch
                    { rbm := st.rbm, trainer := st.trainer, context := cfg.fresh_context,
                      log := st.log } (epoch_calls cfg D epoch st)).trainer,
            input := (epoch_ranges cfg D epoch st.input st.expected).1,
            expected := (epoch_ranges cfg D epoch st.input st.expected).2,
            last_error :=
              (average (epoch_accumulated cfg D epoch st)
                (batch_count st.input.length cfg.batch_size)
                st.input.length).reconstruction_error,
            log :=
              (st.log ++ (epoch_calls cfg D epoch st).map
                  (fun b => Event.train_batch epoch st.rbm.momentum b.1 b.2))
                ++ (if cfg.EnableWatcher then
                      [Event.epoch_end epoch
                        (average (epoch_accumulated cfg D epoch st)
                          (batch_count st.input.length cfg.batch_size) st.input.length)]
                    else []) } := by
  unfold train_epoch
  rw [epoch_batches_eq fuel cfg D epoch st hB hfuel]
  have hr := run_batches_rbm cfg epoch (epoch_calls cfg D epoch st)
    { rbm := st.rbm, trainer := st.trainer, context := cfg.fresh_context, log := st.log }
  have hl := run_batches_log cfg epoch (epoch_calls cfg D epoch st)
    { rbm := st.rbm, trainer := st.trainer, context := cfg.fresh_context, log := st.log }
  simp only [] at hr hl ⊢
  rw [hr.2.2.2, hr.2.2.1, hl]
  simp only [epoch_accumulated]
  cases cfg.EnableWatcher <;> simp

/-- Invariant of the loop over the epochs: after `k` epochs the loop is in a state `st`
whose ranges have their initial sizes, whose momentum members are the initial ones
except that `momentum` is `final_momentum` once epoch `final_momentum_epoch` is over,
and whose log is the initial log followed by events of epochs below `k`, each
`train_batch` event carrying the momentum in effect in its epoch. -/
theorem train_epochs_invariant [DivisionRing α] (fuel : Nat) (cfg : TrainerConfig α W T X)
    (D : Bool) (st0 : TrainState α W T X) (hB : 1 ≤ cfg.batch_size)
    (hfuel : st0.input.length ≤ fuel) (k : Nat) :
    ∃ st, train_epochs fuel cfg D k st0 = some st
      ∧ st.input.length = st0.input.length
      ∧ st.rbm.initial_momentum = st0.rbm.initial_momentum
      ∧ st.rbm.final_momentum = st0.rbm.final_momentum
      ∧ st.rbm.final_momentum_epoch = st0.rbm.final_momentum_epoch
      ∧ st.rbm.momentum
          = (if cfg.has_momentum = true ∧ st0.rbm.final_momentum_epoch < k
              then st0.rbm.final_momentum else st0.rbm.momentum)
      ∧ ∃ new, st.log = st0.log ++ new
          ∧ ∀ e m ib eb, Event.train_batch e m ib eb ∈ new →
              e < k ∧ m = (if cfg.has_momentum = true ∧ st0.rbm.final_momentum_epoch < e
                            then st0.rbm.final_momentum else st0.rbm.momentum) := by
  induction k with
  | zero =>
    refine ⟨st0, rfl, rfl, rfl, rfl, rfl, by simp, [], by simp, by simp⟩
  | succ k ih =>
    obtain ⟨st, hst, hlen, hi, hf, hs, hm, new, hlog, hnew⟩ := ih
    have hr := run_batches_rbm cfg k (epoch_calls cfg D k st)
      { rbm := st.rbm, trainer := st.trainer, context := cfg.fresh_context, log := st.log }
    simp only [] at hr
    simp only [train_epochs, hst]
    rw [train_epoch_eq fuel cfg D k st hB (by omega)]
    refine ⟨_, rfl, ?_, ?_, ?_, ?_, ?_, ?_⟩
    · simp only []
      rw [(epoch_ranges_size cfg D k st.input st.expected).1, hlen]
    · simp only []
      split <;> simp [hr, hi]
    · simp only []
      split <;> simp [hr, hf]
    · simp only []
      split <;> simp [hr, hs]
    · simp only []
      by_cases hmom : cfg.has_momentum = true
      · by_cases hk : k = st0.rbm.final_momentum_epoch
        · have : st0.rbm.final_momentum_epoch < k + 1 := by omega
          simp [hmom, hk, hs, hf, this]
        · by_cases hlt : st0.rbm.final_momentum_epoch < k
          · have : st0.rbm.final_momentum_epoch < k + 1 := by omega
            simp [hmom, hk, hs, hr, hm, hlt, this]
          · have : ¬ st0.rbm.final_momentum_epoch < k + 1 := by omega
            simp [hmom, hk, hs, hr, hm, hlt, this]
      · simp [hmom, hr, hm]
    · refine ⟨new ++ ((epoch_calls cfg D k st).map
          (fun b => Event.train_batch k st.rbm.momentum b.1 b.2)
          ++ (if cfg.EnableWatcher then
                [Event.epoch_end k
                  (average (epoch_accumulated cfg D k st)
                    (batch_count st.input.length cfg.batch_size) st.input.length)]
              else [])), ?_, ?_⟩
      · simp only [hlog, List.append_assoc]
      · intro e m ib eb hmem
        rw [List.mem_append] at hmem
        rcases hmem with h | h
        · obtain ⟨h1, h2⟩ := hnew e m ib eb h
          exact ⟨by omega, h2⟩
        · rw [List.mem_append] at h
          rcases h with h | h
          · rw [List.mem_map] at h
            obtain ⟨b, _, hb⟩ := h
            injection hb with he hmm _ _
            subst he
            refine ⟨by omega, ?_⟩
            rw [← hmm, hm]
          · split at h <;> simp at h

/-- The loop over the epochs reaches every epoch count, with ranges of the initial size. -/
theorem train_epochs_some [DivisionRing α] (fuel : Nat) (cfg : TrainerConfig α W T X)
    (D : Bool) (st0 : TrainState α W T X) (hB : 1 ≤ cfg.batch_size)
    (hfuel : st0.input.length ≤ fuel) (k : Nat) :
    ∃ st, train_epochs fuel cfg D k st0 = some st ∧ st.input.length = st0.input.length := by
  obtain ⟨st, h1, h2, _⟩ := train_epochs_invariant fuel cfg D st0 hB hfuel k
  exact ⟨st, h1, h2⟩

/-- The log after a later epoch count extends the log after an earlier one. -/
theorem train_epochs_log_extends [DivisionRing α] (fuel : Nat) (cfg : TrainerConfig α W T X)
    (D : Bool) (st0 : TrainState α W T X) (hB : 1 ≤ cfg.batch_size)
    (hfuel : st0.input.length ≤ fuel) (e d : Nat) (ste stk : TrainState α W T X)
    (he : train_epochs fuel cfg D e st0 = some ste)
    (hk : train_epochs fuel cfg D (e + d) st0 = some stk) :
    ∃ more, stk.log = ste.log ++ more := by
  induction d generalizing stk with
  | zero =>
    rw [Nat.add_zero, he] at hk
    injection hk with hk
    exact ⟨[], by simp [hk]⟩
  | succ d ih =>
    obtain ⟨stm, hm, hlen⟩ := train_epochs_some fuel cfg D st0 hB hfuel (e + d)
    obtain ⟨more, hmore⟩ := ih stm hm
    have hstep : train_epochs fuel cfg D (e + (d + 1)) st0
        = train_epoch fuel cfg D (e + d) stm := by
      rw [← Nat.add_assoc]
      simp only [train_epochs, hm]
    rw [hstep, train_epoch_eq fuel cfg D (e + d) stm hB (by omega)] at hk
    injection hk with hk
    rw [← hk]
    simp only [hmore, List.append_assoc]
    exact ⟨_, rfl⟩

/-- The events of epoch `e` are in the log after every later epoch count: its
`train_batch` calls, and its `epoch_end` notification when the watcher is enabled. -/
theorem train_epochs_log_contains [DivisionRing α] (fuel : Nat) (cfg : TrainerConfig α W T X)
    (D : Bool) (st0 : TrainState α W T X) (hB : 1 ≤ cfg.batch_size)
    (hfuel : st0.input.length ≤ fuel) (e k : Nat) (hek : e < k)
    (ste stk : TrainState α W T X)
    (he : train_epochs fuel cfg D e st0 = some ste)
    (hk : train_epochs fuel cfg D k st0 = some stk) :
    (∀ b ∈ epoch_calls cfg D e ste, Event.train_batch e ste.rbm.momentum b.1 b.2 ∈ stk.log)
      ∧ (cfg.EnableWatcher = true →
          Event.epoch_end e (average (epoch_accumulated cfg D e ste)
            (batch_count ste.input.length cfg.batch_size) ste.input.length) ∈ stk.log) := by
  obtain ⟨ste2, hlen⟩ := train_epochs_some fuel cfg D st0 hB hfuel e
  rw [he] at hlen
  obtain ⟨h1, h2⟩ := hlen
  injection h1 with h1
  subst h1
  have hnext : train_epochs fuel cfg D (e + 1) st0 = train_epoch fuel cfg D e ste := by
    simp only [train_epochs, he]
  rw [train_epoch_eq fuel cfg D e ste hB (by omega)] at hnext
  have hk2 : train_epochs fuel cfg D (e + 1 + (k - (e + 1))) st0 = some stk := by
    have : e + 1 + (k - (e + 1)) = k := by omega
    rw [this]; exact hk
  obtain ⟨more, hmore⟩ := train_epochs_log_extends fuel cfg D st0 hB hfuel (e + 1)
    (k - (e + 1)) _ stk hnext hk2
  simp only [] at hmore
  constructor
  · intro b hb
    rw [hmore]
    simp only [List.mem_append, List.mem_map]
    exact Or.inl (Or.inl (Or.inr ⟨b, hb, rfl⟩))
  · intro hw
    rw [hmore, hw]
    simp

/-- The number of batches in `batch_ranges`. -/
theorem length_batch_ranges (B : Nat) (input expected : List X) (p e k : Nat) :
    (batch_ranges B input expected p e k).length = k := by
  simp [batch_ranges]

/-- No batch exactly when no item. -/
theorem batch_count_eq_zero (m B : Nat) (hB : 1 ≤ B) (h : batch_count m B = 0) : m = 0 := by
  unfold batch_count at h
  rw [Nat.div_eq_zero_iff (by omega)] at h
  omega

/-- The batches from an offset on, concatenated, are the items from the offset on. -/
theorem join_batch_ranges (B : Nat) (input expected : List X) (hB : 1 ≤ B) (k p e : Nat)
    (hk : batch_count (input.length - p) B = k) :
    ((batch_ranges B input expected p e k).map Prod.fst).flatten = input.drop p := by
  induction k generalizing p e with
  | zero =>
    have := batch_count_eq_zero _ B hB hk
    simp [batch_ranges]
    omega
  | succ k ih =>
    have hm : 1 ≤ input.length - p := by
      by_contra hcon
      have : input.length - p = 0 := by omega
      rw [this, batch_count_zero B hB] at hk
      omega
    rw [batch_ranges_succ, List.map_cons, List.flatten_cons]
    have hstep := batch_count_step (input.length - p) B hB hm
    rw [ih (p + B) (e + B) ?_]
    · simp only []
      rw [← List.drop_drop, List.take_append_drop]
    · by_cases hfull : B ≤ input.length - p
      · rw [Nat.min_eq_left hfull] at hstep
        have : input.length - (p + B) = input.length - p - B := by omega
        rw [this]; omega
      · have h0 : input.length - (p + B) = 0 := by omega
        rw [Nat.min_eq_right (by omega), Nat.sub_self, batch_count_zero B hB] at hstep
        rw [h0, batch_count_zero B hB]; omega

/-- Batch `j` of `batch_ranges`. -/
theorem getElem?_batch_ranges (B : Nat) (input expected : List X) (p e k j : Nat)
    (hj : j < k) :
    (batch_ranges B input expected p e k)[j]?
      = some ((input.drop (p + j * B)).take B,
              (expected.drop (e + j * B)).take (min B (input.length - (p + j * B)))) := by
  simp [batch_ranges, List.getElem?_map, List.getElem?_range hj]

/-- Every batch before the last batch of a range holds `B` items. -/
theorem batch_full (B n j : Nat) (hB : 1 ≤ B) (hj : j + 1 < batch_count n B) :
    (j + 1) * B < n := by
  unfold batch_count at hj
  have h : j + 2 ≤ (n + B - 1) / B := hj
  rw [Nat.le_div_iff_mul_le (by omega)] at h
  have : (j + 2) * B = (j + 1) * B + B := by ring
  omega

/-- The last batch of a range starts before the end of the range. -/
theorem batch_last (B n j : Nat) (hB : 1 ≤ B) (hj : j < batch_count n B) :
    j * B < n := by
  unfold batch_count at hj
  have h : j + 1 ≤ (n + B - 1) / B := hj
  rw [Nat.le_div_iff_mul_le (by omega)] at h
  have : (j + 1) * B = j * B + B := by ring
  omega

/-- A range with an item has a batch. -/
theorem batch_count_pos (B n : Nat) (hB : 1 ≤ B) (hn : 1 ≤ n) : 1 ≤ batch_count n B := by
  by_contra h
  have h0 : batch_count n B = 0 := by omega
  have := batch_count_eq_zero n B hB h0
  omega

/-- When the data based initialisation of the weights does not fail, the loop over the
epochs is entered, with the initial momentum in effect, the given ranges, and a log that
holds `training_begin` (watcher enabled) and the initialisation (machine with one). -/
theorem train_start_ok [DivisionRing α] (cfg : TrainerConfig α W T X) (rbm : Rbm α W)
    (input expected : List X) (hinit : init_weights_succeeds cfg rbm input = true) :
    ∃ start, train_start cfg rbm input expected = .ok start
      ∧ start.rbm.momentum = rbm.initial_momentum
      ∧ start.rbm.initial_momentum = rbm.initial_momentum
      ∧ start.rbm.final_momentum = rbm.final_momentum
      ∧ start.rbm.final_momentum_epoch = rbm.final_momentum_epoch
      ∧ start.input = input
      ∧ start.expected = expected
      ∧ (∀ e m ib eb, Event.train_batch e m ib eb ∉ start.log)
      ∧ start.log.map Event.kind
          = (if cfg.EnableWatcher then [EventKind.training_begin] else [])
            ++ (if cfg.init_weights_trait then [EventKind.init_weights] else []) := by
  unfold init_weights_succeeds at hinit
  unfold train_start
  cases ht : cfg.init_weights_trait
  · simp only [Bool.false_eq_true, if_false]
    refine ⟨_, rfl, rfl, rfl, rfl, rfl, rfl, rfl, ?_, ?_⟩
    · cases cfg.EnableWatcher <;> simp
    · cases cfg.EnableWatcher <;> simp [Event.kind]
  · cases hi : cfg.init_weights rbm.params input with
    | error message => simp [ht, hi] at hinit
    | ok params =>
      simp only [if_true, hi]
      refine ⟨_, rfl, rfl, rfl, rfl, rfl, rfl, rfl, ?_, ?_⟩
      · cases cfg.EnableWatcher <;> simp
      · cases cfg.EnableWatcher <;> simp [Event.kind]

/-- When the data based initialisation of the weights fails, `train` ends on the failed
assertion before the first epoch, whatever the fuel: the calls made are `training_begin`
(watcher enabled) and the initialisation. -/
theorem train_aborts [DivisionRing α] (fuel : Nat) (cfg : TrainerConfig α W T X) (D : Bool)
    (rbm : Rbm α W) (input expected : List X) (max_epochs : Nat)
    (hinit : init_weights_succeeds cfg rbm input = false) :
    ∃ message, cfg.init_weights_trait = true
      ∧ cfg.init_weights rbm.params input = .error message
      ∧ train fuel cfg D rbm input expected max_epochs
          = some (.error
              { message := message,
                log := (if cfg.EnableWatcher then [Event.training_begin] else [])
                  ++ [Event.init_weights] }) := by
  unfold init_weights_succeeds at hinit
  cases ht : cfg.init_weights_trait
  · simp [ht] at hinit
  · cases hi : cfg.init_weights rbm.params input with
    | ok params => simp [ht, hi] at hinit
    | error message =>
      refine ⟨message, rfl, rfl, ?_⟩
      simp [train, train_start, ht, hi]

/-- The result of `train` from the state after the last epoch. -/
theorem train_of_epochs [DivisionRing α] (fuel : Nat) (cfg : TrainerConfig α W T X)
    (D : Bool) (rbm : Rbm α W) (input expected : List X) (max_epochs : Nat)
    (start st : TrainState α W T X)
    (hstart : train_start cfg rbm input expected = .ok start)
    (h : train_epochs fuel cfg D max_epochs start = some st) :
    train fuel cfg D rbm input expected max_epochs
      = some (.ok { st with
          log := if cfg.EnableWatcher then st.log ++ [Event.training_end] else st.log }) := by
  simp only [train, hstart, h]

/-- C3, as stated, fails: with `final_momentum_epoch = 5` the batches of epoch `5` are
trained with the initial momentum `1/2`, as those of epoch `4` are; the final momentum
`9/10` is in effect from epoch `6` on. -/
theorem momentum_of_epoch_five :
    (∃ st, train 3 sum_config false switch_at_five [1, 0, 1] [1, 1, 1] 7 = some (.ok st)
        ∧ st.log[14]? = some (Event.train_batch 4 (1/2) [1, 0] [1, 1])
        ∧ st.log[17]? = some (Event.train_batch 5 (1/2) [1, 0] [1, 1])
        ∧ st.log[20]? = some (Event.train_batch 6 (9/10) [1, 0] [1, 1]))
      ∧ switch_at_five.final_momentum_epoch = 5
      ∧ switch_at_five.initial_momentum = 1/2
      ∧ switch_at_five.final_momentum = 9/10
      ∧ switch_at_five.initial_momentum ≠ switch_at_five.final_momentum := by
  refine ⟨⟨_, rfl, rfl, rfl, rfl⟩, rfl, rfl, rfl, ?_⟩
  simp only [switch_at_five]
  norm_num

/-- C3, amended: with momentum enabled, batches of at least one item and enough fuel,
`train` ends. When the data based initialisation of the weights does not fail, it
returns, and every `train_batch` call of epoch `e` is made with `rbm.initial_momentum` in
effect when `e ≤ final_momentum_epoch` and with `rbm.final_momentum` when
`e > final_momentum_epoch`; every epoch below `max_epochs` of a non-empty dataset makes
such a call. When the initialisation fails, `train` ends on the failed assertion and has
made no `train_batch` call. -/
theorem train_momentum_in_effect [DivisionRing α] (fuel : Nat) (cfg : TrainerConfig α W T X)
    (Denoising : Bool) (rbm : Rbm α W) (input expected : List X) (max_epochs : Nat)
    (hmomentum : cfg.has_momentum = true) (hB : 1 ≤ cfg.batch_size)
    (hfuel : input.length ≤ fuel) :
    (init_weights_succeeds cfg rbm input = true →
        ∃ st, train fuel cfg Denoising rbm input expected max_epochs = some (.ok st)
          ∧ (∀ e m ib eb, Event.train_batch e m ib eb ∈ st.log →
              e < max_epochs
                ∧ m = (if e ≤ rbm.final_momentum_epoch then rbm.initial_momentum
                        else rbm.final_momentum))
          ∧ (1 ≤ input.length → ∀ e, e < max_epochs →
              ∃ m ib eb, Event.train_batch e m ib eb ∈ st.log))
      ∧ (init_weights_succeeds cfg rbm input = false →
          ∃ abort, train fuel cfg Denoising rbm input expected max_epochs = some (.error abort)
            ∧ ∀ e m ib eb, Event.train_batch e m ib eb ∉ abort.log) := by
  constructor
  swap
  · intro hinit
    obtain ⟨message, _, _, h⟩ :=
      train_aborts fuel cfg Denoising rbm input expected max_epochs hinit
    refine ⟨_, h, ?_⟩
    intro e m ib eb
    cases cfg.EnableWatcher <;> simp
  intro hinit
  obtain ⟨start, hstart, h1, h2, h3, h4, h5, h6, h7, _⟩ :=
    train_start_ok cfg rbm input expected hinit
  have hf : start.input.length ≤ fuel := by rw [h5]; exact hfuel
  obtain ⟨st, hst, hlen, _, _, _, _, new, hlog, hnew⟩ :=
    train_epochs_invariant fuel cfg Denoising start hB hf max_epochs
  refine ⟨_, train_of_epochs fuel cfg Denoising rbm input expected max_epochs start st hstart
    hst, ?_, ?_⟩
  · intro e m ib eb hmem
    have hmem2 : Event.train_batch e m ib eb ∈ new := by
      simp only [] at hmem
      rw [hlog] at hmem
      cases hw : cfg.EnableWatcher <;> simp [hw, h7] at hmem <;> exact hmem
    obtain ⟨g1, g2⟩ := hnew e m ib eb hmem2
    refine ⟨g1, ?_⟩
    rw [g2, h1, h3, h4]
    by_cases hle : e ≤ rbm.final_momentum_epoch
    · have : ¬ rbm.final_momentum_epoch < e := by omega
      simp [hle, this]
    · have : rbm.final_momentum_epoch < e := by omega
      simp [hle, this, hmomentum]
  · intro hn e he
    obtain ⟨ste, hste, hlene⟩ := train_epochs_some fuel cfg Denoising start hB hf e
    obtain ⟨hcalls, _⟩ := train_epochs_log_contains fuel cfg Denoising start hB hf e
      max_epochs he ste st hste hst
    have hsz := (epoch_ranges_size cfg Denoising e ste.input ste.expected).1
    have hcount : 1 ≤ batch_count (epoch_ranges cfg Denoising e ste.input ste.expected).1.length
        cfg.batch_size := by
      apply batch_count_pos _ _ hB
      rw [hsz, hlene, h5]; exact hn
    have hget := getElem?_batch_ranges cfg.batch_size
      (epoch_ranges cfg Denoising e ste.input ste.expected).1
      (epoch_ranges cfg Denoising e ste.input ste.expected).2 0 0 _ 0 hcount
    generalize hb0 : ((List.take cfg.batch_size (List.drop (0 + 0 * cfg.batch_size)
      (epoch_ranges cfg Denoising e ste.input ste.expected).1),
      List.take (min cfg.batch_size
        ((epoch_ranges cfg Denoising e ste.input ste.expected).1.length
          - (0 + 0 * cfg.batch_size)))
        (List.drop (0 + 0 * cfg.batch_size)
          (epoch_ranges cfg Denoising e ste.input ste.expected).2)) : List X × List X)
      = b0 at hget
    have hb := hcalls b0 (List.getElem?_mem hget)
    refine ⟨ste.rbm.momentum, b0.1, b0.2, ?_⟩
    show Event.train_batch e ste.rbm.momentum b0.1 b0.2
      ∈ (if cfg.EnableWatcher = true then st.log ++ [Event.training_end] else st.log)
    cases hw : cfg.EnableWatcher
    · simpa using hb
    · simp only [if_true, List.mem_append]
      exact Or.inl hb

/-- Without shuffling the ranges are the initial ones after every epoch count. -/
theorem train_epochs_ranges [DivisionRing α] (fuel : Nat) (cfg : TrainerConfig α W T X)
    (D : Bool) (st0 : TrainState α W T X) (hB : 1 ≤ cfg.batch_size)
    (hfuel : st0.input.length ≤ fuel) (hshuffle : cfg.has_shuffle = false) (k : Nat)
    (st : TrainState α W T X) (hst : train_epochs fuel cfg D k st0 = some st) :
    st.input = st0.input ∧ st.expected = st0.expected := by
  induction k generalizing st with
  | zero =>
    simp only [train_epochs] at hst
    injection hst with hst
    subst hst
    exact ⟨rfl, rfl⟩
  | succ k ih =>
    obtain ⟨stk, hk, hlen⟩ := train_epochs_some fuel cfg D st0 hB hfuel k
    obtain ⟨g1, g2⟩ := ih stk hk
    simp only [train_epochs, hk] at hst
    rw [train_epoch_eq fuel cfg D k stk hB (by omega)] at hst
    injection hst with hst
    subst hst
    simp only [epoch_ranges, hshuffle]
    exact ⟨g1, g2⟩

/-- The batches of an epoch: their number, their concatenation and their sizes. -/
theorem epoch_calls_shape (cfg : TrainerConfig α W T X) (D : Bool) (epoch : Nat)
    (st : TrainState α W T X) (hB : 1 ≤ cfg.batch_size) (hn : 1 ≤ st.input.length) :
    (epoch_calls cfg D epoch st).length = batch_count st.input.length cfg.batch_size
      ∧ ((epoch_calls cfg D epoch st).map Prod.fst).flatten
          = (epoch_ranges cfg D epoch st.input st.expected).1
      ∧ (∀ j, j + 1 < batch_count st.input.length cfg.batch_size →
          ∃ c, (epoch_calls cfg D epoch st)[j]? = some c
            ∧ c.1 = ((epoch_ranges cfg D epoch st.input st.expected).1.drop
                      (j * cfg.batch_size)).take cfg.batch_size
            ∧ c.1.length = cfg.batch_size)
      ∧ (∃ c, (epoch_calls cfg D epoch st)[batch_count st.input.length cfg.batch_size - 1]?
            = some c
          ∧ c.1 = (epoch_ranges cfg D epoch st.input st.expected).1.drop
                    ((batch_count st.input.length cfg.batch_size - 1) * cfg.batch_size)
          ∧ 1 ≤ c.1.length ∧ c.1.length ≤ cfg.batch_size) := by
  have hsz := (epoch_ranges_size cfg D epoch st.input st.expected).1
  have hpos := batch_count_pos cfg.batch_size st.input.length hB hn
  unfold epoch_calls
  simp only [hsz]
  refine ⟨length_batch_ranges _ _ _ _ _ _, ?_, ?_, ?_⟩
  · have := join_batch_ranges cfg.batch_size
      (epoch_ranges cfg D epoch st.input st.expected).1
      (epoch_ranges cfg D epoch st.input st.expected).2 hB
      (batch_count st.input.length cfg.batch_size) 0 0 (by rw [Nat.sub_zero, hsz])
    simpa using this
  · intro j hj
    have hfull := batch_full cfg.batch_size st.input.length j hB hj
    refine ⟨_, getElem?_batch_ranges _ _ _ _ _ _ j (by omega), ?_, ?_⟩
    · simp
    · simp only [Nat.zero_add, List.length_take, List.length_drop, hsz]
      have : (j + 1) * cfg.batch_size = j * cfg.batch_size + cfg.batch_size := by ring
      omega
  · have hlast := batch_last cfg.batch_size st.input.length
      (batch_count st.input.length cfg.batch_size - 1) hB (by omega)
    have hcover : st.input.length
        ≤ (batch_count st.input.length cfg.batch_size - 1) * cfg.batch_size
            + cfg.batch_size := by
      have h1 := Nat.succ_mul (batch_count st.input.length cfg.batch_size - 1) cfg.batch_size
      rw [Nat.succ_eq_add_one, Nat.sub_add_cancel hpos] at h1
      have h2 : st.input.length ≤ batch_count st.input.length cfg.batch_size * cfg.batch_size := by
        unfold batch_count
        have := Nat.lt_div_mul_add (a := st.input.length + cfg.batch_size - 1)
          (b := cfg.batch_size) (by omega)
        omega
      omega
    refine ⟨_, getElem?_batch_ranges _ _ _ _ _ _ _ (by omega), ?_, ?_, ?_⟩
    · simp only [Nat.zero_add]
      apply List.take_of_length_le
      rw [List.length_drop, hsz]
      omega
    · simp only [Nat.zero_add, List.length_take, List.length_drop, hsz]
      omega
    · simp only [Nat.zero_add, List.length_take, List.length_drop, hsz]
      omega

/-- On the datasets `[[1]]` and `[[1], [1]]` the visible unit of `unit_weight_rbm` is on in
every sample, and the data based initialisation of the weights of `standard_config`
fails its assertion. -/
theorem standard_config_fails (log : ℚ → ℚ) :
    init_weights_succeeds (standard_config log) unit_weight_machine [[1]] = false
      ∧ init_weights_succeeds (standard_config log) unit_weight_machine [[1], [1]] = false
      ∧ (standard_config log).init_weights unit_weight_machine.params [[1]]
          = .error "NaN verify"
      ∧ (standard_config log).init_weights unit_weight_machine.params [[1], [1]]
          = .error "NaN verify" := by
  have h : init_weights log [[1]] (unit_weight_rbm ℚ) = Except.error "NaN verify" := by
    simp [init_weights, unit_weight_rbm, List.range_succ, finite_log_odds, shifted_frequency]
    norm_num
  have h2 : init_weights log [[1], [1]] (unit_weight_rbm ℚ) = Except.error "NaN verify" := by
    simp [init_weights, unit_weight_rbm, List.range_succ, finite_log_odds, shifted_frequency]
    norm_num
  refine ⟨?_, ?_, ?_, ?_⟩
  · simp only [init_weights_succeeds, standard_config, unit_weight_machine, rbm_init_weights, h]
    rfl
  · simp only [init_weights_succeeds, standard_config, unit_weight_machine, rbm_init_weights, h2]
    rfl
  · simp only [standard_config, unit_weight_machine, rbm_init_weights, h]
  · simp only [standard_config, unit_weight_machine, rbm_init_weights, h2]

/-- C3, evaluated on three items, batches of two and seven epochs, and on a dataset on
which the initialisation of the weights fails. -/
theorem train_momentum_in_effect_witness :
    (∃ st, train 3 sum_config false switch_at_five [1, 0, 1] [1, 1, 1] 7 = some (.ok st)
      ∧ (∀ e m ib eb, Event.train_batch e m ib eb ∈ st.log →
          e < 7
            ∧ m = (if e ≤ switch_at_five.final_momentum_epoch
                    then switch_at_five.initial_momentum
                    else switch_at_five.final_momentum))
      ∧ (1 ≤ [(1 : ℚ), 0, 1].length → ∀ e, e < 7 →
          ∃ m ib eb, Event.train_batch e m ib eb ∈ st.log))
      ∧ ∀ log : ℚ → ℚ,
          ∃ abort, train 1 (standard_config log) false unit_weight_machine [[1]] [[1]] 7
              = some (.error abort)
            ∧ ∀ e m ib eb, Event.train_batch e m ib eb ∉ abort.log :=
  ⟨(train_momentum_in_effect 3 sum_config false switch_at_five [1, 0, 1] [1, 1, 1] 7 rfl
      (by decide) (by decide)).1 rfl,
   fun log =>
    (train_momentum_in_effect 1 (standard_config log) false unit_weight_machine [[1]] [[1]] 7
      rfl (by simp [standard_config]) (by decide)).2 (standard_config_fails log).1⟩

/-- C4: for a non-empty dataset, batches of at least one item and enough fuel, `train`
ends. When the data based initialisation of the weights does not fail, every epoch
`e < max_epochs` of `train` is reached, its batch loop ends with
`batches = ⌈n / batch_size⌉` and `samples = n`, and the batches it hands to `train_batch`,
which `train` logs in order, are `⌈n / batch_size⌉` consecutive ranges of the input range
of the epoch whose concatenation is that range (the dataset itself when nothing is
shuffled): every batch but the last holds `batch_size` items, and the last one holds the
remaining items, at least one and at most `batch_size`. When the initialisation fails,
`train` ends on the failed assertion before its first epoch: there is no epoch and no
call of `train_batch`. -/
theorem train_epoch_batches [DivisionRing α] (fuel : Nat) (cfg : TrainerConfig α W T X)
    (Denoising : Bool) (rbm : Rbm α W) (input expected : List X) (max_epochs : Nat)
    (hn : 1 ≤ input.length) (hB : 1 ≤ cfg.batch_size) (hfuel : input.length ≤ fuel)
    (e : Nat) (he : e < max_epochs) :
    (init_weights_succeeds cfg rbm input = true →
      ∃ start st b res,
        train_start cfg rbm input expected = .ok start
        ∧ train_epochs fuel cfg Denoising e start = some st
        ∧ epoch_batches fuel cfg Denoising e st = some b
        ∧ train fuel cfg Denoising rbm input expected max_epochs = some (.ok res)
        ∧ b.batches = batch_count input.length cfg.batch_size
        ∧ b.samples = input.length
        ∧ b.machine.log = st.log ++ (epoch_calls cfg Denoising e st).map
            (fun c => Event.train_batch e st.rbm.momentum c.1 c.2)
        ∧ (∀ c ∈ epoch_calls cfg Denoising e st,
            Event.train_batch e st.rbm.momentum c.1 c.2 ∈ res.log)
        ∧ (epoch_calls cfg Denoising e st).length = batch_count input.length cfg.batch_size
        ∧ ((epoch_calls cfg Denoising e st).map Prod.fst).flatten
            = (epoch_ranges cfg Denoising e st.input st.expected).1
        ∧ (epoch_ranges cfg Denoising e st.input st.expected).1.length = input.length
        ∧ (cfg.has_shuffle = false →
            (epoch_ranges cfg Denoising e st.input st.expected).1 = input)
        ∧ (∀ j, j + 1 < batch_count input.length cfg.batch_size →
            ∃ c, (epoch_calls cfg Denoising e st)[j]? = some c
              ∧ c.1 = ((epoch_ranges cfg Denoising e st.input st.expected).1.drop
                        (j * cfg.batch_size)).take cfg.batch_size
              ∧ c.1.length = cfg.batch_size)
        ∧ (∃ c, (epoch_calls cfg Denoising e st)[batch_count input.length cfg.batch_size - 1]?
              = some c
            ∧ c.1 = (epoch_ranges cfg Denoising e st.input st.expected).1.drop
                      ((batch_count input.length cfg.batch_size - 1) * cfg.batch_size)
            ∧ 1 ≤ c.1.length ∧ c.1.length ≤ cfg.batch_size))
      ∧ (init_weights_succeeds cfg rbm input = false →
          ∃ abort, train fuel cfg Denoising rbm input expected max_epochs = some (.error abort)
            ∧ (abort.log.map Event.kind).filter EventKind.is_train_batch = []) := by
  constructor
  swap
  · intro hinit
    obtain ⟨message, _, _, h⟩ :=
      train_aborts fuel cfg Denoising rbm input expected max_epochs hinit
    refine ⟨_, h, ?_⟩
    cases cfg.EnableWatcher <;> simp [Event.kind, EventKind.is_train_batch]
  intro hinit
  obtain ⟨start, hstart, _, _, _, _, h5, h6, _, _⟩ :=
    train_start_ok cfg rbm input expected hinit
  have hf : start.input.length ≤ fuel := by rw [h5]; exact hfuel
  obtain ⟨st, hst, hlen⟩ := train_epochs_some fuel cfg Denoising start hB hf e
  obtain ⟨stk, hstk, _⟩ := train_epochs_some fuel cfg Denoising start hB hf max_epochs
  rw [h5] at hlen
  have hb := epoch_batches_eq fuel cfg Denoising e st hB (by omega)
  obtain ⟨hcalls, _⟩ := train_epochs_log_contains fuel cfg Denoising start hB hf e max_epochs
    he st stk hst hstk
  obtain ⟨s1, s2, s3, s4⟩ := epoch_calls_shape cfg Denoising e st hB (by omega)
  rw [hlen] at s1 s3 s4
  refine ⟨start, st, _, _, hstart, hst, hb,
    train_of_epochs fuel cfg Denoising rbm input expected max_epochs start stk hstart hstk,
    by rw [hlen], by rw [hlen], ?_, ?_, s1, s2, ?_, ?_, s3, s4⟩
  · exact run_batches_log cfg e (epoch_calls cfg Denoising e st) _
  · intro c hc
    show Event.train_batch e st.rbm.momentum c.1 c.2
      ∈ (if cfg.EnableWatcher = true then stk.log ++ [Event.training_end] else stk.log)
    have := hcalls c hc
    cases hw : cfg.EnableWatcher
    · simpa using this
    · simp only [if_true, List.mem_append]
      exact Or.inl this
  · rw [(epoch_ranges_size cfg Denoising e st.input st.expected).1, hlen]
  · intro hsh
    have := (train_epochs_ranges fuel cfg Denoising start hB hf hsh e st hst).1
    simp only [epoch_ranges, hsh]
    rw [this, h5]
    rfl

/-- C4, evaluated: three items in batches of two make the batches `[1, 0]` and `[1]` in
every epoch; on a dataset on which the initialisation of the weights fails there is no
epoch. -/
theorem train_epoch_batches_witness :
    (∃ res, train 3 sum_config false switch_at_five [1, 0, 1] [1, 1, 1] 2 = some (.ok res)
        ∧ res.log.length = 9
        ∧ res.log[2]? = some (Event.train_batch 0 (1/2) [1, 0] [1, 1])
        ∧ res.log[3]? = some (Event.train_batch 0 (1/2) [1] [1])
        ∧ res.log[5]? = some (Event.train_batch 1 (1/2) [1, 0] [1, 1])
        ∧ res.log[6]? = some (Event.train_batch 1 (1/2) [1] [1]))
      ∧ (∃ start st b res,
        train_start sum_config switch_at_five [1, 0, 1] [1, 1, 1] = .ok start
        ∧ train_epochs 3 sum_config false 1 start = some st
        ∧ epoch_batches 3 sum_config false 1 st = some b
        ∧ train 3 sum_config false switch_at_five [1, 0, 1] [1, 1, 1] 2 = some (.ok res)
        ∧ b.batches = batch_count [(1 : ℚ), 0, 1].length sum_config.batch_size
        ∧ b.samples = [(1 : ℚ), 0, 1].length
        ∧ b.machine.log = st.log ++ (epoch_calls sum_config false 1 st).map
            (fun c => Event.train_batch 1 st.rbm.momentum c.1 c.2)
        ∧ (∀ c ∈ epoch_calls sum_config false 1 st,
            Event.train_batch 1 st.rbm.momentum c.1 c.2 ∈ res.log)
        ∧ (epoch_calls sum_config false 1 st).length
            = batch_count [(1 : ℚ), 0, 1].length sum_config.batch_size
        ∧ ((epoch_calls sum_config false 1 st).map Prod.fst).flatten
            = (epoch_ranges sum_config false 1 st.input st.expected).1
        ∧ (epoch_ranges sum_config false 1 st.input st.expected).1.length
            = [(1 : ℚ), 0, 1].length
        ∧ (sum_config.has_shuffle = false →
            (epoch_ranges sum_config false 1 st.input st.expected).1 = [1, 0, 1])
        ∧ (∀ j, j + 1 < batch_count [(1 : ℚ), 0, 1].length sum_config.batch_size →
            ∃ c, (epoch_calls sum_config false 1 st)[j]? = some c
              ∧ c.1 = ((epoch_ranges sum_config false 1 st.input st.expected).1.drop
                        (j * sum_config.batch_size)).take sum_config.batch_size
              ∧ c.1.length = sum_config.batch_size)
        ∧ (∃ c, (epoch_calls sum_config false 1 st)[
              batch_count [(1 : ℚ), 0, 1].length sum_config.batch_size - 1]? = some c
            ∧ c.1 = (epoch_ranges sum_config false 1 st.input st.expected).1.drop
                      ((batch_count [(1 : ℚ), 0, 1].length sum_config.batch_size - 1)
                        * sum_config.batch_size)
            ∧ 1 ≤ c.1.length ∧ c.1.length ≤ sum_config.batch_size))
      ∧ ∀ log : ℚ → ℚ,
          ∃ abort, train 1 (standard_config log) false unit_weight_machine [[1]] [[1]] 2
              = some (.error abort)
            ∧ (abort.log.map Event.kind).filter EventKind.is_train_batch = [] :=
  ⟨⟨_, rfl, rfl, rfl, rfl, rfl, rfl⟩,
   (train_epoch_batches 3 sum_config false switch_at_five [1, 0, 1] [1, 1, 1] 2 (by decide)
     (by decide) (by decide) 1 (by decide)).1 rfl,
   fun log =>
    (train_epoch_batches 1 (standard_config log) false unit_weight_machine [[1]] [[1]] 2
      (by decide) (by simp [standard_config]) (by decide) 1 (by decide)).2
      (standard_config_fails log).1⟩

/-- The quotient by a counter that is not zero. -/
theorem divide_of_pos [DivisionRing α] (x : α) (n : Nat) (hn : 1 ≤ n) :
    divide x n = some (x / (n : α)) := by
  unfold divide
  rw [if_neg (by omega)]

/-- C5, amended: for a non-empty dataset, batches of at least one item, enough fuel, a
data based initialisation of the weights that does not fail, and `max_epochs = k + 1`,
`train` returns, and its return value is the reconstruction error gathered in a fresh
context over the batches of the last epoch `k` alone, divided by the number of batches
`⌈n / batch_size⌉ ≥ 1`; with the watcher enabled, the context notified at the end of every
epoch `e ≤ k` is what was gathered in a fresh context over the batches of epoch `e`, with
reconstruction error and sparsity divided by the number of batches and free energy
divided by the number of samples `n`. -/
theorem train_returns_last_average [DivisionRing α] (fuel : Nat) (cfg : TrainerConfig α W T X)
    (Denoising : Bool) (rbm : Rbm α W) (input expected : List X) (k : Nat)
    (hn : 1 ≤ input.length) (hB : 1 ≤ cfg.batch_size) (hfuel : input.length ≤ fuel)
    (hinit : init_weights_succeeds cfg rbm input = true) :
    ∃ start st res,
      train_start cfg rbm input expected = .ok start
      ∧ train_epochs fuel cfg Denoising k start = some st
      ∧ train fuel cfg Denoising rbm input expected (k + 1) = some (.ok res)
      ∧ res.last_error
          = some ((epoch_accumulated cfg Denoising k st).reconstruction_error
              / (batch_count input.length cfg.batch_size : α))
      ∧ 1 ≤ batch_count input.length cfg.batch_size
      ∧ (cfg.EnableWatcher = true → ∀ e, e ≤ k →
          ∃ ste, train_epochs fuel cfg Denoising e start = some ste
            ∧ Event.epoch_end e
                { reconstruction_error :=
                    some ((epoch_accumulated cfg Denoising e ste).reconstruction_error
                      / (batch_count input.length cfg.batch_size : α)),
                  sparsity :=
                    some ((epoch_accumulated cfg Denoising e ste).sparsity
                      / (batch_count input.length cfg.batch_size : α)),
                  free_energy :=
                    some ((epoch_accumulated cfg Denoising e ste).free_energy
                      / (input.length : α)) } ∈ res.log) := by
  obtain ⟨start, hstart, _, _, _, _, h5, h6, _, _⟩ :=
    train_start_ok cfg rbm input expected hinit
  have hf : start.input.length ≤ fuel := by rw [h5]; exact hfuel
  obtain ⟨st, hst, hlen⟩ := train_epochs_some fuel cfg Denoising start hB hf k
  rw [h5] at hlen
  have hpos := batch_count_pos _ _ hB hn
  have hlast : train_epochs fuel cfg Denoising (k + 1) start
      = train_epoch fuel cfg Denoising k st := by
    simp only [train_epochs, hst]
  rw [train_epoch_eq fuel cfg Denoising k st hB (by omega)] at hlast
  refine ⟨start, st, _, hstart, hst,
    train_of_epochs fuel cfg Denoising rbm input expected (k + 1) start _ hstart hlast, ?_,
    hpos, ?_⟩
  · simp only [average, hlen, divide_of_pos _ _ hpos]
  · intro hw e he
    obtain ⟨ste, hste, hlene⟩ := train_epochs_some fuel cfg Denoising start hB hf e
    rw [h5] at hlene
    obtain ⟨_, hend⟩ := train_epochs_log_contains fuel cfg Denoising start hB hf e (k + 1)
      (by omega) ste _ hste hlast
    have hmem := hend hw
    refine ⟨ste, hste, ?_⟩
    simp only [average, hlene, divide_of_pos _ _ hpos, divide_of_pos _ _ hn] at hmem
    show _ ∈ (if cfg.EnableWatcher = true then _ ++ [Event.training_end] else _)
    rw [if_pos hw]
    exact List.mem_append_left _ hmem

/-- C5, evaluated: the batches `[1, 0]` and `[1]` against the expected `[1, 1]` and `[1]`
gather the reconstruction error `1` in every epoch, and `train` returns `1 / 2`. -/
theorem train_returns_last_average_witness :
    (∃ res, train 3 sum_config false switch_at_five [1, 0, 1] [1, 1, 1] 2 = some (.ok res)
        ∧ res.last_error = some (1 / 2))
      ∧ ∃ start st res,
        train_start sum_config switch_at_five [1, 0, 1] [1, 1, 1] = .ok start
        ∧ train_epochs 3 sum_config false 1 start = some st
        ∧ train 3 sum_config false switch_at_five [1, 0, 1] [1, 1, 1] (1 + 1) = some (.ok res)
        ∧ res.last_error
            = some ((epoch_accumulated sum_config false 1 st).reconstruction_error
                / (batch_count [(1 : ℚ), 0, 1].length sum_config.batch_size : ℚ))
        ∧ 1 ≤ batch_count [(1 : ℚ), 0, 1].length sum_config.batch_size
        ∧ (sum_config.EnableWatcher = true → ∀ e, e ≤ 1 →
            ∃ ste, train_epochs 3 sum_config false e start = some ste
              ∧ Event.epoch_end e
                  { reconstruction_error :=
                      some ((epoch_accumulated sum_config false e ste).reconstruction_error
                        / (batch_count [(1 : ℚ), 0, 1].length sum_config.batch_size : ℚ)),
                    sparsity :=
                      some ((epoch_accumulated sum_config false e ste).sparsity
                        / (batch_count [(1 : ℚ), 0, 1].length sum_config.batch_size : ℚ)),
                    free_energy :=
                      some ((epoch_accumulated sum_config false e ste).free_energy
                        / (([(1 : ℚ), 0, 1].length : Nat) : ℚ)) } ∈ res.log) := by
  refine ⟨⟨_, rfl, ?_⟩, train_returns_last_average 3 sum_config false switch_at_five [1, 0, 1]
    [1, 1, 1] 1 (by decide) (by decide) (by decide) rfl⟩
  simp [train_epochs, train_epoch, epoch_batches, epoch_ranges, batch_loop,
    batch_step, advance, run_batch, make_batch, average, divide, sum_config, switch_at_five]

end dll

namespace dll
variable {α : Type}
/-- The sum of a list is the sum of its components over their indices. -/
theorem list_sum_eq_sum_range [Field α] (l : List α) :
    l.sum = ∑ i in Finset.range l.length, l.getD i 0 := by
  induction l with
  | nil => simp
  | cons a t ih =>
    rw [List.sum_cons, List.length_cons, Finset.sum_range_succ', ih]
    simp [add_comm]

/-- The sum of a list of given length, with the components rewritten. -/
theorem list_sum_eq_sum [Field α] (l : List α) (n : Nat) (f : Nat → α) (hn : l.length = n)
    (hf : ∀ i, i < n → l.getD i 0 = f i) : l.sum = ∑ i in Finset.range n, f i := by
  rw [list_sum_eq_sum_range, hn]
  apply Finset.sum_congr rfl
  intro i hi
  exact hf i (Finset.mem_range.mp hi)

/-- The dot product as a sum over indices. -/
theorem dot_eq_sum [Field α] (a b : List α) (n : Nat) (ha : a.length = n) (hb : b.length = n) :
    etl.dot a b = ∑ i in Finset.range n, a.getD i 0 * b.getD i 0 := by
  unfold etl.dot
  apply list_sum_eq_sum
  · simp [ha, hb]
  · intro i hi
    simp [List.getD_eq_getElem?_getD, List.getElem?_zipWith, List.getElem?_eq_getElem, ha, hb, hi]

/-- Component `j` of the pre-activation `b + v W` of the hidden units. -/
theorem preactivation_getD [Field α] (rbm : StandardRbm α) (v : List α)
    (hb : rbm.b.length = rbm.num_hidden) (j : Nat) (hj : j < rbm.num_hidden) :
    (etl.add rbm.b (etl.auto_vmmul rbm.num_visible rbm.num_hidden v rbm.w)).getD j 0
      = rbm.b.getD j 0 + ∑ i in Finset.range rbm.num_visible, v.getD i 0 * weight_at rbm i j := by
  unfold etl.add etl.auto_vmmul weight_at
  simp only [List.getD_eq_getElem?_getD, List.getElem?_zipWith, List.getElem?_map]
  rw [List.getElem?_eq_getElem (by omega), List.getElem?_range hj]
  simp only [Option.map_some', Option.getD_some]
  congr 1

/-- The size of the pre-activation of the hidden units. -/
theorem preactivation_length [Field α] (rbm : StandardRbm α) (v : List α)
    (hb : rbm.b.length = rbm.num_hidden) :
    (etl.add rbm.b (etl.auto_vmmul rbm.num_visible rbm.num_hidden v rbm.w)).length
      = rbm.num_hidden := by
  simp [etl.add, etl.auto_vmmul, hb]

/-- The sum over the pre-activation of the hidden units, each component mapped. -/
theorem preactivation_map_sum [Field α] (g : α → α) (rbm : StandardRbm α) (v : List α)
    (hb : rbm.b.length = rbm.num_hidden) :
    ((etl.add rbm.b (etl.auto_vmmul rbm.num_visible rbm.num_hidden v rbm.w)).map g).sum
      = ∑ j in Finset.range rbm.num_hidden,
          g (rbm.b.getD j 0
            + ∑ i in Finset.range rbm.num_visible, v.getD i 0 * weight_at rbm i j) := by
  apply list_sum_eq_sum
  · rw [List.length_map, preactivation_length rbm v hb]
  · intro j hj
    have hlen := preactivation_length rbm v hb
    rw [← preactivation_getD rbm v hb j hj]
    simp only [List.getD_eq_getElem?_getD, List.getElem?_map]
    rw [List.getElem?_eq_getElem (by omega)]
    simp

/-- The sum of the halved squared distances to the visible bias, over indices. -/
theorem squared_distance_sum [Field α] (rbm : StandardRbm α) (v : List α)
    (hc : rbm.c.length = rbm.num_visible) (hv : v.length = rbm.num_visible) :
    ((etl.sub v rbm.c).map (fun d => d ^ 2 / 2)).sum
      = ∑ i in Finset.range rbm.num_visible, (v.getD i 0 - rbm.c.getD i 0) ^ 2 / 2 := by
  apply list_sum_eq_sum
  · simp [etl.sub, hc, hv]
  · intro i hi
    simp [etl.sub, List.getD_eq_getElem?_getD, List.getElem?_map, List.getElem?_zipWith,
      List.getElem?_eq_getElem, hc, hv, hi]

/-- C7: for a machine with `num_hidden` hidden biases and `num_visible` visible biases
and a visible vector of `num_visible` components, `standard_rbm::free_energy` is
`-c·v - Σ_j log(1 + exp(b_j + (v W)_j))` for binary visible and hidden units,
`Σ_i (v_i - c_i)² / 2 - Σ_j log(1 + exp(b_j + (v W)_j))` for Gaussian visible and binary
hidden units, and `0` for every other combination of unit kinds, whatever functions `exp`
and `log` stand for. -/
theorem free_energy_eq_formula [Field α] (exp log : α → α) (rbm : StandardRbm α) (v : List α)
    (hsize : well_sized rbm) (hv : v.length = rbm.num_visible) :
    free_energy exp log rbm v = free_energy_formula exp log rbm v
      ∧ (¬ (rbm.hidden_unit = unit_type.BINARY
            ∧ (rbm.visible_unit = unit_type.BINARY ∨ rbm.visible_unit = unit_type.GAUSSIAN))
          → free_energy exp log rbm v = 0) := by
  obtain ⟨_, _, hb, hc⟩ := hsize
  constructor
  · unfold free_energy free_energy_formula
    split
    · simp only []
      rw [dot_eq_sum rbm.c v rbm.num_visible hc hv,
        preactivation_map_sum (fun xj => log (1 + exp xj)) rbm v hb]
    · split
      · simp only []
        rw [squared_distance_sum rbm v hc hv,
          preactivation_map_sum (fun xj => log (1 + exp xj)) rbm v hb]
      · rfl
  · intro h
    unfold free_energy
    have h1 : ¬ (rbm.visible_unit = unit_type.BINARY ∧ rbm.hidden_unit = unit_type.BINARY) := by
      intro hh; exact h ⟨hh.2, Or.inl hh.1⟩
    have h2 : ¬ (rbm.visible_unit = unit_type.GAUSSIAN ∧ rbm.hidden_unit = unit_type.BINARY) := by
      intro hh; exact h ⟨hh.2, Or.inr hh.1⟩
    rw [if_neg h1, if_neg h2]

/-- C7, evaluated on a binary machine of two visible and two hidden units over the reals. -/
theorem free_energy_eq_formula_witness :
    free_energy Real.exp Real.log (corner_weight_rbm ℝ) [1, 0]
        = free_energy_formula Real.exp Real.log (corner_weight_rbm ℝ) [1, 0]
      ∧ (¬ ((corner_weight_rbm ℝ).hidden_unit = unit_type.BINARY
            ∧ ((corner_weight_rbm ℝ).visible_unit = unit_type.BINARY
                ∨ (corner_weight_rbm ℝ).visible_unit = unit_type.GAUSSIAN))
          → free_energy Real.exp Real.log (corner_weight_rbm ℝ) [1, 0] = 0) :=
  free_energy_eq_formula Real.exp Real.log (corner_weight_rbm ℝ) [1, 0]
    (by simp [well_sized, corner_weight_rbm]) (by rfl)

/-- C8 on the code: for the binary machine with one visible and one hidden unit, weight `1`
and zero biases, `energy` of `v = [1]` and `h = [0]` is `-1`, and it is `-1` for `h = [1]`
as well, while `-c·v - b·h - vᵗ W h` is `0` for `h = [0]` and `-1` for `h = [1]`. -/
theorem energy_ignores_hidden_state :
    energy (unit_weight_rbm ℚ) [1] [0] = -1
      ∧ energy (unit_weight_rbm ℚ) [1] [1] = -1
      ∧ energy_formula (unit_weight_rbm ℚ) [1] [0] = 0
      ∧ energy_formula (unit_weight_rbm ℚ) [1] [1] = -1 := by
  refine ⟨?_, ?_, ?_, ?_⟩ <;>
    simp [energy, energy_formula, interaction, weight_at, unit_weight_rbm, etl.add, etl.dot,
      etl.auto_vmmul, List.range_succ]

/-- C6 on the code: for the binary machine of two visible and two hidden units with zero
biases and the single non-zero weight `w(0, 0) = 1`, and `v = [1, 0]`, `exp(-free_energy(v))`
is `2 + 2 e` while the sum of `exp(-energy(v, h))` over the four hidden states is `4 e`. -/
theorem free_energy_energy_mismatch :
    Real.exp (- free_energy Real.exp Real.log (corner_weight_rbm ℝ) [1, 0])
        = 2 + 2 * Real.exp 1
      ∧ sum_exp_energy Real.exp (corner_weight_rbm ℝ) [1, 0] = 4 * Real.exp 1
      ∧ Real.exp (- free_energy Real.exp Real.log (corner_weight_rbm ℝ) [1, 0])
          ≠ sum_exp_energy Real.exp (corner_weight_rbm ℝ) [1, 0] := by
  have h1 : Real.exp (- free_energy Real.exp Real.log (corner_weight_rbm ℝ) [1, 0])
      = 2 + 2 * Real.exp 1 := by
    simp [free_energy, corner_weight_rbm, etl.add, etl.dot, etl.auto_vmmul, List.range_succ]
    rw [Real.exp_add, Real.exp_log (by positivity), Real.exp_log (by positivity)]
    ring
  have h2 : sum_exp_energy Real.exp (corner_weight_rbm ℝ) [1, 0] = 4 * Real.exp 1 := by
    simp [sum_exp_energy, hidden_states, energy, corner_weight_rbm, etl.add, etl.dot,
      etl.auto_vmmul, List.range_succ]
    ring
  refine ⟨h1, h2, ?_⟩
  rw [h1, h2]
  have := Real.add_one_lt_exp (x := 1) (by norm_num)
  intro h
  linarith

/-- Summing out two binary hidden units in closed form. -/
theorem exp_sum_out (C X0 X1 : ℝ) :
    Real.exp (C + Real.log (1 + Real.exp X0) + Real.log (1 + Real.exp X1))
      = Real.exp C + Real.exp (C + X1) + Real.exp (C + X0) + Real.exp (C + X0 + X1) := by
  rw [Real.exp_add, Real.exp_add, Real.exp_log (by positivity), Real.exp_log (by positivity)]
  simp only [Real.exp_add]
  ring

/-- The relation that C6 states holds between `free_energy` and the energy as the
specification writes it: for binary machines of two visible and two hidden units,
`exp(-free_energy(v))` is the sum of `exp(-E(v, h))` over the four hidden states. -/
theorem free_energy_marginalises_formula (rbm : StandardRbm ℝ) (v : List ℝ)
    (hsize : well_sized rbm) (hv : v.length = rbm.num_visible)
    (hnv : rbm.num_visible = 2) (hnh : rbm.num_hidden = 2)
    (hvis : rbm.visible_unit = unit_type.BINARY) (hhid : rbm.hidden_unit = unit_type.BINARY) :
    Real.exp (- free_energy Real.exp Real.log rbm v)
      = sum_exp_energy_formula Real.exp rbm v := by
  obtain ⟨_, _, hb, hc⟩ := hsize
  have hF : free_energy Real.exp Real.log rbm v = free_energy_formula Real.exp Real.log rbm v := by
    unfold free_energy free_energy_formula
    rw [if_pos ⟨hvis, hhid⟩, if_pos ⟨hvis, hhid⟩]
    simp only []
    rw [dot_eq_sum rbm.c v rbm.num_visible hc hv,
      preactivation_map_sum (fun xj => Real.log (1 + Real.exp xj)) rbm v hb]
  rw [hF]
  unfold free_energy_formula sum_exp_energy_formula energy_formula interaction
  rw [if_pos ⟨hvis, hhid⟩]
  simp only [hnv, hnh, hvis, hhid, and_self, if_true, Finset.sum_range_succ,
    Finset.sum_range_zero, hidden_states, List.map_cons, List.map_nil, List.cons_append,
    List.nil_append, List.sum_cons, List.sum_nil, List.getD_cons_zero, List.getD_cons_succ]
  generalize rbm.c.getD 0 0 = c0
  generalize rbm.c.getD 1 0 = c1
  generalize rbm.b.getD 0 0 = b0
  generalize rbm.b.getD 1 0 = b1
  generalize v.getD 0 0 = v0
  generalize v.getD 1 0 = v1
  generalize weight_at rbm 0 0 = w00
  generalize weight_at rbm 0 1 = w01
  generalize weight_at rbm 1 0 = w10
  generalize weight_at rbm 1 1 = w11
  have key := exp_sum_out (c0 * v0 + c1 * v1) (b0 + (v0 * w00 + v1 * w10))
    (b1 + (v0 * w01 + v1 * w11))
  simp only [mul_zero, mul_one, add_zero, zero_add, sub_zero, neg_sub, neg_neg]
  have hL : Real.exp
      (Real.log (1 + Real.exp (b0 + (v0 * w00 + v1 * w10)))
        + Real.log (1 + Real.exp (b1 + (v0 * w01 + v1 * w11))) - -(c0 * v0 + c1 * v1))
      = Real.exp (c0 * v0 + c1 * v1 + Real.log (1 + Real.exp (b0 + (v0 * w00 + v1 * w10)))
          + Real.log (1 + Real.exp (b1 + (v0 * w01 + v1 * w11)))) := by
    congr 1; ring
  have h2 : Real.exp (v0 * w01 + v1 * w11 - (-(c0 * v0 + c1 * v1) - b1))
      = Real.exp (c0 * v0 + c1 * v1 + (b1 + (v0 * w01 + v1 * w11))) := by
    congr 1; ring
  have h3 : Real.exp (v0 * w00 + v1 * w10 - (-(c0 * v0 + c1 * v1) - b0))
      = Real.exp (c0 * v0 + c1 * v1 + (b0 + (v0 * w00 + v1 * w10))) := by
    congr 1; ring
  have h4 : Real.exp (v0 * w00 + v0 * w01 + (v1 * w10 + v1 * w11)
        - (-(c0 * v0 + c1 * v1) - (b0 + b1)))
      = Real.exp (c0 * v0 + c1 * v1 + (b0 + (v0 * w00 + v1 * w10))
          + (b1 + (v0 * w01 + v1 * w11))) := by
    congr 1; ring
  rw [hL, h2, h3, h4, key]
  ring

/-- C9 on the code: for a dataset whose single sample has its visible unit on, the
frequency is `1`, `pi` is `1.0001`, the argument `pi / (1 - pi)` of the logarithm is
`-10001`, and `init_weights` ends on the failed assertion `NaN verify`, whatever the
function `log` is; the same happens for two samples that both have the unit on. -/
theorem init_weights_unit_always_on (log : ℚ → ℚ) :
    init_weights log [[1]] (unit_weight_rbm ℚ) = Except.error "NaN verify"
      ∧ init_weights log [[1], [1]] (unit_weight_rbm ℚ) = Except.error "NaN verify"
      ∧ (shifted_frequency 1 1 : ℚ) = 10001 / 10000
      ∧ (shifted_frequency 1 1 : ℚ) / (1 - shifted_frequency 1 1) = -10001 := by
  refine ⟨?_, ?_, ?_, ?_⟩
  · simp [init_weights, unit_weight_rbm, List.range_succ, finite_log_odds, shifted_frequency]
    norm_num
  · simp [init_weights, unit_weight_rbm, List.range_succ, finite_log_odds, shifted_frequency]
    norm_num
  · norm_num [shifted_frequency]
  · norm_num [shifted_frequency]

/-- Where the assertion of `init_weights` holds: for a non-empty dataset and a unit that
is on in fewer than `9999` of `10000` samples, the argument of the logarithm is positive. -/
theorem finite_log_odds_of_frequency [LinearOrderedField α] (count size : Nat)
    (hsize : 1 ≤ size) (hfreq : count * 10000 < 9999 * size) :
    finite_log_odds size (shifted_frequency count size : α) = true := by
  have hs : (0 : α) < (size : α) := by exact_mod_cast hsize
  have hf : (count : α) * 10000 < 9999 * (size : α) := by exact_mod_cast hfreq
  have hc : (0 : α) ≤ (count : α) := by exact_mod_cast Nat.zero_le count
  have hq : (count : α) / (size : α) < 9999 / 10000 := by
    rw [div_lt_iff₀ hs]
    linarith
  have hq0 : (0 : α) ≤ (count : α) / (size : α) := div_nonneg hc (le_of_lt hs)
  have hpi : (0 : α) < shifted_frequency count size := by
    unfold shifted_frequency; norm_num; linarith
  have hone : (0 : α) < 1 - shifted_frequency count size := by
    unfold shifted_frequency; norm_num; linarith
  unfold finite_log_odds
  simp only [decide_eq_true_eq]
  exact ⟨by omega, ne_of_gt hone, div_pos hpi hone⟩

end dll

namespace dbn
variable {R α G : Type}
/-- The Gibbs loop makes two calls on the machine in every round. -/
theorem length_gibbs_rounds_calls (ops : RbmOps R α G) (rbm : R) (sampling : Nat)
    (st : List α × List α × List α × G × List (Activation R α)) :
    (gibbs_rounds ops rbm sampling st).2.2.2.2.length = st.2.2.2.2.length + 2 * sampling := by
  induction sampling with
  | zero => simp [gibbs_rounds]
  | succ k ih =>
    simp only [gibbs_rounds, List.length_append, ih, List.length_cons, List.length_nil]
    omega

/-- Size of a vector after the placeholder loop. -/
theorem length_set_placeholder_units [DivisionRing α] (nh labels : Nat) (v : List α) :
    (set_placeholder_units nh labels v).length = v.length := by
  unfold set_placeholder_units
  induction labels with
  | zero => simp
  | succ k ih =>
    rw [List.range_succ, List.foldl_append]
    simp [ih]

/-- Components of a vector after the placeholder loop. -/
theorem getElem?_set_placeholder_units [DivisionRing α] (nh labels : Nat) (v : List α)
    (j : Nat) :
    (set_placeholder_units nh labels v)[j]?
      = if nh ≤ j ∧ j < nh + labels ∧ j < v.length then some 0.1 else v[j]? := by
  unfold set_placeholder_units
  induction labels with
  | zero =>
    have : ¬ (nh ≤ j ∧ j < nh ∧ j < v.length) := by omega
    simp [this]
  | succ k ih =>
    have hlen := length_set_placeholder_units nh k v
    unfold set_placeholder_units at hlen
    rw [List.range_succ, List.foldl_append]
    simp only [List.foldl_cons, List.foldl_nil, List.getElem?_set, ih, hlen]
    by_cases h1 : nh + k = j
    · subst h1
      by_cases h2 : nh + k < v.length
      · have : nh ≤ nh + k ∧ nh + k < nh + (k + 1) ∧ nh + k < v.length := by omega
        simp [h2, this]
      · have h3 : ¬ (nh ≤ nh + k ∧ nh + k < nh + (k + 1) ∧ nh + k < v.length) := by omega
        have h4 : v[nh + k]? = none := List.getElem?_eq_none (by omega)
        simp [h2, h3, h4]
    · by_cases h2 : nh ≤ j ∧ j < nh + k ∧ j < v.length
      · have : nh ≤ j ∧ j < nh + (k + 1) ∧ j < v.length := by omega
        simp [h1, h2, this]
      · have : ¬ (nh ≤ j ∧ j < nh + (k + 1) ∧ j < v.length) := by omega
        simp [h1, h2, this]

/-- A vector of `nh + labels` components after the placeholder loop: its first `nh`
components followed by `labels` placeholders. -/
theorem set_placeholder_units_eq [DivisionRing α] (nh labels : Nat) (v : List α)
    (hv : v.length = nh + labels) :
    set_placeholder_units nh labels v = v.take nh ++ List.replicate labels 0.1 := by
  apply List.ext_getElem?
  intro j
  rw [getElem?_set_placeholder_units]
  by_cases h1 : j < nh
  · have : ¬ (nh ≤ j ∧ j < nh + labels ∧ j < v.length) := by omega
    rw [if_neg this, List.getElem?_append_left (by simp; omega), List.getElem?_take]
    simp [h1]
  · by_cases h2 : j < nh + labels
    · have : nh ≤ j ∧ j < nh + labels ∧ j < v.length := by omega
      rw [if_pos this, List.getElem?_append_right (by simp; omega)]
      simp only [List.length_take, hv]
      rw [List.getElem?_replicate]
      have h3 : j - min nh (nh + labels) < labels := by omega
      rw [if_pos h3]
    · have : ¬ (nh ≤ j ∧ j < nh + labels ∧ j < v.length) := by omega
      rw [if_neg this, List.getElem?_eq_none (by omega), List.getElem?_eq_none (by simp; omega)]

/-- One argument per layer. -/
theorem length_layer_inputs [DivisionRing α] (ops : RbmOps R α G) (labels : Nat)
    (tuples : List (Layer R)) (input : List α) :
    (layer_inputs ops labels tuples input).length = tuples.length := by
  induction tuples generalizing input with
  | nil => simp [layer_inputs]
  | cons a t ih =>
    cases t with
    | nil => simp [layer_inputs]
    | cons b t2 =>
      simp only [layer_inputs, List.length_cons]
      rw [ih]
      simp

/-- The first layer receives the item. -/
theorem layer_inputs_zero [DivisionRing α] (ops : RbmOps R α G) (labels : Nat)
    (tuples : List (Layer R)) (input : List α) (h : 1 ≤ tuples.length) :
    (layer_inputs ops labels tuples input)[0]? = some input := by
  match tuples, h with
  | [_], _ => simp [layer_inputs]
  | _ :: _ :: _, _ => simp [layer_inputs]

/-- Layer `i + 1` receives the vector `next` that layer `i` builds from what it receives. -/
theorem layer_inputs_succ [DivisionRing α] (ops : RbmOps R α G) (labels : Nat)
    (tuples : List (Layer R)) (input : List α) (i : Nat) (hi : i + 1 < tuples.length) :
    ∃ layer following inp,
      tuples[i]? = some layer ∧ tuples[i + 1]? = some following
        ∧ (layer_inputs ops labels tuples input)[i]? = some inp
        ∧ (layer_inputs ops labels tuples input)[i + 1]?
            = some (next_input ops labels layer following (decide (i + 2 = tuples.length))
                inp) := by
  induction tuples generalizing input i with
  | nil => simp at hi
  | cons a t ih =>
    match t, ih, hi with
    | [], _, hi => simp at hi
    | b :: t2, ih, hi =>
      cases i with
      | zero =>
        refine ⟨a, b, input, rfl, by simp, ?_, ?_⟩
        · simp [layer_inputs]
        · simp only [layer_inputs, List.getElem?_cons_succ]
          rw [layer_inputs_zero ops labels (b :: t2) _ (by simp)]
          simp only [List.length_cons]
          congr 2
          simp only [decide_eq_decide]
          omega
      | succ k =>
        obtain ⟨layer, following, inp, h1, h2, h3, h4⟩ :=
          ih (next_input ops labels a b (decide ((b :: t2).length = 1)) input) k
            (by simp at hi ⊢; omega)
        refine ⟨layer, following, inp, ?_, ?_, ?_, ?_⟩
        · simpa using h1
        · simpa using h2
        · simp only [layer_inputs, List.getElem?_cons_succ]
          exact h3
        · simp only [layer_inputs, List.getElem?_cons_succ]
          rw [h4]
          simp only [List.length_cons]
          congr 2
          simp only [decide_eq_decide]
          omega

/-- The result of `activate_layers` and of `deep_activate_layers` on a network: the output
and the generator are those of their last overload on what the last layer receives, and
the calls are one hidden activation for every earlier layer, on what that layer
receives, followed by the calls of the last overload. -/
theorem activate_layers_last [DivisionRing α] (ops : RbmOps R α G) (labels sampling : Nat)
    (tuples : List (Layer R)) (input output : List α) (g : G) (h : 1 ≤ tuples.length) :
    ∃ last inp,
      tuples[tuples.length - 1]? = some last
        ∧ (layer_inputs ops labels tuples input)[tuples.length - 1]? = some inp
        ∧ activate_layers ops labels tuples input output g
            = ((activate_layers ops labels [last] inp output g).1,
               (activate_layers ops labels [last] inp output g).2.1,
               (List.zipWith (fun (l : Layer R) v => Activation.activate_hidden l.rbm v) tuples
                  (layer_inputs ops labels tuples input)).take (tuples.length - 1)
                 ++ (activate_layers ops labels [last] inp output g).2.2)
        ∧ deep_activate_layers ops labels sampling tuples input output g
            = ((deep_activate_layers ops labels sampling [last] inp output g).1,
               (deep_activate_layers ops labels sampling [last] inp output g).2.1,
               (List.zipWith (fun (l : Layer R) v => Activation.activate_hidden l.rbm v) tuples
                  (layer_inputs ops labels tuples input)).take (tuples.length - 1)
                 ++ (deep_activate_layers ops labels sampling [last] inp output g).2.2) := by
  induction tuples generalizing input with
  | nil => simp at h
  | cons a t ih =>
    match t, ih with
    | [], _ => exact ⟨a, input, by simp, by simp [layer_inputs], by simp, by simp⟩
    | b :: t2, ih =>
      obtain ⟨last, inp, h1, h2, h3, h4⟩ :=
        ih (next_input ops labels a b (decide ((b :: t2).length = 1)) input) (by simp)
      have e3 : activate_layers ops labels (a :: b :: t2) input output g
          = ((activate_layers ops labels (b :: t2)
                (next_input ops labels a b (decide ((b :: t2).length = 1)) input) output g).1,
             (activate_layers ops labels (b :: t2)
                (next_input ops labels a b (decide ((b :: t2).length = 1)) input) output g).2.1,
             Activation.activate_hidden a.rbm input
               :: (activate_layers ops labels (b :: t2)
                (next_input ops labels a b (decide ((b :: t2).length = 1)) input)
                  output g).2.2) := by
        simp only [activate_layers, next_input, List.length_cons, decide_eq_true_eq]
      have e4 : deep_activate_layers ops labels sampling (a :: b :: t2) input output g
          = ((deep_activate_layers ops labels sampling (b :: t2)
                (next_input ops labels a b (decide ((b :: t2).length = 1)) input) output g).1,
             (deep_activate_layers ops labels sampling (b :: t2)
                (next_input ops labels a b (decide ((b :: t2).length = 1)) input) output g).2.1,
             Activation.activate_hidden a.rbm input
               :: (deep_activate_layers ops labels sampling (b :: t2)
                (next_input ops labels a b (decide ((b :: t2).length = 1)) input)
                  output g).2.2) := by
        simp only [deep_activate_layers, next_input, List.length_cons, decide_eq_true_eq]
      refine ⟨last, inp, ?_, ?_, ?_, ?_⟩
      · simpa using h1
      · simp only [layer_inputs, List.length_cons, Nat.add_sub_cancel,
          List.getElem?_cons_succ]
        simpa using h2
      · rw [e3, h3]
        simp only [layer_inputs, List.zipWith_cons_cons, List.length_cons, Nat.add_sub_cancel,
          List.take_succ_cons, List.cons_append]
      · rw [e4, h4]
        simp only [layer_inputs, List.zipWith_cons_cons, List.length_cons, Nat.add_sub_cancel,
          List.take_succ_cons, List.cons_append]

/-- The calls of the last overloads: `activate_layers` makes the hidden activation on its
input and the visible activation, `deep_activate_layers` makes them after the two calls
of every round of its Gibbs loop. -/
theorem last_overload_calls [DivisionRing α] (ops : RbmOps R α G) (labels sampling : Nat)
    (last : Layer R) (input output : List α) (g : G) :
    (activate_layers ops labels [last] input output g).2.2[0]?
        = some (Activation.activate_hidden last.rbm input)
      ∧ (deep_activate_layers ops labels sampling [last] input output g).2.2[2 * sampling]?
        = some (Activation.activate_hidden last.rbm input) := by
  constructor
  · simp [activate_layers]
  · simp only [deep_activate_layers]
    rw [List.getElem?_append_right (by rw [length_gibbs_rounds_calls]; simp)]
    rw [length_gibbs_rounds_calls]
    simp

/-- C12: for a network of at least two layers whose last layer has
`num_hidden<layers - 2>() + labels` visible units, the calls that `activate_layers` makes
on the machines start with one hidden activation per layer, in the order of the layers.
The first layer reads the item. A layer that follows a layer `i` and is not the last one
reads the hidden activation of layer `i` as `activate_hidden` left it, no component
overwritten. The last layer reads the hidden activation of the second-to-last layer in
its first `num_hidden<layers - 2>()` components followed by `labels` components equal to
`0.1`, and the output, the generator and the remaining calls are those of the last
overload on that vector. `deep_activate_layers` makes the same calls on the layers before
the last one, its output, generator and remaining calls are those of its last overload
on the same vector, and the hidden activation that follows the rounds of its Gibbs
loop reads that vector. -/
theorem last_layer_receives_placeholders [DivisionRing α] (ops : RbmOps R α G)
    (tuples : List (Layer R)) (item output : List α) (labels sampling : Nat) (g : G)
    (hlayers : 2 ≤ layers tuples)
    (hroom : num_visible tuples (layers tuples - 1)
      = num_hidden tuples (layers tuples - 2) + labels) :
    ∃ first second last prev,
      tuples[0]? = some first
        ∧ tuples[layers tuples - 2]? = some second
        ∧ tuples[layers tuples - 1]? = some last
        ∧ (activate_layers ops labels tuples item output g).2.2[0]?
            = some (Activation.activate_hidden first.rbm item)
        ∧ (∀ i, i + 2 < layers tuples →
            ∃ layer following inp,
              tuples[i]? = some layer ∧ tuples[i + 1]? = some following
                ∧ (activate_layers ops labels tuples item output g).2.2[i]?
                    = some (Activation.activate_hidden layer.rbm inp)
                ∧ (activate_layers ops labels tuples item output g).2.2[i + 1]?
                    = some (Activation.activate_hidden following.rbm
                        (ops.activate_hidden layer.rbm
                          (List.replicate following.num_visible 0) inp)))
        ∧ (activate_layers ops labels tuples item output g).2.2[layers tuples - 2]?
            = some (Activation.activate_hidden second.rbm prev)
        ∧ (activate_layers ops labels tuples item output g).2.2[layers tuples - 1]?
            = some (Activation.activate_hidden last.rbm
                ((ops.activate_hidden second.rbm (List.replicate last.num_visible 0)
                      prev).take second.num_hidden
                    ++ List.replicate labels 0.1))
        ∧ (activate_layers ops labels tuples item output g).1
            = (activate_layers ops labels [last]
                ((ops.activate_hidden second.rbm (List.replicate last.num_visible 0)
                      prev).take second.num_hidden
                    ++ List.replicate labels 0.1) output g).1
        ∧ (activate_layers ops labels tuples item output g).2.1
            = (activate_layers ops labels [last]
                ((ops.activate_hidden second.rbm (List.replicate last.num_visible 0)
                      prev).take second.num_hidden
                    ++ List.replicate labels 0.1) output g).2.1
        ∧ (activate_layers ops labels tuples item output g).2.2.drop (layers tuples - 1)
            = (activate_layers ops labels [last]
                ((ops.activate_hidden second.rbm (List.replicate last.num_visible 0)
                      prev).take second.num_hidden
                    ++ List.replicate labels 0.1) output g).2.2
        ∧ (deep_activate_layers ops labels sampling tuples item output g).2.2.take
              (layers tuples - 1)
            = (activate_layers ops labels tuples item output g).2.2.take (layers tuples - 1)
        ∧ (deep_activate_layers ops labels sampling tuples item output g).1
            = (deep_activate_layers ops labels sampling [last]
                ((ops.activate_hidden second.rbm (List.replicate last.num_visible 0)
                      prev).take second.num_hidden
                    ++ List.replicate labels 0.1) output g).1
        ∧ (deep_activate_layers ops labels sampling tuples item output g).2.1
            = (deep_activate_layers ops labels sampling [last]
                ((ops.activate_hidden second.rbm (List.replicate last.num_visible 0)
                      prev).take second.num_hidden
                    ++ List.replicate labels 0.1) output g).2.1
        ∧ (deep_activate_layers ops labels sampling tuples item output g).2.2.drop
              (layers tuples - 1)
            = (deep_activate_layers ops labels sampling [last]
                ((ops.activate_hidden second.rbm (List.replicate last.num_visible 0)
                      prev).take second.num_hidden
                    ++ List.replicate labels 0.1) output g).2.2
        ∧ (deep_activate_layers ops labels sampling tuples item output g).2.2[
              layers tuples - 1 + 2 * sampling]?
            = some (Activation.activate_hidden last.rbm
                ((ops.activate_hidden second.rbm (List.replicate last.num_visible 0)
                      prev).take second.num_hidden
                    ++ List.replicate labels 0.1)) := by
  unfold layers at hlayers hroom ⊢
  obtain ⟨second, last, prev, h1, h2, h3, h4⟩ :=
    layer_inputs_succ ops labels tuples item (tuples.length - 2) (by omega)
  have hidx : tuples.length - 2 + 1 = tuples.length - 1 := by omega
  rw [hidx] at h2 h4
  have hdec : decide (tuples.length - 2 + 2 = tuples.length) = true := by
    simp only [decide_eq_true_eq]; omega
  have hnv : last.num_visible = second.num_hidden + labels := by
    simpa [num_visible, num_hidden, h1, h2] using hroom
  have hvec : next_input ops labels second last true prev
      = (ops.activate_hidden second.rbm (List.replicate last.num_visible 0)
            prev).take second.num_hidden ++ List.replicate labels 0.1 := by
    simp only [next_input, if_true]
    apply set_placeholder_units_eq
    rw [ops.activate_hidden_size, List.length_replicate, hnv]
  rw [hdec, hvec] at h4
  obtain ⟨last2, inp, g1, g2, g3, g4⟩ :=
    activate_layers_last ops labels sampling tuples item output g (by omega)
  rw [h2] at g1
  injection g1 with g1
  subst g1
  rw [h4] at g2
  injection g2 with g2
  subst g2
  have hin := length_layer_inputs ops labels tuples item
  have hzlen : ((List.zipWith (fun (l : Layer R) v => Activation.activate_hidden l.rbm v) tuples
      (layer_inputs ops labels tuples item)).take (tuples.length - 1)).length
        = tuples.length - 1 := by
    rw [List.length_take, List.length_zipWith, hin]
    omega
  have hz : ∀ i (l : Layer R) v, i < tuples.length - 1 → tuples[i]? = some l →
      (layer_inputs ops labels tuples item)[i]? = some v →
      (activate_layers ops labels tuples item output g).2.2[i]?
        = some (Activation.activate_hidden l.rbm v) := by
    intro i l v hi hl hv
    rw [g3]
    simp only []
    rw [List.getElem?_append_left (by rw [hzlen]; exact hi), List.getElem?_take_of_lt hi,
      List.getElem?_zipWith, hl, hv]
  obtain ⟨first, hfirst⟩ : ∃ first, tuples[0]? = some first := by
    cases tuples with
    | nil => simp at hlayers
    | cons a t => exact ⟨a, by simp⟩
  have hlast := last_overload_calls ops labels sampling last
    ((ops.activate_hidden second.rbm (List.replicate last.num_visible 0)
        prev).take second.num_hidden ++ List.replicate labels 0.1) output g
  refine ⟨first, second, last, prev, hfirst, h1, h2, ?_, ?_, ?_, ?_, ?_, ?_, ?_, ?_, ?_, ?_, ?_,
    ?_⟩
  · exact hz 0 first item (by omega) hfirst
      (layer_inputs_zero ops labels tuples item (by omega))
  · intro i hi
    obtain ⟨layer, following, inp, k1, k2, k3, k4⟩ :=
      layer_inputs_succ ops labels tuples item i (by omega)
    have hdec2 : decide (i + 2 = tuples.length) = false := by
      simp only [decide_eq_false_iff_not]; omega
    rw [hdec2] at k4
    refine ⟨layer, following, inp, k1, k2, hz i layer inp (by omega) k1 k3, ?_⟩
    exact hz (i + 1) following _ (by omega) k2 (by simpa [next_input] using k4)
  · exact hz (tuples.length - 2) second prev (by omega) h1 h3
  · rw [g3]
    simp only []
    rw [List.getElem?_append_right (by rw [hzlen]), hzlen, Nat.sub_self]
    exact hlast.1
  · rw [g3]
  · rw [g3]
  · rw [g3]
    simp only []
    rw [List.drop_left' hzlen]
  · rw [g3, g4]
    simp only []
    rw [List.take_left' hzlen, List.take_left' hzlen]
  · rw [g4]
  · rw [g4]
  · rw [g4]
    simp only []
    rw [List.drop_left' hzlen]
  · rw [g4]
    simp only []
    rw [List.getElem?_append_right (by rw [hzlen]; omega), hzlen]
    have : tuples.length - 1 + 2 * sampling - (tuples.length - 1) = 2 * sampling := by omega
    rw [this]
    exact hlast.2

/-- C12, evaluated: in `two_layers` the last layer reads the two hidden activations of the
first layer followed by three components `0.1`, without sampling rounds and after two
sampling rounds. -/
theorem last_layer_receives_placeholders_witness :
    (activate_layers bias_only_ops 3 two_layers [1] [0, 0, 0, 0, 0] ()).2.2
        = [Activation.activate_hidden [0] [1],
           Activation.activate_hidden [0, 0, 1/5, 9/10, 9/10] [0, 0, 1/10, 1/10, 1/10],
           Activation.activate_visible [0, 0, 1/5, 9/10, 9/10] [0]]
      ∧ (deep_activate_layers bias_only_ops 3 2 two_layers [1] [0, 0, 0, 0, 0] ()).2.2[5]?
        = some (Activation.activate_hidden [0, 0, 1/5, 9/10, 9/10] [0, 0, 1/10, 1/10, 1/10])
      ∧ ∃ first second last prev,
        two_layers[0]? = some first
          ∧ two_layers[layers two_layers - 2]? = some second
          ∧ two_layers[layers two_layers - 1]? = some last
          ∧ (activate_layers bias_only_ops 3 two_layers [1] [0, 0, 0, 0, 0] ()).2.2[
                layers two_layers - 2]?
              = some (Activation.activate_hidden second.rbm prev)
          ∧ (activate_layers bias_only_ops 3 two_layers [1] [0, 0, 0, 0, 0] ()).2.2[
                layers two_layers - 1]?
              = some (Activation.activate_hidden last.rbm
                  ((bias_only_ops.activate_hidden second.rbm
                        (List.replicate last.num_visible 0) prev).take second.num_hidden
                      ++ List.replicate 3 0.1))
          ∧ (deep_activate_layers bias_only_ops 3 2 two_layers [1] [0, 0, 0, 0, 0] ()).2.2[
                layers two_layers - 1 + 2 * 2]?
              = some (Activation.activate_hidden last.rbm
                  ((bias_only_ops.activate_hidden second.rbm
                        (List.replicate last.num_visible 0) prev).take second.num_hidden
                      ++ List.replicate 3 0.1)) := by
  obtain ⟨first, second, last, prev, h1, h2, h3, _, _, h6, h7, _, _, _, _, _, _, _, h15⟩ :=
    last_layer_receives_placeholders bias_only_ops two_layers [1] [0, 0, 0, 0, 0] 3 2 ()
      (by decide) (by decide)
  refine ⟨?_, ?_, first, second, last, prev, h1, h2, h3, h6, h7, h15⟩
  · simp [activate_layers, two_layers, bias_only_ops, set_placeholder_units, List.range_succ]
    norm_num
  · simp [deep_activate_layers, gibbs_rounds, two_layers, bias_only_ops,
      set_placeholder_units, List.range_succ]
    norm_num

/-- C13 on the code: in the network `two_linear_layers` the last layer receives
`[1, 0.1, 0.1]` and one round of Gibbs sampling turns the visible state into
`[4.8, 4.8, 4.8]`, yet the reconstruction of `deep_predict` is `[4.8, 4.8, 4.8]`, the one
that `predict` computes from `[1, 0.1, 0.1]` without sampling, and not `[57.6, 57.6, 57.6]`,
the reconstruction computed from the visible state that the Gibbs round left: the
hidden activation that follows the Gibbs round reads `[1, 0.1, 0.1]` again. -/
theorem deep_predict_ignores_gibbs_state :
    layer_inputs shared_weight_ops 2 two_linear_layers [1] = [[1], [1, 1/10, 1/10]]
      ∧ (gibbs_rounds shared_weight_ops 2 1 ([0], [0], [1, 1/10, 1/10], (), [])).2.2.1
          = [24/5, 24/5, 24/5]
      ∧ (deep_activate_layers shared_weight_ops 2 1 two_linear_layers [1] [0, 0, 0] ()).2.2
          = [Activation.activate_hidden 1 [1],
             Activation.activate_hidden 2 [1, 1/10, 1/10],
             Activation.activate_visible 2 [12/5],
             Activation.activate_hidden 2 [1, 1/10, 1/10],
             Activation.activate_visible 2 [12/5]]
      ∧ deep_predict_output shared_weight_ops two_linear_layers [1] 2 1 ()
          = [24/5, 24/5, 24/5]
      ∧ predict_output shared_weight_ops two_linear_layers [1] 2 ()
          = [24/5, 24/5, 24/5]
      ∧ (deep_activate_last_from_gibbs shared_weight_ops 1
            { num_visible := 3, num_hidden := 1, rbm := 2 } [1, 1/10, 1/10] [0, 0, 0] ()).1
          = [288/5, 288/5, 288/5] := by
  refine ⟨?_, ?_, ?_, ?_, ?_, ?_⟩
  · simp [layer_inputs, next_input, two_linear_layers, shared_weight_ops,
      set_placeholder_units, List.range_succ]
    norm_num
  · simp [gibbs_rounds, shared_weight_ops]
    norm_num
  · simp [deep_activate_layers, gibbs_rounds, two_linear_layers,
      shared_weight_ops, set_placeholder_units, List.range_succ]
    norm_num
  · simp [deep_predict_output, deep_activate_layers, gibbs_rounds, two_linear_layers,
      shared_weight_ops, set_placeholder_units, num_visible, layers, List.range_succ]
    norm_num
  · simp [predict_output, activate_layers, two_linear_layers,
      shared_weight_ops, set_placeholder_units, num_visible, layers, List.range_succ]
    norm_num
  · simp [deep_activate_last_from_gibbs, gibbs_rounds, shared_weight_ops, List.range_succ]
    norm_num

/-- Sample `k` of the dataset built for the next layer: its size, and its first `nh`
components, which are those that `activate_hidden` wrote. -/
theorem next_dataset_item [Zero α] [One α] (ops : RbmOps R α G) (nh : Nat) (rbm : R)
    (b : Bool) (data : List (List α)) (tl : List Nat) (labels : Nat) (k : Nat)
    (hk : k < data.length) :
    ∃ sample item, data[k]? = some sample
      ∧ (next_dataset ops nh rbm b data tl labels)[k]? = some item
      ∧ item.length = nh + (if b then labels else 0)
      ∧ ∀ j, j < nh →
          item[j]? = (ops.activate_hidden rbm
            (List.replicate (nh + (if b then labels else 0)) 0) sample)[j]? := by
  cases b with
  | false =>
    refine ⟨data[k], _, List.getElem?_eq_getElem hk, ?_, ?_, fun j _ => rfl⟩
    · simp [next_dataset, hk]
    · simp [ops.activate_hidden_size]
  | true =>
    by_cases hl : k < tl.length
    · refine ⟨data[k], set_label_units nh labels (tl.getD k 0)
        (ops.activate_hidden rbm (List.replicate (nh + labels) 0) data[k]),
        List.getElem?_eq_getElem hk, ?_, ?_, ?_⟩
      · simp [next_dataset, getElem?_append_label_units, hl, hk]
      · simp [length_set_label_units, ops.activate_hidden_size]
      · intro j hj
        simp only [if_true]
        exact getElem?_set_label_units_of_lt nh labels _ _ j hj
    · refine ⟨data[k], ops.activate_hidden rbm (List.replicate (nh + labels) 0) data[k],
        List.getElem?_eq_getElem hk, ?_, ?_, fun j _ => by simp⟩
      · simp [next_dataset, getElem?_append_label_units, hl, hk]
      · simp [ops.activate_hidden_size]

/-- The first layer is trained on the training set. -/
theorem train_log_zero [Zero α] [One α] (ops : RbmOps R α G) (e : Nat) (tl : List Nat)
    (labels : Nat) (tuples : List (Layer R)) (data : List (List α)) (h : 1 ≤ tuples.length) :
    (train_rbm_layers ops e tl labels tuples data).2[0]? = some data := by
  match tuples, h with
  | [_], _ => simp [train_rbm_layers]
  | _ :: _ :: _, _ => simp [train_rbm_layers]

/-- Layer `i` is trained on the dataset it receives, and layer `i + 1` receives the dataset
that `next_dataset` builds from it with the trained machine of layer `i`. -/
theorem train_log_succ [Zero α] [One α] (ops : RbmOps R α G) (e : Nat) (tl : List Nat)
    (labels : Nat) (tuples : List (Layer R)) (data : List (List α)) (i : Nat)
    (hi : i + 1 < tuples.length) :
    ∃ layer ds,
      tuples[i]? = some layer
        ∧ (train_rbm_layers ops e tl labels tuples data).2[i]? = some ds
        ∧ (train_rbm_layers ops e tl labels tuples data).1[i]?
            = some { layer with rbm := ops.train layer.rbm ds e }
        ∧ (train_rbm_layers ops e tl labels tuples data).2[i + 1]?
            = some (next_dataset ops layer.num_hidden (ops.train layer.rbm ds e)
                (decide (i + 2 = tuples.length) && !tl.isEmpty) ds tl labels) := by
  induction tuples generalizing data i with
  | nil => simp at hi
  | cons a t ih =>
    match t, ih, hi with
    | [], _, hi => simp at hi
    | b :: t2, ih, hi =>
      cases i with
      | zero =>
        refine ⟨a, data, rfl, ?_, ?_, ?_⟩
        · simp [train_rbm_layers]
        · simp [train_rbm_layers]
        · simp only [train_rbm_layers, List.getElem?_cons_succ]
          rw [train_log_zero ops e tl labels (b :: t2) _ (by simp)]
          simp only [List.length_cons]
          congr 3
          simp only [decide_eq_decide]
          omega
      | succ k =>
        obtain ⟨layer, ds, h1, h2, h3, h4⟩ :=
          ih (next_dataset ops a.num_hidden (ops.train a.rbm data e)
            (decide ((b :: t2).length = 1) && !tl.isEmpty) data tl labels) k
            (by simp at hi ⊢; omega)
        refine ⟨layer, ds, ?_, ?_, ?_, ?_⟩
        · simpa using h1
        · simp only [train_rbm_layers, List.getElem?_cons_succ]
          exact h2
        · simp only [train_rbm_layers, List.getElem?_cons_succ]
          exact h3
        · simp only [train_rbm_layers, List.getElem?_cons_succ]
          rw [h4]
          simp only [List.length_cons]
          congr 3
          simp only [decide_eq_decide]
          omega

/-- C19: for every layer `i` that is not the last one, `train_rbm_layers` trains layer `i`
on the dataset it receives and hands to layer `i + 1` a dataset with one item per sample
of that dataset, in the same order; item `k` has `num_hidden<i>()` components, and
`labels` more exactly when layer `i + 1` is the last one and the label sequence is not
empty, and its first `num_hidden<i>()` components are those that `activate_hidden` of the
trained machine of layer `i` wrote for sample `k`; `pretrain`, which passes no labels,
hands over items of exactly `num_hidden<i>()` components. -/
theorem train_rbm_layers_propagates [Zero α] [One α] (ops : RbmOps R α G) (max_epochs : Nat)
    (tuples : List (Layer R)) (training_data : List (List α)) (training_labels : List Nat)
    (labels : Nat) (i : Nat) (hi : i + 1 < layers tuples) :
    (∃ layer ds next,
      tuples[i]? = some layer
        ∧ (train_rbm_layers ops max_epochs training_labels labels tuples training_data).2[i]?
            = some ds
        ∧ (train_rbm_layers ops max_epochs training_labels labels tuples training_data).1[i]?
            = some { layer with rbm := ops.train layer.rbm ds max_epochs }
        ∧ (train_rbm_layers ops max_epochs training_labels labels tuples
              training_data).2[i + 1]? = some next
        ∧ next.length = ds.length
        ∧ ∀ k, k < ds.length →
            ∃ sample item, ds[k]? = some sample ∧ next[k]? = some item
              ∧ item.length = layer.num_hidden
                  + (if i + 2 = layers tuples ∧ training_labels ≠ [] then labels else 0)
              ∧ ∀ j, j < layer.num_hidden →
                  item[j]? = (ops.activate_hidden (ops.train layer.rbm ds max_epochs)
                    (List.replicate (layer.num_hidden
                      + (if i + 2 = layers tuples ∧ training_labels ≠ [] then labels else 0))
                      0) sample)[j]?)
      ∧ (∃ layer ds next,
          tuples[i]? = some layer
            ∧ (pretrain ops tuples training_data max_epochs).2[i]? = some ds
            ∧ (pretrain ops tuples training_data max_epochs).2[i + 1]? = some next
            ∧ next.length = ds.length
            ∧ ∀ k, k < ds.length →
                ∃ sample, ds[k]? = some sample
                  ∧ next[k]? = some (ops.activate_hidden (ops.train layer.rbm ds max_epochs)
                      (List.replicate layer.num_hidden 0) sample)
                  ∧ (ops.activate_hidden (ops.train layer.rbm ds max_epochs)
                      (List.replicate layer.num_hidden 0) sample).length
                    = layer.num_hidden) := by
  unfold layers at hi ⊢
  constructor
  · obtain ⟨layer, ds, h1, h2, h3, h4⟩ :=
      train_log_succ ops max_epochs training_labels labels tuples training_data i hi
    have hb : (decide (i + 2 = tuples.length) && !training_labels.isEmpty)
        = decide (i + 2 = tuples.length ∧ training_labels ≠ []) := by
      cases training_labels <;> simp
    refine ⟨layer, ds, _, h1, h2, h3, h4, length_next_dataset _ _ _ _ _ _ _, ?_⟩
    intro k hk
    obtain ⟨sample, item, g1, g2, g3, g4⟩ := next_dataset_item ops layer.num_hidden
      (ops.train layer.rbm ds max_epochs)
      (decide (i + 2 = tuples.length) && !training_labels.isEmpty) ds training_labels
      labels k hk
    rw [hb] at g2 g3 g4
    simp only [decide_eq_true_eq] at g3 g4
    exact ⟨sample, item, g1, by rw [hb]; exact g2, g3, g4⟩
  · obtain ⟨layer, ds, h1, h2, _, h4⟩ :=
      train_log_succ ops max_epochs [] 0 tuples training_data i hi
    refine ⟨layer, ds, _, h1, h2, h4, length_next_dataset _ _ _ _ _ _ _, ?_⟩
    intro k hk
    refine ⟨ds[k], List.getElem?_eq_getElem hk, ?_, ?_⟩
    · simp [next_dataset, hk]
    · simp [ops.activate_hidden_size]

/-- C19, evaluated: `two_layers` hands to its last layer one item of five components per
sample when labels are given and one item of two components without labels. -/
theorem train_rbm_layers_propagates_witness :
    (train_rbm_layers bias_only_ops 1 [2, 0] 3 two_layers [[1], [0]]).2
        = [[[1], [0]], [[0, 0, 0, 0, 1], [0, 0, 1, 0, 0]]]
      ∧ (pretrain bias_only_ops two_layers [[1], [0]] 1).2 = [[[1], [0]], [[0, 0], [0, 0]]]
      ∧ ∃ layer ds next,
        two_layers[0]? = some layer
          ∧ (train_rbm_layers bias_only_ops 1 [2, 0] 3 two_layers [[1], [0]]).2[0]? = some ds
          ∧ (train_rbm_layers bias_only_ops 1 [2, 0] 3 two_layers [[1], [0]]).1[0]?
              = some { layer with rbm := bias_only_ops.train layer.rbm ds 1 }
          ∧ (train_rbm_layers bias_only_ops 1 [2, 0] 3 two_layers [[1], [0]]).2[0 + 1]?
              = some next
          ∧ next.length = ds.length
          ∧ ∀ k, k < ds.length →
              ∃ sample item, ds[k]? = some sample ∧ next[k]? = some item
                ∧ item.length = layer.num_hidden
                    + (if 0 + 2 = layers two_layers ∧ [2, 0] ≠ [] then 3 else 0)
                ∧ ∀ j, j < layer.num_hidden →
                    item[j]? = (bias_only_ops.activate_hidden
                      (bias_only_ops.train layer.rbm ds 1)
                      (List.replicate (layer.num_hidden
                        + (if 0 + 2 = layers two_layers ∧ [2, 0] ≠ [] then 3 else 0))
                        0) sample)[j]? :=
  ⟨by decide, by decide,
   (train_rbm_layers_propagates bias_only_ops 1 two_layers [[1], [0]] [2, 0] 3 0
     (by decide)).1⟩

end dbn

namespace dll
variable {α W T X : Type}
/-- The number of batches of an epoch. -/
theorem length_epoch_calls (cfg : TrainerConfig α W T X) (D : Bool) (epoch : Nat)
    (st : TrainState α W T X) :
    (epoch_calls cfg D epoch st).length = batch_count st.input.length cfg.batch_size := by
  unfold epoch_calls
  simp only [length_batch_ranges, (epoch_ranges_size cfg D epoch st.input st.expected).1]

/-- The kinds of the calls after `k` epochs: those before the first epoch followed by the
sequences of the epochs `0, ..., k - 1`. -/
theorem train_epochs_kinds [DivisionRing α] (fuel : Nat) (cfg : TrainerConfig α W T X)
    (D : Bool) (st0 : TrainState α W T X) (hB : 1 ≤ cfg.batch_size)
    (hfuel : st0.input.length ≤ fuel) (k : Nat) :
    ∃ st, train_epochs fuel cfg D k st0 = some st
      ∧ st.input.length = st0.input.length
      ∧ st.log.map Event.kind
          = st0.log.map Event.kind
            ++ ((List.range k).map (epoch_sequence cfg.EnableWatcher
                  (batch_count st0.input.length cfg.batch_size))).flatten := by
  induction k with
  | zero => exact ⟨st0, rfl, rfl, by simp⟩
  | succ k ih =>
    obtain ⟨st, hst, hlen, hlog⟩ := ih
    simp only [train_epochs, hst]
    rw [train_epoch_eq fuel cfg D k st hB (by omega)]
    refine ⟨_, rfl, ?_, ?_⟩
    · simp only []
      rw [(epoch_ranges_size cfg D k st.input st.expected).1, hlen]
    · simp only [List.map_append, hlog, List.range_succ, List.flatten_append, List.map_cons,
        List.map_nil, List.flatten_cons, List.flatten_nil, List.append_nil, List.map_map,
        List.append_assoc]
      congr 2
      unfold epoch_sequence
      congr 1
      · rw [← hlen, ← length_epoch_calls cfg D k st]
        apply List.ext_getElem
        · simp
        · intro i h1 h2
          simp [Event.kind]
      · cases cfg.EnableWatcher <;> simp [Event.kind]

/-- The notifications in the sequence of calls of the epochs. -/
theorem filter_epochs_sequence (watcher : Bool) (batches k : Nat) :
    (((List.range k).map (epoch_sequence watcher batches)).flatten).filter
        EventKind.is_notification
      = if watcher then (List.range k).map EventKind.epoch_end else [] := by
  induction k with
  | zero => simp
  | succ k ih =>
    simp only [List.range_succ, List.map_append, List.flatten_append, List.filter_append, ih,
      List.map_cons, List.map_nil, List.flatten_cons, List.flatten_nil, List.append_nil]
    have hrep : (List.replicate batches (EventKind.train_batch k)).filter
        EventKind.is_notification = [] := by
      rw [List.filter_eq_nil_iff]
      intro a ha
      rw [List.eq_of_mem_replicate ha]
      simp [EventKind.is_notification]
    unfold epoch_sequence
    rw [List.filter_append, hrep]
    cases watcher <;> simp [EventKind.is_notification]

/-- C14, amended: with batches of at least one item, enough fuel and a data based
initialisation of the weights that does not fail, `train` returns, and the calls it made
are, in order, `training_begin`, the data based initialisation of the weights when the
machine has one, then for every epoch `0, ..., max_epochs - 1` in increasing order the
`⌈n / batch_size⌉` calls of `train_batch` of the epoch followed by `epoch_end` of the
epoch, and last `training_end`, the three kinds of notifications being made only when the
watcher is enabled; so the notifications are exactly `training_begin`, `epoch_end(0)`,
..., `epoch_end(max_epochs - 1)`, `training_end` with the watcher enabled and none with the
watcher disabled. -/
theorem train_call_sequence [DivisionRing α] (fuel : Nat) (cfg : TrainerConfig α W T X)
    (Denoising : Bool) (rbm : Rbm α W) (input expected : List X) (max_epochs : Nat)
    (hB : 1 ≤ cfg.batch_size) (hfuel : input.length ≤ fuel)
    (hinit : init_weights_succeeds cfg rbm input = true) :
    ∃ st, train fuel cfg Denoising rbm input expected max_epochs = some (.ok st)
      ∧ st.log.map Event.kind
          = call_sequence cfg.EnableWatcher cfg.init_weights_trait
              (batch_count input.length cfg.batch_size) max_epochs
      ∧ (st.log.map Event.kind).filter EventKind.is_notification
          = (if cfg.EnableWatcher then
              EventKind.training_begin
                :: ((List.range max_epochs).map EventKind.epoch_end
                    ++ [EventKind.training_end])
            else []) := by
  obtain ⟨start, hstart, _, _, _, _, h5, _, _, hkind⟩ :=
    train_start_ok cfg rbm input expected hinit
  have hf : start.input.length ≤ fuel := by rw [h5]; exact hfuel
  obtain ⟨st, hst, _, hlog⟩ :=
    train_epochs_kinds fuel cfg Denoising start hB hf max_epochs
  rw [h5] at hlog
  have hkinds : (if cfg.EnableWatcher = true then st.log ++ [Event.training_end]
        else st.log).map Event.kind
      = call_sequence cfg.EnableWatcher cfg.init_weights_trait
          (batch_count input.length cfg.batch_size) max_epochs := by
    unfold call_sequence
    rw [← hkind, ← hlog]
    cases cfg.EnableWatcher <;> simp [Event.kind]
  refine ⟨_, train_of_epochs fuel cfg Denoising rbm input expected max_epochs start st hstart
    hst, hkinds, ?_⟩
  show ((if cfg.EnableWatcher = true then st.log ++ [Event.training_end]
        else st.log).map Event.kind).filter EventKind.is_notification = _
  rw [hkinds]
  unfold call_sequence
  simp only [List.filter_append, filter_epochs_sequence]
  cases cfg.EnableWatcher <;> cases cfg.init_weights_trait <;>
    simp [EventKind.is_notification]

/-- C14, evaluated: three items in batches of two and two epochs, with the watcher enabled
and with the watcher disabled. -/
theorem train_call_sequence_witness :
    (∃ st, train 3 sum_config false switch_at_five [1, 0, 1] [1, 1, 1] 2 = some (.ok st)
      ∧ st.log.map Event.kind
          = [EventKind.training_begin, EventKind.init_weights,
             EventKind.train_batch 0, EventKind.train_batch 0, EventKind.epoch_end 0,
             EventKind.train_batch 1, EventKind.train_batch 1, EventKind.epoch_end 1,
             EventKind.training_end]
      ∧ (st.log.map Event.kind).filter EventKind.is_notification
          = [EventKind.training_begin, EventKind.epoch_end 0, EventKind.epoch_end 1,
             EventKind.training_end])
      ∧ (∃ st, train 3 silent_config false switch_at_five [1, 0, 1] [1, 1, 1] 2 = some (.ok st)
        ∧ st.log.map Event.kind
            = [EventKind.init_weights,
               EventKind.train_batch 0, EventKind.train_batch 0,
               EventKind.train_batch 1, EventKind.train_batch 1]
        ∧ (st.log.map Event.kind).filter EventKind.is_notification = []) :=
  ⟨train_call_sequence 3 sum_config false switch_at_five [1, 0, 1] [1, 1, 1] 2
     (by decide) (by decide) rfl,
   train_call_sequence 3 silent_config false switch_at_five [1, 0, 1] [1, 1, 1] 2
     (by decide) (by decide) rfl⟩

end dll

namespace dll
variable {α G : Type}
/-- The pre-activation vector of the hidden units has one component per hidden unit. -/
theorem length_hidden_x [Field α] (nv nh : Nat) (b v : List α) (w : List (List α))
    (hb : b.length = nh) : (etl.add b (etl.auto_vmmul nv nh v w)).length = nh := by
  simp [etl.add, etl.auto_vmmul, hb]

/-- Component `j` of the pre-activation vector of the hidden units. -/
theorem getElem?_hidden_x [Field α] (nv nh : Nat) (b v : List α) (w : List (List α))
    (hb : b.length = nh) (j : Nat) (hj : j < nh) :
    (etl.add b (etl.auto_vmmul nv nh v w))[j]? = some (hidden_preactivation nv b v w j) := by
  unfold etl.add etl.auto_vmmul hidden_preactivation
  simp only [List.getElem?_zipWith, List.getElem?_map, List.getD_eq_getElem?_getD]
  rw [List.getElem?_eq_getElem (by omega), List.getElem?_range hj]
  simp only [Option.map_some', Option.getD_some]
  congr 2

/-- The sum of a function over the pre-activation vector of the hidden units. -/
theorem sum_map_hidden_x [Field α] (f : α → α) (nv nh : Nat) (b v : List α)
    (w : List (List α)) (hb : b.length = nh) :
    ((etl.add b (etl.auto_vmmul nv nh v w)).map f).sum
      = ∑ k in Finset.range nh, f (hidden_preactivation nv b v w k) := by
  apply list_sum_eq_sum
  · rw [List.length_map, length_hidden_x nv nh b v w hb]
  · intro k hk
    simp only [List.getD_eq_getElem?_getD, List.getElem?_map,
      getElem?_hidden_x nv nh b v w hb k hk]
    rfl

/-- The pre-activation vector of the visible units has one component per visible unit. -/
theorem length_visible_x [Field α] (nv nh : Nat) (c h : List α) (w : List (List α))
    (hc : c.length = nv) : (etl.add c (etl.auto_mvmul nv nh w h)).length = nv := by
  simp [etl.add, etl.auto_mvmul, hc]

/-- Component `i` of the pre-activation vector of the visible units. -/
theorem getElem?_visible_x [Field α] (nv nh : Nat) (c h : List α) (w : List (List α))
    (hc : c.length = nv) (i : Nat) (hi : i < nv) :
    (etl.add c (etl.auto_mvmul nv nh w h))[i]? = some (visible_preactivation nh c h w i) := by
  unfold etl.add etl.auto_mvmul visible_preactivation
  simp only [List.getElem?_zipWith, List.getElem?_map, List.getD_eq_getElem?_getD]
  rw [List.getElem?_eq_getElem (by omega), List.getElem?_range hi]
  simp only [Option.map_some', Option.getD_some]
  congr 2

/-- With probabilities requested, the new `h_a` is what the branch of the kind of hidden
unit assigns, whether samples are requested or not. -/
theorem std_activate_hidden_h_a [LinearOrderedField α] (exp : α → α) (noise : Sampling α G)
    (hidden_unit : unit_type) (S : Bool) (nv nh : Nat) (h_a h_s v_a v_s b : List α)
    (w : List (List α)) (g : G) :
    (std_activate_hidden exp noise hidden_unit true S nv nh h_a h_s v_a v_s b w g).1
      = (hidden_probabilities exp hidden_unit
          (etl.add b (etl.auto_vmmul nv nh v_a w))).getD h_a := by
  cases S <;> simp [std_activate_hidden]

/-- C15: with probabilities requested and one hidden bias per hidden unit,
`std_activate_hidden` leaves in `h_a` one component per hidden unit; component `j` is the
logistic function of `b_j + (v W)_j` for BINARY hidden units, `max(x, 0)` of it for RELU,
`min(max(x, 0), 6)` for RELU6, `min(max(x, 0), 1)` for RELU1, and for SOFTMAX `exp` of it
divided by the sum of `exp` over the pre-activations of all hidden units; so RELU
probabilities are at least `0`, RELU1 probabilities lie in `[0, 1]` and RELU6
probabilities in `[0, 6]`. -/
theorem std_activate_hidden_probabilities [LinearOrderedField α] (exp : α → α)
    (noise : Sampling α G) (hidden_unit : unit_type) (S : Bool) (nv nh : Nat)
    (h_a h_s v_a v_s b : List α) (w : List (List α)) (g : G) (hb : b.length = nh) :
    ((hidden_unit = unit_type.BINARY ∨ hidden_unit = unit_type.RELU
          ∨ hidden_unit = unit_type.RELU6 ∨ hidden_unit = unit_type.RELU1) →
        (std_activate_hidden exp noise hidden_unit true S nv nh h_a h_s v_a v_s b w g).1.length
            = nh
          ∧ ∀ j, j < nh →
              (std_activate_hidden exp noise hidden_unit true S nv nh h_a h_s v_a v_s b w
                  g).1[j]?
                = some (unit_function exp hidden_unit (hidden_preactivation nv b v_a w j)))
      ∧ (hidden_unit = unit_type.SOFTMAX →
          (std_activate_hidden exp noise hidden_unit true S nv nh h_a h_s v_a v_s b w
              g).1.length = nh
            ∧ ∀ j, j < nh →
                (std_activate_hidden exp noise hidden_unit true S nv nh h_a h_s v_a v_s b w
                    g).1[j]?
                  = some (exp (hidden_preactivation nv b v_a w j)
                      / ∑ k in Finset.range nh, exp (hidden_preactivation nv b v_a w k)))
      ∧ (hidden_unit = unit_type.RELU →
          ∀ y ∈ (std_activate_hidden exp noise hidden_unit true S nv nh h_a h_s v_a v_s b w
              g).1, 0 ≤ y)
      ∧ (hidden_unit = unit_type.RELU1 →
          ∀ y ∈ (std_activate_hidden exp noise hidden_unit true S nv nh h_a h_s v_a v_s b w
              g).1, 0 ≤ y ∧ y ≤ 1)
      ∧ (hidden_unit = unit_type.RELU6 →
          ∀ y ∈ (std_activate_hidden exp noise hidden_unit true S nv nh h_a h_s v_a v_s b w
              g).1, 0 ≤ y ∧ y ≤ 6) := by
  rw [std_activate_hidden_h_a]
  have hlen := length_hidden_x nv nh b v_a w hb
  have hget := getElem?_hidden_x nv nh b v_a w hb
  refine ⟨?_, ?_, ?_, ?_, ?_⟩
  · intro hu
    rcases hu with h | h | h | h <;> subst h <;>
      simp only [hidden_probabilities, if_true, Option.getD_some, reduceCtorEq, if_false]
    · refine ⟨by simp [etl.sigmoid, hlen], fun j hj => ?_⟩
      simp [etl.sigmoid, List.getElem?_map, hget j hj, unit_function]
    · refine ⟨by simp [etl.max, hlen], fun j hj => ?_⟩
      simp [etl.max, List.getElem?_map, hget j hj, unit_function]
    · refine ⟨by simp [etl.min, etl.max, hlen], fun j hj => ?_⟩
      simp [etl.min, etl.max, List.getElem?_map, hget j hj, unit_function]
    · refine ⟨by simp [etl.min, etl.max, hlen], fun j hj => ?_⟩
      simp [etl.min, etl.max, List.getElem?_map, hget j hj, unit_function]
  · intro h
    subst h
    simp only [hidden_probabilities, if_true, Option.getD_some, reduceCtorEq, if_false]
    refine ⟨by simp [etl.softmax, hlen], fun j hj => ?_⟩
    simp only [etl.softmax, List.getElem?_map, hget j hj, Option.map_some']
    rw [sum_map_hidden_x exp nv nh b v_a w hb]
  · intro h y hy
    subst h
    simp only [hidden_probabilities, if_true, Option.getD_some, reduceCtorEq, if_false,
      etl.max, List.mem_map] at hy
    obtain ⟨x, _, rfl⟩ := hy
    exact le_max_right x 0
  · intro h y hy
    subst h
    simp only [hidden_probabilities, if_true, Option.getD_some, reduceCtorEq, if_false,
      etl.max, etl.min, List.mem_map] at hy
    obtain ⟨z, ⟨x, _, rfl⟩, rfl⟩ := hy
    exact ⟨le_min (le_max_right x 0) zero_le_one, min_le_right _ _⟩
  · intro h y hy
    subst h
    simp only [hidden_probabilities, if_true, Option.getD_some, reduceCtorEq, if_false,
      etl.max, etl.min, List.mem_map] at hy
    obtain ⟨z, ⟨x, _, rfl⟩, rfl⟩ := hy
    exact ⟨le_min (le_max_right x 0) (by norm_num), min_le_right _ _⟩

/-- C15, evaluated: RELU6 hidden units with the pre-activations `-1`, `3` and `8` get the
probabilities `0`, `3` and `6`. -/
theorem std_activate_hidden_probabilities_witness :
    (std_activate_hidden (fun x => x) (copy_sampling ℚ) unit_type.RELU6 true true 1 3
        [] [] [1] [1] [-1, 3, 8] [[0, 0, 0]] ()).1 = [0, 3, 6]
      ∧ (unit_type.RELU6 = unit_type.RELU6 →
          ∀ y ∈ (std_activate_hidden (fun x => x) (copy_sampling ℚ) unit_type.RELU6 true true
              1 3 [] [] [1] [1] [-1, 3, 8] [[0, 0, 0]] ()).1, 0 ≤ y ∧ y ≤ 6)
      ∧ ((unit_type.RELU6 = unit_type.BINARY ∨ unit_type.RELU6 = unit_type.RELU
            ∨ unit_type.RELU6 = unit_type.RELU6 ∨ unit_type.RELU6 = unit_type.RELU1) →
          (std_activate_hidden (fun x => x) (copy_sampling ℚ) unit_type.RELU6 true true 1 3
              [] [] [1] [1] [-1, 3, 8] [[0, 0, 0]] ()).1.length = 3
            ∧ ∀ j, j < 3 →
                (std_activate_hidden (fun x => x) (copy_sampling ℚ) unit_type.RELU6 true true
                    1 3 [] [] [1] [1] [-1, 3, 8] [[0, 0, 0]] ()).1[j]?
                  = some (unit_function (fun x => x) unit_type.RELU6
                      (hidden_preactivation 1 [-1, 3, 8] [1] [[0, 0, 0]] j))) := by
  have h := std_activate_hidden_probabilities (fun x => x) (copy_sampling ℚ) unit_type.RELU6
    true 1 3 [] [] [1] [1] [-1, 3, 8] [[0, 0, 0]] () rfl
  refine ⟨?_, h.2.2.2.2, h.1⟩
  simp [std_activate_hidden, hidden_probabilities, etl.add, etl.auto_vmmul, etl.max, etl.min,
    List.range_succ]
  norm_num

/-- What `std_activate_visible` does for the kinds of visible units it has a branch for:
with probabilities requested and one visible bias per visible unit, component `i` of the
new `v_a` is the logistic function of `c_i + (W h_s)_i` for BINARY visible units, the
pre-activation itself for GAUSSIAN and `max(x, 0)` of it for RELU; the hidden
probabilities passed as first argument do not enter the result. -/
theorem std_activate_visible_supported [LinearOrderedField α] (exp : α → α)
    (noise : Sampling α G) (visible_unit : unit_type) (S : Bool) (nv nh : Nat)
    (h_a h_s v_a v_s c : List α) (w : List (List α)) (g : G) (hc : c.length = nv)
    (hu : visible_unit = unit_type.BINARY ∨ visible_unit = unit_type.GAUSSIAN
      ∨ visible_unit = unit_type.RELU) :
    (std_activate_visible exp noise visible_unit true S nv nh h_a h_s v_a v_s c w g).1.length
        = nv
      ∧ (∀ i, i < nv →
          (std_activate_visible exp noise visible_unit true S nv nh h_a h_s v_a v_s c w g).1[i]?
            = some (unit_function exp visible_unit (visible_preactivation nh c h_s w i)))
      ∧ ∀ h_a2 : List α,
          std_activate_visible exp noise visible_unit true S nv nh h_a2 h_s v_a v_s c w g
            = std_activate_visible exp noise visible_unit true S nv nh h_a h_s v_a v_s c w g := by
  have hlen := length_visible_x nv nh c h_s w hc
  have hget := getElem?_visible_x nv nh c h_s w hc
  refine ⟨?_, ?_, fun _ => rfl⟩
  · rcases hu with h | h | h <;> subst h <;>
      simp [std_activate_visible, etl.sigmoid, etl.max, hlen]
  · intro i hi
    rcases hu with h | h | h <;> subst h <;>
      simp [std_activate_visible, etl.sigmoid, etl.max, List.getElem?_map, hget i hi,
        unit_function]

/-- C16 on the code: for RELU1 and for RELU6 visible units `std_activate_visible` has no
branch, so it returns `v_a` and `v_s` as they were, whatever the hidden sample, the bias
and the weights are; for one RELU1 visible unit with pre-activation `2` and `v_a = [5]` the
new `v_a` is `[5]`, while `min(max(2, 0), 1)` is `1`. -/
theorem std_activate_visible_skips_clamped [LinearOrderedField α] (exp : α → α)
    (noise : Sampling α G) (P S : Bool) (nv nh : Nat) (h_a h_s v_a v_s c : List α)
    (w : List (List α)) (g : G) :
    std_activate_visible exp noise unit_type.RELU1 P S nv nh h_a h_s v_a v_s c w g
        = (v_a, v_s, g)
      ∧ std_activate_visible exp noise unit_type.RELU6 P S nv nh h_a h_s v_a v_s c w g
        = (v_a, v_s, g)
      ∧ std_activate_visible (fun x => x) (copy_sampling ℚ) unit_type.RELU1 true true 1 1
          [1] [1] [5] [5] [2] [[0]] () = ([5], [5], ())
      ∧ unit_function (fun x => x) unit_type.RELU1
          (visible_preactivation 1 [2] [1] ([[0]] : List (List ℚ)) 0) = 1
      ∧ std_activate_hidden (fun x => x) (copy_sampling ℚ) unit_type.RELU1 true true 1 1
          [5] [5] [1] [1] [2] [[0]] () = ([1], [1], ()) := by
  refine ⟨?_, ?_, ?_, ?_, ?_⟩
  · cases P <;> cases S <;> simp [std_activate_visible]
  · cases P <;> cases S <;> simp [std_activate_visible]
  · simp [std_activate_visible]
  · simp [unit_function, visible_preactivation]
  · simp [std_activate_hidden, hidden_probabilities, hidden_samples, copy_sampling, etl.add,
      etl.auto_vmmul, etl.max, etl.min, List.range_succ]

/-- The logistic function over the reals takes its values in `[0, 1]`. -/
theorem sigmoid_unit_interval (x : List ℝ) :
    ∀ y ∈ etl.sigmoid Real.exp x, 0 ≤ y ∧ y ≤ 1 := by
  intro y hy
  simp only [etl.sigmoid, List.mem_map] at hy
  obtain ⟨xi, _, rfl⟩ := hy
  have he : 0 < Real.exp (- xi) := Real.exp_pos _
  constructor
  · positivity
  · rw [div_le_one (by linarith)]
    linarith

/-- The result of `reconstruct` on an input of the right size. -/
theorem reconstruct_eq [LinearOrderedField α] (exp : α → α) (noise : Sampling α G)
    (rbm : StandardRbm α) (units : Units α) (items : List α) (g : G)
    (hitems : items.length = rbm.num_visible) :
    reconstruct exp noise rbm units items g
      = Except.ok
          (let r1 := activate_hidden exp noise rbm units.h1_a units.h1_s items items g
           let r2 := activate_visible exp noise rbm r1.1 r1.2.1 units.v2_a units.v2_s r1.2.2
           let r3 := activate_hidden exp noise rbm units.h2_a units.h2_s r2.1 r2.2.1 r2.2.2
           ({ v1 := items, h1_a := r1.1, h1_s := r1.2.1, v2_a := r2.1, v2_s := r2.2.1,
              h2_a := r3.1, h2_s := r3.2.1 }, r3.2.2)) := by
  have hne : ¬ items.length ≠ rbm.num_visible := by simp [hitems]
  simp only [reconstruct, if_neg hne]

/-- C17: for a machine with binary visible and hidden units, any real weights and biases
of the declared sizes, and any input of `num_visible` components, `reconstruct` returns,
and in the unit vectors it leaves every component of the reconstructed visible
probabilities `v2_a` lies in `[0, 1]`, as does every component of the hidden
probabilities `h1_a` and `h2_a`; `v2_a` has one component per visible unit and `h1_a` and
`h2_a` one per hidden unit. -/
theorem reconstruct_unit_interval (noise : Sampling ℝ G) (rbm : StandardRbm ℝ)
    (units : Units ℝ) (items : List ℝ) (g : G)
    (hvisible : rbm.visible_unit = unit_type.BINARY)
    (hhidden : rbm.hidden_unit = unit_type.BINARY)
    (hsize : well_sized rbm) (hitems : items.length = rbm.num_visible) :
    ∃ units2 g2, reconstruct Real.exp noise rbm units items g = Except.ok (units2, g2)
      ∧ units2.v1 = items
      ∧ units2.h1_a.length = rbm.num_hidden
      ∧ units2.v2_a.length = rbm.num_visible
      ∧ units2.h2_a.length = rbm.num_hidden
      ∧ (∀ y ∈ units2.h1_a, 0 ≤ y ∧ y ≤ 1)
      ∧ (∀ y ∈ units2.v2_a, 0 ≤ y ∧ y ≤ 1)
      ∧ (∀ y ∈ units2.h2_a, 0 ≤ y ∧ y ≤ 1) := by
  obtain ⟨_, _, hb, hc⟩ := hsize
  refine ⟨_, _, reconstruct_eq Real.exp noise rbm units items g hitems, rfl,
    ?_, ?_, ?_, ?_, ?_, ?_⟩
  · simp [activate_hidden, std_activate_hidden, hidden_probabilities, hhidden, etl.sigmoid,
      length_hidden_x _ _ _ _ _ hb]
  · simp [activate_visible, std_activate_visible, hvisible, etl.sigmoid,
      length_visible_x _ _ _ _ _ hc]
  · simp [activate_hidden, std_activate_hidden, hidden_probabilities, hhidden, etl.sigmoid,
      length_hidden_x _ _ _ _ _ hb]
  · simp only [activate_hidden, std_activate_hidden, hidden_probabilities, hhidden, if_true,
      Option.getD_some]
    exact sigmoid_unit_interval _
  · simp only [activate_visible, std_activate_visible, hvisible, if_true]
    exact sigmoid_unit_interval _
  · simp only [activate_hidden, std_activate_hidden, hidden_probabilities, hhidden, if_true,
      Option.getD_some]
    exact sigmoid_unit_interval _

/-- C17, evaluated on a binary machine of two visible and two hidden units over the reals
and the input `[1, 0]`. -/
theorem reconstruct_unit_interval_witness :
    ∃ units2 g2,
      reconstruct Real.exp (copy_sampling ℝ) (corner_weight_rbm ℝ) (no_units ℝ) [1, 0] ()
          = Except.ok (units2, g2)
        ∧ units2.v1 = [1, 0]
        ∧ units2.h1_a.length = (corner_weight_rbm ℝ).num_hidden
        ∧ units2.v2_a.length = (corner_weight_rbm ℝ).num_visible
        ∧ units2.h2_a.length = (corner_weight_rbm ℝ).num_hidden
        ∧ (∀ y ∈ units2.h1_a, 0 ≤ y ∧ y ≤ 1)
        ∧ (∀ y ∈ units2.v2_a, 0 ≤ y ∧ y ≤ 1)
        ∧ (∀ y ∈ units2.h2_a, 0 ≤ y ∧ y ≤ 1) :=
  reconstruct_unit_interval (copy_sampling ℝ) (corner_weight_rbm ℝ) (no_units ℝ) [1, 0] ()
    rfl rfl (by simp [well_sized, corner_weight_rbm]) rfl

/-- C18: the construction of a `standard_rbm` is rejected exactly when the visible units are
SOFTMAX or the hidden units are GAUSSIAN; every other pair of unit kinds is accepted, and
every machine that was constructed has hidden units other than GAUSSIAN and visible units
other than SOFTMAX. -/
theorem standard_rbm_new_rejects_iff [DivisionRing α] (visible_unit hidden_unit : unit_type) :
    ((∃ message, (standard_rbm_new visible_unit hidden_unit : Except String α)
          = Except.error message)
        ↔ (visible_unit = unit_type.SOFTMAX ∨ hidden_unit = unit_type.GAUSSIAN))
      ∧ (¬ (visible_unit = unit_type.SOFTMAX ∨ hidden_unit = unit_type.GAUSSIAN) →
          ∃ learning_rate : α,
            standard_rbm_new visible_unit hidden_unit = Except.ok learning_rate)
      ∧ (∀ learning_rate : α,
          standard_rbm_new visible_unit hidden_unit = Except.ok learning_rate →
            hidden_unit ≠ unit_type.GAUSSIAN ∧ visible_unit ≠ unit_type.SOFTMAX) := by
  unfold standard_rbm_new
  by_cases hv : visible_unit = unit_type.SOFTMAX
  · simp [hv]
  · by_cases hh : hidden_unit = unit_type.GAUSSIAN
    · simp [hv, hh]
    · simp [hv, hh]

/-- C18, evaluated: the two rejected kinds of configurations with their messages, and two
accepted configurations with their initial learning rates. -/
theorem standard_rbm_new_rejects_iff_witness :
    (standard_rbm_new unit_type.SOFTMAX unit_type.BINARY : Except String ℚ)
        = Except.error "Softmax Visible units are not support"
      ∧ (standard_rbm_new unit_type.BINARY unit_type.GAUSSIAN : Except String ℚ)
        = Except.error "Gaussian hidden units are not supported"
      ∧ (standard_rbm_new unit_type.BINARY unit_type.BINARY : Except String ℚ)
        = Except.ok 1e-1
      ∧ (standard_rbm_new unit_type.GAUSSIAN unit_type.RELU6 : Except String ℚ)
        = Except.ok 1e-5
      ∧ (∀ learning_rate : ℚ,
          standard_rbm_new unit_type.RELU1 unit_type.SOFTMAX = Except.ok learning_rate →
            unit_type.SOFTMAX ≠ unit_type.GAUSSIAN ∧ unit_type.RELU1 ≠ unit_type.SOFTMAX) :=
  ⟨rfl, rfl, rfl, rfl,
   (standard_rbm_new_rejects_iff unit_type.RELU1 unit_type.SOFTMAX).2.2⟩

end dll

namespace dll
variable {α W T X : Type}
/-- The calls of `train_batch` in the sequence of calls of `k` epochs. -/
theorem filter_train_batch_epochs (watcher : Bool) (batches k : Nat) :
    ((((List.range k).map (epoch_sequence watcher batches)).flatten).filter
        EventKind.is_train_batch).length = k * batches := by
  induction k with
  | zero => simp
  | succ k ih =>
    simp only [List.range_succ, List.map_append, List.flatten_append, List.filter_append,
      List.length_append, ih, List.map_cons, List.map_nil, List.flatten_cons, List.flatten_nil,
      List.append_nil]
    have hrep : (List.replicate batches (EventKind.train_batch k)).filter
        EventKind.is_train_batch = List.replicate batches (EventKind.train_batch k) := by
      rw [List.filter_eq_self]
      intro a ha
      rw [List.eq_of_mem_replicate ha]
      rfl
    unfold epoch_sequence
    rw [List.filter_append, hrep]
    cases watcher <;> simp [EventKind.is_train_batch, Nat.succ_mul]

/-- An iteration of the outer batch loop that starts before the end of the input range
advances the input iterator by at least one item when batches hold at least one item,
and stays within the range. -/
theorem batch_step_progress [Add α] (cfg : TrainerConfig α W T X) (epoch : Nat)
    (input expected : List X) (st : BatchState α W T X) (hB : 1 ≤ cfg.batch_size)
    (hp : st.iit < input.length) :
    st.iit < (batch_step cfg epoch input expected st).iit
      ∧ (batch_step cfg epoch input expected st).iit ≤ input.length := by
  rw [batch_step_eq cfg epoch input expected st (by omega)]
  simp only []
  omega

/-- With batches of no item an iteration of the outer batch loop leaves the iterators
where they are. -/
theorem batch_step_stuck [Add α] (cfg : TrainerConfig α W T X) (epoch : Nat)
    (input expected : List X) (st : BatchState α W T X) (hB : cfg.batch_size = 0) :
    (batch_step cfg epoch input expected st).iit = st.iit := by
  simp [batch_step, hB, advance]

/-- With batches of no item the outer batch loop is still running after any number of
iterations when it starts before the end of the input range. -/
theorem batch_loop_diverges [Add α] (cfg : TrainerConfig α W T X) (epoch : Nat)
    (input expected : List X) (hB : cfg.batch_size = 0) (fuel : Nat)
    (st : BatchState α W T X) (hp : st.iit ≠ input.length) :
    batch_loop cfg epoch input expected fuel st = none := by
  induction fuel generalizing st with
  | zero => simp [batch_loop, hp]
  | succ k ih =>
    unfold batch_loop
    rw [if_pos hp]
    apply ih
    rw [batch_step_stuck cfg epoch input expected st hB]
    exact hp

/-- With batches of no item and a non-empty dataset no epoch ends. -/
theorem train_epoch_diverges [DivisionRing α] (fuel : Nat) (cfg : TrainerConfig α W T X)
    (D : Bool) (epoch : Nat) (st : TrainState α W T X) (hB : cfg.batch_size = 0)
    (hn : 1 ≤ st.input.length) : train_epoch fuel cfg D epoch st = none := by
  have hsz := (epoch_ranges_size cfg D epoch st.input st.expected).1
  have hb : epoch_batches fuel cfg D epoch st = none := by
    unfold epoch_batches
    apply batch_loop_diverges cfg epoch _ _ hB
    simp only []
    omega
  simp only [train_epoch, hb]

/-- With batches of no item and a non-empty dataset the loop over the epochs does not get
past its first epoch. -/
theorem train_epochs_diverges [DivisionRing α] (fuel : Nat) (cfg : TrainerConfig α W T X)
    (D : Bool) (st0 : TrainState α W T X) (hB : cfg.batch_size = 0)
    (hn : 1 ≤ st0.input.length) (k : Nat) :
    train_epochs fuel cfg D (k + 1) st0 = none := by
  induction k with
  | zero =>
    simp only [train_epochs]
    exact train_epoch_diverges fuel cfg D 0 st0 hB hn
  | succ k ih =>
    rw [train_epochs, ih]

/-- With batches of no item, a dataset of at least one item and a data based
initialisation of the weights that does not fail, `train` with at least one epoch is
still running after any number of iterations of its first batch loop. -/
theorem train_diverges [DivisionRing α] (fuel : Nat) (cfg : TrainerConfig α W T X) (D : Bool)
    (rbm : Rbm α W) (input expected : List X) (k : Nat) (hB : cfg.batch_size = 0)
    (hn : 1 ≤ input.length) (hinit : init_weights_succeeds cfg rbm input = true) :
    train fuel cfg D rbm input expected (k + 1) = none := by
  obtain ⟨start, hstart, _, _, _, _, h5, _, _, _⟩ :=
    train_start_ok cfg rbm input expected hinit
  have := train_epochs_diverges fuel cfg D start hB (by rw [h5]; exact hn) k
  simp only [train, hstart, this]

/-- C21, as stated, fails: on the dataset `[[1]]`, with batches of two items and three
epochs, `train` ends on the failed assertion of the data based initialisation of the
weights and has made none of the `3 * ⌈1 / 2⌉ = 3` calls of `train_batch`. -/
theorem train_aborts_before_first_batch :
    (∀ log : ℚ → ℚ,
        train 1 (standard_config log) false unit_weight_machine [[1]] [[1]] 3
            = some (.error { message := "NaN verify",
                             log := [Event.training_begin, Event.init_weights] })
          ∧ 1 ≤ (standard_config log).batch_size
          ∧ 3 * batch_count [[(1 : ℚ)]].length (standard_config log).batch_size = 3)
      ∧ (([Event.training_begin, Event.init_weights] : List (Event ℚ (List ℚ))).map
            Event.kind).filter EventKind.is_train_batch = [] := by
  refine ⟨?_, by simp [Event.kind, EventKind.is_train_batch]⟩
  intro log
  obtain ⟨message, _, hm, h⟩ := train_aborts 1 (standard_config log) false unit_weight_machine
    [[1]] [[1]] 3 (standard_config_fails log).1
  rw [(standard_config_fails log).2.2.1] at hm
  injection hm with hm
  subst hm
  refine ⟨h, by simp [standard_config], ?_⟩
  simp [standard_config, batch_count]

/-- C21, amended: for batches of at least one item and fuel for every item, `train` ends.
When the data based initialisation of the weights does not fail it returns, and the calls
it made hold exactly `max_epochs * ⌈n / batch_size⌉` calls of `train_batch`; when the
initialisation fails, `train` ends on the failed assertion and has made no call of
`train_batch`. Every iteration of the outer batch loop that starts before the end of the
input range moves the input iterator forward by at least one item without passing the
end. The condition on the batch size is needed: with batches of no item and a dataset of
at least one item an iteration leaves the iterator where it is, and `train` with at least
one epoch and an initialisation of the weights that does not fail is still running after
any number of iterations. -/
theorem train_terminates [DivisionRing α] (fuel : Nat) (cfg : TrainerConfig α W T X)
    (Denoising : Bool) (rbm : Rbm α W) (input expected : List X) (max_epochs : Nat)
    (hB : 1 ≤ cfg.batch_size) (hfuel : input.length ≤ fuel) :
    (init_weights_succeeds cfg rbm input = true →
        ∃ st, train fuel cfg Denoising rbm input expected max_epochs = some (.ok st)
          ∧ ((st.log.map Event.kind).filter EventKind.is_train_batch).length
              = max_epochs * batch_count input.length cfg.batch_size)
      ∧ (init_weights_succeeds cfg rbm input = false →
        ∃ abort, train fuel cfg Denoising rbm input expected max_epochs = some (.error abort)
          ∧ ((abort.log.map Event.kind).filter EventKind.is_train_batch).length = 0)
      ∧ (∀ (epoch : Nat) (inp exp : List X) (b : BatchState α W T X),
          b.iit < inp.length →
            b.iit < (batch_step cfg epoch inp exp b).iit
              ∧ (batch_step cfg epoch inp exp b).iit ≤ inp.length)
      ∧ (∀ cfg0 : TrainerConfig α W T X, cfg0.batch_size = 0 → 1 ≤ input.length →
          (∀ (epoch : Nat) (b : BatchState α W T X),
              (batch_step cfg0 epoch input expected b).iit = b.iit)
            ∧ (init_weights_succeeds cfg0 rbm input = true →
                ∀ fuel0 k, train fuel0 cfg0 Denoising rbm input expected (k + 1) = none)) := by
  refine ⟨?_, ?_, ?_, ?_⟩
  · intro hinit
    obtain ⟨start, hstart, _, _, _, _, h5, _, _, hkind⟩ :=
      train_start_ok cfg rbm input expected hinit
    have hf : start.input.length ≤ fuel := by rw [h5]; exact hfuel
    obtain ⟨st, hst, _, hlog⟩ :=
      train_epochs_kinds fuel cfg Denoising start hB hf max_epochs
    rw [h5] at hlog
    have hstart2 : (start.log.map Event.kind).filter EventKind.is_train_batch = [] := by
      rw [hkind]
      cases cfg.EnableWatcher <;> cases cfg.init_weights_trait <;>
        simp [EventKind.is_train_batch]
    refine ⟨_, train_of_epochs fuel cfg Denoising rbm input expected max_epochs start st
      hstart hst, ?_⟩
    show (((if cfg.EnableWatcher = true then st.log ++ [Event.training_end]
        else st.log).map Event.kind).filter EventKind.is_train_batch).length = _
    have hcount : ((st.log.map Event.kind).filter EventKind.is_train_batch).length
        = max_epochs * batch_count input.length cfg.batch_size := by
      rw [hlog, List.filter_append, hstart2, List.nil_append, filter_train_batch_epochs]
    cases hw : cfg.EnableWatcher
    · simpa using hcount
    · simp only [if_true, List.map_append, List.filter_append, List.length_append, hcount]
      simp [Event.kind, EventKind.is_train_batch]
  · intro hinit
    obtain ⟨message, _, _, h⟩ :=
      train_aborts fuel cfg Denoising rbm input expected max_epochs hinit
    refine ⟨_, h, ?_⟩
    cases cfg.EnableWatcher <;> simp [Event.kind, EventKind.is_train_batch]
  · intro epoch inp exp b hb
    exact batch_step_progress cfg epoch inp exp b hB hb
  · intro cfg0 h0 hn
    refine ⟨fun epoch b => batch_step_stuck cfg0 epoch input expected b h0, ?_⟩
    intro hinit fuel0 k
    exact train_diverges fuel0 cfg0 Denoising rbm input expected k h0 hn hinit

/-- C21, evaluated: three items in batches of two over four epochs make eight calls of
`train_batch`; on a dataset on which the initialisation of the weights fails `train` ends
without such a call; with batches of no item `train` is still running after a thousand
iterations of its first batch loop. -/
theorem train_terminates_witness :
    (∃ st, train 3 sum_config false switch_at_five [1, 0, 1] [1, 1, 1] 4 = some (.ok st)
        ∧ ((st.log.map Event.kind).filter EventKind.is_train_batch).length
            = 4 * batch_count [(1 : ℚ), 0, 1].length sum_config.batch_size)
      ∧ 4 * batch_count [(1 : ℚ), 0, 1].length sum_config.batch_size = 8
      ∧ (∀ log : ℚ → ℚ,
          ∃ abort, train 2 (standard_config log) false unit_weight_machine [[1], [1]]
              [[1], [1]] 4 = some (.error abort)
            ∧ ((abort.log.map Event.kind).filter EventKind.is_train_batch).length = 0)
      ∧ train 1000 empty_batch_config false switch_at_five [1, 0, 1] [1, 1, 1] (3 + 1) = none :=
  ⟨(train_terminates 3 sum_config false switch_at_five [1, 0, 1] [1, 1, 1] 4 (by decide)
      (by decide)).1 rfl,
   by decide,
   fun log =>
    (train_terminates 2 (standard_config log) false unit_weight_machine [[1], [1]] [[1], [1]] 4
      (by simp [standard_config]) (by decide)).2.1 (standard_config_fails log).2.1,
   ((train_terminates 3 sum_config false switch_at_five [1, 0, 1] [1, 1, 1] 4 (by decide)
      (by decide)).2.2.2 empty_batch_config rfl (by decide)).2 rfl 1000 3⟩

end dll

namespace dbn
variable {R α G : Type}
/-- Without sampling rounds `deep_activate_layers` computes what `activate_layers`
computes, for any layers `I, ..., layers - 1`. -/
theorem deep_activate_layers_zero [DivisionRing α] (ops : RbmOps R α G) (labels : Nat)
    (tuples : List (Layer R)) (input output : List α) (g : G) :
    deep_activate_layers ops labels 0 tuples input output g
      = activate_layers ops labels tuples input output g := by
  induction tuples generalizing input with
  | nil => simp [deep_activate_layers, activate_layers]
  | cons a t ih =>
    cases t with
    | nil => simp [deep_activate_layers, activate_layers, gibbs_rounds]
    | cons b t2 =>
      simp only [deep_activate_layers, activate_layers]
      rw [ih]

/-- C22: `deep_predict` with no sampling round computes what `predict` computes: from the
same state of the random generator both leave the same last layer reconstruction and
the same state of the generator after the same calls on the machines, and they return
the same result, the same label when the capacity check passes and the same failed
assertion otherwise. -/
theorem deep_predict_zero_eq_predict [LinearOrderedField α] (ops : RbmOps R α G)
    (tuples : List (Layer R)) (item : List α) (labels : Nat) (g : G) :
    deep_activate_layers ops labels 0 tuples item
        (List.replicate (num_visible tuples (layers tuples - 1)) 0) g
      = activate_layers ops labels tuples item
          (List.replicate (num_visible tuples (layers tuples - 1)) 0) g
      ∧ deep_predict_output ops tuples item labels 0 g = predict_output ops tuples item labels g
      ∧ deep_predict ops tuples item labels 0 g = predict ops tuples item labels g := by
  have h := deep_activate_layers_zero ops labels tuples item
    (List.replicate (num_visible tuples (layers tuples - 1)) 0) g
  have hout : deep_predict_output ops tuples item labels 0 g
      = predict_output ops tuples item labels g := by
    unfold deep_predict_output predict_output
    rw [h]
  refine ⟨h, hout, ?_⟩
  unfold deep_predict predict
  rw [h]

/-- The inner label loop writes no component outside the label units. -/
theorem getElem?_set_label_units_outside [Zero α] [One α] (nh labels label : Nat)
    (v : List α) (j : Nat) (hj : ¬ (nh ≤ j ∧ j < nh + labels)) :
    (set_label_units nh labels label v)[j]? = v[j]? := by
  unfold set_label_units
  induction labels with
  | zero => simp
  | succ k ih =>
    rw [List.range_succ, List.foldl_append]
    simp only [List.foldl_cons, List.foldl_nil]
    have hne : nh + k ≠ j := by omega
    split <;> simp only [List.getElem?_set, if_neg hne] <;> exact ih (by omega)

/-- C23: for a sample `k` that has a label, the item that `train_rbm_layers` builds for the
last layer has `num_hidden + labels` components; the label loop leaves every component
outside the label units as `activate_hidden` wrote it, for every label value and for
vectors of any size; when the label is `labels` or larger all label units are `0`; and
in any case at most one label unit is `1`. -/
theorem label_injection_frame [Zero α] [One α] [NeZero (1 : α)] (ops : RbmOps R α G)
    (nh : Nat) (rbm : R) (training_data : List (List α)) (training_labels : List Nat)
    (labels k : Nat) (hk : k < training_data.length) (hl : k < training_labels.length) :
    ∃ sample item,
      training_data[k]? = some sample
        ∧ (next_dataset ops nh rbm true training_data training_labels labels)[k]? = some item
        ∧ item = set_label_units nh labels (training_labels.getD k 0)
            (ops.activate_hidden rbm (List.replicate (nh + labels) 0) sample)
        ∧ item.length = nh + labels
        ∧ (∀ j, j < nh →
            item[j]? = (ops.activate_hidden rbm (List.replicate (nh + labels) 0) sample)[j]?)
        ∧ (∀ (label : Nat) (v : List α) (j : Nat), ¬ (nh ≤ j ∧ j < nh + labels) →
            (set_label_units nh labels label v)[j]? = v[j]?)
        ∧ (labels ≤ training_labels.getD k 0 → ∀ l, l < labels → item[nh + l]? = some 0)
        ∧ (∀ l1 l2, l1 < labels → l2 < labels →
            item[nh + l1]? = some 1 → item[nh + l2]? = some 1 → l1 = l2) := by
  have hlen : nh + labels
      ≤ (ops.activate_hidden rbm (List.replicate (nh + labels) 0) training_data[k]).length := by
    simp [ops.activate_hidden_size]
  have hslot := getElem?_set_label_units nh labels (training_labels.getD k 0)
    (ops.activate_hidden rbm (List.replicate (nh + labels) 0) training_data[k]) hlen
  refine ⟨training_data[k], _, List.getElem?_eq_getElem hk, ?_, rfl, ?_, ?_, ?_, ?_, ?_⟩
  · simp [next_dataset, getElem?_append_label_units, hl, hk]
  · simp [length_set_label_units, ops.activate_hidden_size]
  · intro j hj
    exact getElem?_set_label_units_of_lt nh labels _ _ j hj
  · intro label v j hj
    exact getElem?_set_label_units_outside nh labels label v j hj
  · intro hbig l hlt
    rw [hslot l hlt]
    have : training_labels.getD k 0 ≠ l := by omega
    rw [if_neg this]
  · intro l1 l2 h1 h2 e1 e2
    rw [hslot l1 h1] at e1
    rw [hslot l2 h2] at e2
    have hone : (1 : α) ≠ 0 := NeZero.ne 1
    by_cases g1 : training_labels.getD k 0 = l1
    · by_cases g2 : training_labels.getD k 0 = l2
      · omega
      · rw [if_neg g2] at e2
        injection e2 with e2
        exact absurd e2.symm hone
    · rw [if_neg g1] at e1
      injection e1 with e1
      exact absurd e1.symm hone

/-- C23, evaluated: with three label units the sample with label `7` gets the slots
`[0, 0, 0]` and the sample with label `1` the slots `[0, 1, 0]`, behind the two hidden
activations. -/
theorem label_injection_frame_witness :
    next_dataset bias_only_ops 2 [0] true [[1], [0]] [7, 1] 3
        = [[0, 0, 0, 0, 0], [0, 0, 0, 1, 0]]
      ∧ ∃ sample item,
        [[(1 : ℚ)], [0]][0]? = some sample
          ∧ (next_dataset bias_only_ops 2 [0] true [[1], [0]] [7, 1] 3)[0]? = some item
          ∧ item = set_label_units 2 3 ([7, 1].getD 0 0)
              (bias_only_ops.activate_hidden [0] (List.replicate (2 + 3) 0) sample)
          ∧ item.length = 2 + 3
          ∧ (∀ j, j < 2 →
              item[j]? = (bias_only_ops.activate_hidden [0] (List.replicate (2 + 3) 0)
                sample)[j]?)
          ∧ (∀ (label : Nat) (v : List ℚ) (j : Nat), ¬ (2 ≤ j ∧ j < 2 + 3) →
              (set_label_units 2 3 label v)[j]? = v[j]?)
          ∧ (3 ≤ [7, 1].getD 0 0 → ∀ l, l < 3 → item[2 + l]? = some 0)
          ∧ (∀ l1 l2, l1 < 3 → l2 < 3 →
              item[2 + l1]? = some 1 → item[2 + l2]? = some 1 → l1 = l2) :=
  ⟨by decide,
   label_injection_frame bias_only_ops 2 [0] [[1], [0]] [7, 1] 3 0 (by decide) (by decide)⟩

end dbn

namespace dll
variable {α W T X : Type}
/-- C5, as stated, fails: on a non-empty dataset and with one epoch `train` returns no
value with batches of no item, where it is still running after any number of iterations
of its first batch loop, and no value either on the dataset `[[1]]` of the machine
`unit_weight_rbm`, where it ends before the first epoch on the failed assertion of the
data based initialisation of the weights. -/
theorem train_returns_nothing :
    (∀ fuel, train fuel empty_batch_config false switch_at_five [1, 0, 1] [1, 1, 1] 1 = none)
      ∧ empty_batch_config.batch_size = 0
      ∧ ∀ fuel (log : ℚ → ℚ),
          train fuel (standard_config log) false unit_weight_machine [[1]] [[1]] 1
            = some (.error { message := "NaN verify",
                             log := [Event.training_begin, Event.init_weights] }) := by
  refine ⟨?_, rfl, ?_⟩
  · intro fuel
    exact train_diverges fuel empty_batch_config false switch_at_five [1, 0, 1] [1, 1, 1] 0
      rfl (by decide) rfl
  · intro fuel log
    obtain ⟨message, _, hm, h⟩ := train_aborts fuel (standard_config log) false
      unit_weight_machine [[1]] [[1]] 1 (standard_config_fails log).1
    rw [(standard_config_fails log).2.2.1] at hm
    injection hm with hm
    subst hm
    exact h

/-- C14, as stated, fails: on the dataset `[[1], [1]]` of the machine `unit_weight_rbm`,
with the watcher enabled and two epochs, `train` ends on the failed assertion of the data
based initialisation of the weights after the notification `training_begin` alone, with
no `epoch_end` and no `training_end`; and with batches of no item `train` is still
running in its first epoch after any number of iterations, so that no `epoch_end` and no
`training_end` is ever notified. -/
theorem train_notifications_cut_short :
    (∀ fuel (log : ℚ → ℚ),
        ∃ abort, train fuel (standard_config log) false unit_weight_machine [[1], [1]]
              [[1], [1]] 2 = some (.error abort)
          ∧ (abort.log.map Event.kind).filter EventKind.is_notification
              = [EventKind.training_begin]
          ∧ (standard_config log).EnableWatcher = true)
      ∧ (∀ fuel, train fuel empty_batch_config false switch_at_five [1, 0, 1] [1, 1, 1] 2 = none)
      ∧ empty_batch_config.EnableWatcher = true := by
  refine ⟨?_, ?_, rfl⟩
  · intro fuel log
    obtain ⟨message, _, _, h⟩ := train_aborts fuel (standard_config log) false
      unit_weight_machine [[1], [1]] [[1], [1]] 2 (standard_config_fails log).2.1
    refine ⟨_, h, ?_, rfl⟩
    simp [standard_config, Event.kind, EventKind.is_notification]
  · intro fuel
    exact train_diverges fuel empty_batch_config false switch_at_five [1, 0, 1] [1, 1, 1] 1
      rfl (by decide) rfl

end dll
